import Mathlib

/-!
# MSM TLMMv2 GPIO controller (arch/arm/mach-msm/gpio-v2.c)

A shallow embedding of the gpio-v2 driver: the register file is a map from
virtual addresses to 32-bit words, the three bitmaps of `struct msm_gpio_dev`
are maps from bit index to `Bool`, and every call the driver makes to the
outside (MMIO accesses, barriers, the lock, the MPM coordinator, the host
interrupt layer, the log) is appended to a trace.

The in/out and interrupt-status registers of the lines below `NR_MSM_GPIOS`
are live hardware: a read of one of them returns what the environment supplies
at that moment (`State.live` at the current `State.tick`, which advances with
every such read).  All other registers read back the word last stored.
-/

namespace GpioV2

/-! ## Platform constants that the sources take from headers -/

/-- Constants of mach/irqs.h and mach/msm_iomap.h, which the driver uses but
which are declared outside the translated sources. -/
structure Platform where
  NR_MSM_GPIOS : Nat
  NR_MSM_IRQS : Nat
  NR_TLMM_SCSS_DIR_CONN_IRQ : Nat
  TLMM_SCSS_SUMMARY_IRQ : Nat
  MSM_TLMM_BASE : Nat
  MSM_TLMM_SIZE : Nat
  MSM_TLMM_PHYS : Nat
  MSM_TCSR_BASE : Nat
  MSM_TCSR_SIZE : Nat
  MSM_TCSR_PHYS : Nat
  MSM_MMSS_CLK_CTL_BASE : Nat
  MSM_MMSS_CLK_CTL_SIZE : Nat
  MSM_MMSS_CLK_CTL_PHYS : Nat

/-- A platform on which the driver is evaluated in the examples below: the
line count, irq base and summary irq of the MSM8x60, with the three protected
windows laid out disjointly. -/
def msm8x60 : Platform where
  NR_MSM_GPIOS := 173
  NR_MSM_IRQS := 256
  NR_TLMM_SCSS_DIR_CONN_IRQ := 10
  TLMM_SCSS_SUMMARY_IRQ := 48
  MSM_TLMM_BASE := 0xFA004000
  MSM_TLMM_SIZE := 0x4000
  MSM_TLMM_PHYS := 0x00800000
  MSM_TCSR_BASE := 0xFA00A000
  MSM_TCSR_SIZE := 0x1000
  MSM_TCSR_PHYS := 0x16B00000
  MSM_MMSS_CLK_CTL_BASE := 0xFA014000
  MSM_MMSS_CLK_CTL_SIZE := 0x1000
  MSM_MMSS_CLK_CTL_PHYS := 0x04000000

/-- Modelled from the spec: the macro MSM_GPIO_TO_INT of mach/irqs.h is not
among the sources; the spec gives `irq_id = irq_base + i`. -/
def MSM_GPIO_TO_INT (P : Platform) (n : Nat) : Nat := P.NR_MSM_IRQS + n

/-- Modelled from the spec: linux/bitops.h is not among the sources; `BIT(n)`
is the word with only bit `n` set. -/
def BIT (n : Nat) : Nat := 1 <<< n

/-- Bitwise complement of a 32-bit unsigned word (the C operator `~` on
`unsigned`). -/
def not32 (n : Nat) : Nat := 4294967295 ^^^ (n % 4294967296)

/-! Flow types of linux/irq.h and trigger flags of linux/interrupt.h. -/

/-- Modelled from the spec: linux/irq.h is not among the sources; rising-edge
flow type. -/
def IRQ_TYPE_EDGE_RISING : Nat := 1
/-- Modelled from the spec: linux/irq.h is not among the sources; falling-edge
flow type. -/
def IRQ_TYPE_EDGE_FALLING : Nat := 2
/-- Modelled from the spec: both edges, the union of rising and falling. -/
def IRQ_TYPE_EDGE_BOTH : Nat := IRQ_TYPE_EDGE_FALLING ||| IRQ_TYPE_EDGE_RISING
/-- Modelled from the spec: linux/irq.h is not among the sources; level-high
flow type. -/
def IRQ_TYPE_LEVEL_HIGH : Nat := 4
/-- Modelled from the spec: linux/irq.h is not among the sources; level-low
flow type. -/
def IRQ_TYPE_LEVEL_LOW : Nat := 8
/-- Modelled from the spec: linux/interrupt.h is not among the sources;
trigger on the rising edge. -/
def IRQF_TRIGGER_RISING : Nat := 1
/-- Modelled from the spec: linux/interrupt.h is not among the sources;
trigger on the falling edge. -/
def IRQF_TRIGGER_FALLING : Nat := 2

/-! ## Bits and codes (gpio-v2.c lines 39-82, 122-125) -/

def GPIO_IN_BIT : Nat := 0
def GPIO_OUT_BIT : Nat := 1
def INTR_STATUS_BIT : Nat := 0
def GPIO_OE_BIT : Nat := 9
def INTR_ENABLE_BIT : Nat := 0
def INTR_POL_CTL_BIT : Nat := 1
def INTR_DECT_CTL_BIT : Nat := 2
def INTR_RAW_STATUS_EN_BIT : Nat := 3
def TARGET_PROC_SCORPION : Nat := 4
def TARGET_PROC_NONE : Nat := 7
def DC_POLARITY_HI : Nat := BIT 11
def DC_IRQ_ENABLE : Nat := BIT 3

def INTR_RAW_STATUS_EN : Nat := BIT INTR_RAW_STATUS_EN_BIT
def INTR_ENABLE : Nat := BIT INTR_ENABLE_BIT
def INTR_DECT_CTL_EDGE : Nat := BIT INTR_DECT_CTL_BIT
def INTR_POL_CTL_HI : Nat := BIT INTR_POL_CTL_BIT

/-! ## Register addresses (gpio-v2.c lines 127-132) -/

def GPIO_INTR_CFG_SU (P : Platform) (gpio : Nat) : Nat :=
  P.MSM_TLMM_BASE + 0x0400 + (0x04 * gpio)
def DIR_CONN_INTR_CFG_SU (P : Platform) (irq : Nat) : Nat :=
  P.MSM_TLMM_BASE + 0x0700 + (0x04 * irq)
def GPIO_CONFIG (P : Platform) (gpio : Nat) : Nat :=
  P.MSM_TLMM_BASE + 0x1000 + (0x10 * gpio)
def GPIO_IN_OUT (P : Platform) (gpio : Nat) : Nat :=
  P.MSM_TLMM_BASE + 0x1004 + (0x10 * gpio)
def GPIO_INTR_CFG (P : Platform) (gpio : Nat) : Nat :=
  P.MSM_TLMM_BASE + 0x1008 + (0x10 * gpio)
def GPIO_INTR_STATUS (P : Platform) (gpio : Nat) : Nat :=
  P.MSM_TLMM_BASE + 0x100c + (0x10 * gpio)

/-! ## Events and state -/

/-- The flow handler stored in `irq_desc[irq].handle_irq`. -/
inductive FlowHandler where
  | handle_level_irq
  | handle_edge_irq
deriving DecidableEq, Repr

/-- What the driver does to the world outside its own bitmaps, in program
order. -/
inductive Event where
  | spin_lock_irqsave
  | spin_unlock_irqrestore
  | dsb
  | readl (addr val : Nat)
  | writel (val addr : Nat)
  | smc_io_write (val phys : Nat)
  | msm_mpm_enable_irq (irq enable : Nat)
  | msm_mpm_set_irq_type (irq flow_type : Nat)
  | msm_mpm_set_irq_wake (irq enable : Nat)
  | set_irq_wake (irq enable : Nat)
  | generic_handle_irq (irq : Nat)
  | chip_ack (irq : Nat)
  | pr_err_dual_edge (val val2 : Nat)
  | msm_gpiomux_get (gpio : Nat)
  | msm_gpiomux_put (gpio : Nat)
  | smc_io_read (phys val : Nat)
deriving DecidableEq, Repr

/-- The controller (`msm_gpio`), the TLMM register file, the host's flow
handler table, the live pin environment and the trace of events so far. -/
structure State where
  regs : Nat → Nat
  live : Nat → Nat → Nat
  tick : Nat
  enabled_irqs : Nat → Bool
  wake_irqs : Nat → Bool
  dual_edge_irqs : Nat → Bool
  handle_irq : Nat → FlowHandler
  trace : List Event

/-- The 32-bit word a register holds. -/
def State.word (s : State) (a : Nat) : Nat := s.regs a % 4294967296

/-- The events a run from `s` to `t` has appended. -/
def events_since (s t : State) : List Event := t.trace.drop s.trace.length

def emit (e : Event) (s : State) : State := { s with trace := s.trace ++ [e] }

/-- The in/out register (offset 4 of a line's 16-byte window) and the
interrupt-status register (offset 12) of each of the `NR_MSM_GPIOS` lines are
driven by the hardware.  Addresses past the window of the last line are not:
the registers there hold what was stored to them. -/
def is_live (P : Platform) (a : Nat) : Bool :=
  decide (P.MSM_TLMM_BASE + 0x1000 ≤ a) &&
    decide (a < P.MSM_TLMM_BASE + 0x1000 + 0x10 * P.NR_MSM_GPIOS) &&
    (decide ((a - (P.MSM_TLMM_BASE + 0x1000)) % 0x10 = 4) ||
     decide ((a - (P.MSM_TLMM_BASE + 0x1000)) % 0x10 = 0xc))

/-- Modelled from the spec: `readl` of asm/io.h is not among the sources; a
32-bit memory-mapped read.  A live register yields what the environment
presents at this tick, any other register the word last stored. -/
def readl (P : Platform) (a : Nat) (s : State) : Nat × State :=
  if is_live P a then
    let v := s.live s.tick a % 4294967296
    (v, { s with tick := s.tick + 1, trace := s.trace ++ [Event.readl a v] })
  else
    (s.word a, { s with trace := s.trace ++ [Event.readl a (s.word a)] })

/-- Modelled from the spec: `writel` of asm/io.h is not among the sources; a
32-bit memory-mapped write. -/
def writel (v a : Nat) (s : State) : State :=
  { s with regs := Function.update s.regs a (v % 4294967296),
           trace := s.trace ++ [Event.writel (v % 4294967296) a] }

def dsb (s : State) : State := emit Event.dsb s
def spin_lock_irqsave (s : State) : State := emit Event.spin_lock_irqsave s
def spin_unlock_irqrestore (s : State) : State := emit Event.spin_unlock_irqrestore s

/-! ## Bitmap operations (linux/bitmap.h, linux/bitops.h) -/

/-- Modelled from the spec: `__set_bit` / `set_bit` of linux/bitops.h. -/
def set_bit (nr : Nat) (addr : Nat → Bool) : Nat → Bool := Function.update addr nr true
/-- Modelled from the spec: `__clear_bit` / `clear_bit` of linux/bitops.h. -/
def clear_bit (nr : Nat) (addr : Nat → Bool) : Nat → Bool := Function.update addr nr false
/-- Modelled from the spec: `test_bit` of linux/bitops.h. -/
def test_bit (nr : Nat) (addr : Nat → Bool) : Bool := addr nr

/-- Search of `find_next_bit`: the first set index in `[offset, size)`, or
`size`, looking at no more than `fuel` positions. -/
def find_next_bit_from (addr : Nat → Bool) (size : Nat) : Nat → Nat → Nat
  | 0, _ => size
  | fuel + 1, offset =>
    if offset < size then
      if addr offset then offset else find_next_bit_from addr size fuel (offset + 1)
    else size

/-- Modelled from the spec: `find_next_bit` of linux/bitops.h is not among the
sources; the index of the first set bit at or after `offset`, or `size` when
there is none. -/
def find_next_bit (addr : Nat → Bool) (size offset : Nat) : Nat :=
  find_next_bit_from addr size (size - offset) offset

/-- Modelled from the spec: `find_first_bit` of linux/bitops.h. -/
def find_first_bit (addr : Nat → Bool) (size : Nat) : Nat := find_next_bit addr size 0

/-- Modelled from the spec: `bitmap_empty` of linux/bitmap.h is not among the
sources; no bit below `nbits` is set. -/
def bitmap_empty (addr : Nat → Bool) (nbits : Nat) : Bool :=
  decide (∀ i, i < nbits → addr i = false)

/-! ## Secure-monitor register writes (scm-io.c) -/

def BETWEEN (p st sz : Nat) : Bool := decide (p ≥ st) && decide (p < st + sz)

def XLATE (p pst vst : Nat) : Nat := ((p - vst) % 4294967296 + pst) % 4294967296

/-- The `smc` of `__secure_writel`: the monitor is asked to store `v` at the
physical address `addr`; `c` is the virtual address of that same register, at
which the register file records the store. -/
def secure_writel_smc (v addr c : Nat) (s : State) : State :=
  { s with regs := Function.update s.regs c (v % 4294967296),
           trace := s.trace ++ [Event.smc_io_write (v % 4294967296) addr] }

def secure_writel (P : Platform) (v c : Nat) (s : State) : State :=
  if BETWEEN c P.MSM_MMSS_CLK_CTL_BASE P.MSM_MMSS_CLK_CTL_SIZE then
    secure_writel_smc v (XLATE c P.MSM_MMSS_CLK_CTL_PHYS P.MSM_MMSS_CLK_CTL_BASE) c s
  else if BETWEEN c P.MSM_TCSR_BASE P.MSM_TCSR_SIZE then
    secure_writel_smc v (XLATE c P.MSM_TCSR_PHYS P.MSM_TCSR_BASE) c s
  else if BETWEEN c P.MSM_TLMM_BASE P.MSM_TLMM_SIZE then
    secure_writel_smc v (XLATE c P.MSM_TLMM_PHYS P.MSM_TLMM_BASE) c s
  else
    writel v c s

/-! ## gpio-v2.c -/

def set_gpio_bits (P : Platform) (n reg : Nat) (s : State) : State :=
  let r := readl P reg s
  writel (r.1 ||| n) reg r.2

def clr_gpio_bits (P : Platform) (n reg : Nat) (s : State) : State :=
  let r := readl P reg s
  writel (r.1 &&& not32 n) reg r.2

/-- The `base` field of `msm_gpio.gpio_chip`. -/
def chip_base : Nat := 0

def msm_gpio_to_irq (P : Platform) (offset : Nat) : Nat :=
  MSM_GPIO_TO_INT P (offset - chip_base)

/-- The line of a virtual interrupt.  The irq chip is installed only on the
interrupts `msm_gpio_to_irq` yields, so the subtraction does not wrap. -/
def msm_irq_to_gpio (P : Platform) (irq : Nat) : Nat :=
  irq - MSM_GPIO_TO_INT P chip_base

/-- The exit of the retry loop at label `out`: the MPM is told the edge the
line is now armed for. -/
def dual_edge_out (P : Platform) (gpio val : Nat) (s : State) : State :=
  if val ≠ 0 then
    emit (Event.msm_mpm_set_irq_type (msm_gpio_to_irq P gpio) IRQF_TRIGGER_FALLING) s
  else
    emit (Event.msm_mpm_set_irq_type (msm_gpio_to_irq P gpio) IRQF_TRIGGER_RISING) s

/-- What one pass of the do-while body leaves behind: the three sampled
values and the state. -/
structure Pass where
  val : Nat
  val2 : Nat
  intstat : Nat
  st : State

/-- The body of the do-while loop of `msm_gpio_update_dual_edge_pos` (lines
273-279), up to the success test. -/
def dual_edge_body (P : Platform) (gpio : Nat) (s : State) : Pass :=
  let r1 := readl P (GPIO_IN_OUT P gpio) s
  let val := r1.1 &&& BIT GPIO_IN_BIT
  let s1 :=
    if val ≠ 0 then clr_gpio_bits P INTR_POL_CTL_HI (GPIO_INTR_CFG P gpio) r1.2
    else set_gpio_bits P INTR_POL_CTL_HI (GPIO_INTR_CFG P gpio) r1.2
  let r2 := readl P (GPIO_IN_OUT P gpio) s1
  let val2 := r2.1 &&& BIT GPIO_IN_BIT
  let r3 := readl P (GPIO_INTR_STATUS P gpio) r2.2
  let intstat := r3.1 &&& BIT INTR_STATUS_BIT
  { val := val, val2 := val2, intstat := intstat, st := r3.2 }

/-- The do-while loop of `msm_gpio_update_dual_edge_pos`, with the current
value of `loop_limit`; the test `loop_limit-- > 0` is made after the body. -/
def dual_edge_loop (P : Platform) (gpio : Nat) : Nat → State → State
  | loop_limit, s =>
    let b := dual_edge_body P gpio s
    if b.intstat ≠ 0 ∨ b.val = b.val2 then
      dual_edge_out P gpio b.val b.st
    else
      match loop_limit with
      | n + 1 => dual_edge_loop P gpio n b.st
      | 0 => emit (Event.pr_err_dual_edge b.val b.val2) b.st

def msm_gpio_update_dual_edge_pos (P : Platform) (gpio : Nat) (s : State) : State :=
  dual_edge_loop P gpio 100 s

def msm_gpio_irq_ack (P : Platform) (irq : Nat) (s : State) : State :=
  let gpio := msm_irq_to_gpio P irq
  let s1 := writel (BIT INTR_STATUS_BIT) (GPIO_INTR_STATUS P gpio) s
  let s2 := if test_bit gpio s1.dual_edge_irqs then msm_gpio_update_dual_edge_pos P gpio s1 else s1
  dsb s2

def msm_gpio_irq_mask (P : Platform) (irq : Nat) (s : State) : State :=
  let gpio := msm_irq_to_gpio P irq
  let s1 := spin_lock_irqsave s
  let s2 := secure_writel P TARGET_PROC_NONE (GPIO_INTR_CFG_SU P gpio) s1
  let s3 := clr_gpio_bits P (INTR_RAW_STATUS_EN ||| INTR_ENABLE) (GPIO_INTR_CFG P gpio) s2
  let s4 := { s3 with enabled_irqs := clear_bit gpio s3.enabled_irqs }
  let s5 := dsb s4
  let s6 := spin_unlock_irqrestore s5
  emit (Event.msm_mpm_enable_irq irq 0) s6

def msm_gpio_irq_unmask (P : Platform) (irq : Nat) (s : State) : State :=
  let gpio := msm_irq_to_gpio P irq
  let s1 := spin_lock_irqsave s
  let s2 := { s1 with enabled_irqs := set_bit gpio s1.enabled_irqs }
  let s3 := set_gpio_bits P (INTR_RAW_STATUS_EN ||| INTR_ENABLE) (GPIO_INTR_CFG P gpio) s2
  let s4 := secure_writel P TARGET_PROC_SCORPION (GPIO_INTR_CFG_SU P gpio) s3
  let s5 := dsb s4
  let s6 := spin_unlock_irqrestore s5
  emit (Event.msm_mpm_enable_irq irq 1) s6

/-- The detect-mode branch of `msm_gpio_irq_set_type` (lines 348-359): the
new value of `bits`, the flow handler and the dual-edge bitmap. -/
def set_type_detect (P : Platform) (irq flow_type bits : Nat) (s : State) : Nat × State :=
  let gpio := msm_irq_to_gpio P irq
  if flow_type &&& IRQ_TYPE_EDGE_BOTH ≠ 0 then
    (bits ||| INTR_DECT_CTL_EDGE,
     { s with handle_irq := Function.update s.handle_irq irq FlowHandler.handle_edge_irq,
              dual_edge_irqs :=
                if flow_type &&& IRQ_TYPE_EDGE_BOTH = IRQ_TYPE_EDGE_BOTH then
                  set_bit gpio s.dual_edge_irqs
                else clear_bit gpio s.dual_edge_irqs })
  else
    (bits &&& not32 INTR_DECT_CTL_EDGE,
     { s with handle_irq := Function.update s.handle_irq irq FlowHandler.handle_level_irq,
              dual_edge_irqs := clear_bit gpio s.dual_edge_irqs })

/-- The polarity branch of `msm_gpio_irq_set_type` (lines 361-364). -/
def set_type_polarity (flow_type bits : Nat) : Nat :=
  if flow_type &&& (IRQ_TYPE_EDGE_RISING ||| IRQ_TYPE_LEVEL_HIGH) ≠ 0 then
    bits ||| INTR_POL_CTL_HI
  else bits &&& not32 INTR_POL_CTL_HI

def msm_gpio_irq_set_type (P : Platform) (irq flow_type : Nat) (s : State) : Nat × State :=
  let gpio := msm_irq_to_gpio P irq
  let s1 := spin_lock_irqsave s
  let r := readl P (GPIO_INTR_CFG P gpio) s1
  let d := set_type_detect P irq flow_type r.1 r.2
  let bits := set_type_polarity flow_type d.1
  let s2 := writel bits (GPIO_INTR_CFG P gpio) d.2
  let s3 :=
    if flow_type &&& IRQ_TYPE_EDGE_BOTH = IRQ_TYPE_EDGE_BOTH then
      msm_gpio_update_dual_edge_pos P gpio s2
    else s2
  let s4 := dsb s3
  let s5 := spin_unlock_irqrestore s4
  (0, emit (Event.msm_mpm_set_irq_type irq flow_type) s5)

/-- The body of the for loop of `msm_summary_irq_handler` for line `i`
(lines 391-393). -/
def summary_body (P : Platform) (i : Nat) (s : State) : State :=
  let r := readl P (GPIO_INTR_STATUS P i) s
  if r.1 &&& BIT INTR_STATUS_BIT ≠ 0 then
    emit (Event.generic_handle_irq (msm_gpio_to_irq P i)) r.2
  else r.2

/-- The for loop of `msm_summary_irq_handler` from line index `i` on; `fuel`
bounds the number of passes, and `NR_MSM_GPIOS` passes always suffice since
`i` grows with every pass. -/
def summary_loop (P : Platform) : Nat → Nat → State → State
  | 0, _, s => s
  | fuel + 1, i, s =>
    if i < P.NR_MSM_GPIOS then
      let s1 := summary_body P i s
      summary_loop P fuel (find_next_bit s1.enabled_irqs P.NR_MSM_GPIOS (i + 1)) s1
    else s

def msm_summary_irq_handler (P : Platform) (irq : Nat) (s : State) : State :=
  let s1 := summary_loop P P.NR_MSM_GPIOS (find_first_bit s.enabled_irqs P.NR_MSM_GPIOS) s
  emit (Event.chip_ack irq) s1

def msm_gpio_irq_set_wake (P : Platform) (irq on_ : Nat) (s : State) : Nat × State :=
  let gpio := msm_irq_to_gpio P irq
  let s1 :=
    if on_ ≠ 0 then
      let s0 :=
        if bitmap_empty s.wake_irqs P.NR_MSM_GPIOS then
          emit (Event.set_irq_wake P.TLMM_SCSS_SUMMARY_IRQ 1) s
        else s
      { s0 with wake_irqs := set_bit gpio s0.wake_irqs }
    else
      let s0 := { s with wake_irqs := clear_bit gpio s.wake_irqs }
      if bitmap_empty s0.wake_irqs P.NR_MSM_GPIOS then
        emit (Event.set_irq_wake P.TLMM_SCSS_SUMMARY_IRQ 0) s0
      else s0
  (0, emit (Event.msm_mpm_set_irq_wake irq on_) s1)

/-! ## Concrete states -/

/-- The state right after probe: bitmaps zeroed, every flow handler
`handle_level_irq`, all registers zero, with the given pin environment. -/
def probed (live : Nat → Nat → Nat) : State where
  regs := fun _ => 0
  live := live
  tick := 0
  enabled_irqs := fun _ => false
  wake_irqs := fun _ => false
  dual_edge_irqs := fun _ => false
  handle_irq := fun _ => FlowHandler.handle_level_irq
  trace := []

/-- The polarity writes in a list of events: the stores to the
interrupt-config register of `gpio`, one per pass of the re-arm loop. -/
def polarity_writes (P : Platform) (gpio : Nat) (evs : List Event) : List Event :=
  evs.filter (fun e => match e with
    | Event.writel _ a => decide (a = GPIO_INTR_CFG P gpio)
    | _ => false)

/-- Calls to the MPM wake-routing coordinator among the events. -/
def is_mpm_call (e : Event) : Bool :=
  match e with
  | Event.msm_mpm_enable_irq _ _ => true
  | Event.msm_mpm_set_irq_type _ _ => true
  | Event.msm_mpm_set_irq_wake _ _ => true
  | _ => false

/-- The calls to the MPM wake-routing coordinator in a list of events. -/
def mpm_calls (evs : List Event) : List Event := evs.filter is_mpm_call

/-- The virtual interrupts handed to `generic_handle_irq`, in order. -/
def dispatched (evs : List Event) : List Nat :=
  evs.filterMap (fun e => match e with
    | Event.generic_handle_irq irq => some irq
    | _ => none)

/-- The word a read of the register at `a` returns when it is the `k`-th live
read counted from `s`: what the environment presents then if the register is
live, and the stored word otherwise. -/
def read_at (P : Platform) (a : Nat) (s : State) (k : Nat) : Nat :=
  if is_live P a then s.live (s.tick + k) a % 4294967296 else s.word a

/-- The input bit (bit `GPIO_IN_BIT` of the in/out register) that the `k`-th
live read counted from `s` returns: for a line below `NR_MSM_GPIOS`, what the
environment presents then. -/
def in_bit (P : Platform) (gpio : Nat) (s : State) (k : Nat) : Nat :=
  read_at P (GPIO_IN_OUT P gpio) s k &&& BIT GPIO_IN_BIT

/-- The raw-status bit that the `k`-th live read counted from `s` returns: for
a line below `NR_MSM_GPIOS`, what the environment presents then. -/
def status_bit (P : Platform) (gpio : Nat) (s : State) (k : Nat) : Nat :=
  read_at P (GPIO_INTR_STATUS P gpio) s k &&& BIT INTR_STATUS_BIT

/-- The interrupt-config word a pass of the re-arm loop stores when it has
sampled `val` and found the word `c`. -/
def rearm_word (val c : Nat) : Nat :=
  if val ≠ 0 then (c &&& not32 INTR_POL_CTL_HI) % 4294967296
  else (c ||| INTR_POL_CTL_HI) % 4294967296

/-- The five MMIO events of one pass of the re-arm loop started in `s`. -/
def pass_events (P : Platform) (gpio : Nat) (s : State) : List Event :=
  [Event.readl (GPIO_IN_OUT P gpio) (read_at P (GPIO_IN_OUT P gpio) s 0),
   Event.readl (GPIO_INTR_CFG P gpio) (s.word (GPIO_INTR_CFG P gpio)),
   Event.writel (rearm_word (in_bit P gpio s 0) (s.word (GPIO_INTR_CFG P gpio)))
     (GPIO_INTR_CFG P gpio),
   Event.readl (GPIO_IN_OUT P gpio) (read_at P (GPIO_IN_OUT P gpio) s 1),
   Event.readl (GPIO_INTR_STATUS P gpio) (read_at P (GPIO_INTR_STATUS P gpio) s 2)]

/-- The line is unstable over passes `0..n` of the re-arm loop started in `s`:
in each pass the two reads of the input bit differ and the raw-status bit
reads clear. -/
def unstable (P : Platform) (gpio : Nat) (s : State) (n : Nat) : Prop :=
  ∀ k, k ≤ n →
    in_bit P gpio s (3 * k) ≠ in_bit P gpio s (3 * k + 1) ∧ status_bit P gpio s (3 * k + 2) = 0

/-- A pin environment in which, from tick 0 on, every pass of the re-arm loop
reads the input high, then low, and the raw-status bit clear. -/
def toggling_line : Nat → Nat → Nat := fun t _ => if t % 3 = 0 then 1 else 0

/-- A pin environment in which the in/out register of `gpio` always reads `v`
and every other live register reads zero (no raw-status bit is ever set). -/
def steady_line (P : Platform) (gpio v : Nat) : Nat → Nat → Nat :=
  fun _ a => if a = GPIO_IN_OUT P gpio then v else 0

/-- Memory-mapped register accesses among the events. -/
def is_mmio (e : Event) : Bool :=
  match e with
  | Event.readl _ _ => true
  | Event.writel _ _ => true
  | _ => false

/-- The state after probe with msm8x60 line 5 always reading high. -/
def high_line_state : State := probed (steady_line msm8x60 5 1)

/-- The state after probe with msm8x60 line 5 always reading low. -/
def low_line_state : State := probed (steady_line msm8x60 5 0)

/-- The events the scan of the summary handler may produce: status reads and
dispatches. -/
def is_scan_event (e : Event) : Bool :=
  match e with
  | Event.readl _ _ => true
  | Event.generic_handle_irq _ => true
  | _ => false

/-- The msm8x60 constants with room for 250 lines. -/
def wide_platform : Platform := { msm8x60 with NR_MSM_GPIOS := 250 }

/-- Lines 3, 17 and 200 unmasked, the raw-status bit of line 17 alone set. -/
def summary_scenario : State :=
  { probed (fun _ a => if a = GPIO_INTR_STATUS wide_platform 17 then 1 else 0) with
    enabled_irqs := fun i => i == 3 || i == 17 || i == 200 }

/-- The events of one pass of the summary scan over line `i` when the status
register reads `x`. -/
def scan_events (P : Platform) (i x : Nat) : List Event :=
  Event.readl (GPIO_INTR_STATUS P i) (x % 4294967296) ::
    (if x.testBit INTR_STATUS_BIT then [Event.generic_handle_irq (msm_gpio_to_irq P i)]
     else [])

/-- The raw-status words of `summary_scenario`, by line. -/
def summary_scenario_status : Nat → Nat :=
  fun j => if GPIO_INTR_STATUS wide_platform j = GPIO_INTR_STATUS wide_platform 17 then 1 else 0

/-- The event `secure_writel(v, c)` leaves in the trace: a secure-monitor
store to the translated physical address when `c` lies in one of the three
protected windows (tested in the order of scm-io.c), a plain store otherwise. -/
def secure_writel_event (P : Platform) (v c : Nat) : Event :=
  if BETWEEN c P.MSM_MMSS_CLK_CTL_BASE P.MSM_MMSS_CLK_CTL_SIZE then
    Event.smc_io_write (v % 4294967296) (XLATE c P.MSM_MMSS_CLK_CTL_PHYS P.MSM_MMSS_CLK_CTL_BASE)
  else if BETWEEN c P.MSM_TCSR_BASE P.MSM_TCSR_SIZE then
    Event.smc_io_write (v % 4294967296) (XLATE c P.MSM_TCSR_PHYS P.MSM_TCSR_BASE)
  else if BETWEEN c P.MSM_TLMM_BASE P.MSM_TLMM_SIZE then
    Event.smc_io_write (v % 4294967296) (XLATE c P.MSM_TLMM_PHYS P.MSM_TLMM_BASE)
  else Event.writel (v % 4294967296) c

/-- The registers of line `j` (config, in/out, interrupt-config,
interrupt-status and interrupt owner) hold the same in `s` and `t`. -/
def same_line_regs (P : Platform) (j : Nat) (s t : State) : Prop :=
  t.regs (GPIO_CONFIG P j) = s.regs (GPIO_CONFIG P j) ∧
  t.regs (GPIO_IN_OUT P j) = s.regs (GPIO_IN_OUT P j) ∧
  t.regs (GPIO_INTR_CFG P j) = s.regs (GPIO_INTR_CFG P j) ∧
  t.regs (GPIO_INTR_STATUS P j) = s.regs (GPIO_INTR_STATUS P j) ∧
  t.regs (GPIO_INTR_CFG_SU P j) = s.regs (GPIO_INTR_CFG_SU P j)

/-- The flow type asks for the rising and for the falling edge. -/
def wants_both_edges (flow_type : Nat) : Prop :=
  flow_type &&& IRQ_TYPE_EDGE_RISING ≠ 0 ∧ flow_type &&& IRQ_TYPE_EDGE_FALLING ≠ 0

/-- The flow type asks for at least one of the two edges. -/
def wants_some_edge (flow_type : Nat) : Prop :=
  flow_type &&& IRQ_TYPE_EDGE_RISING ≠ 0 ∨ flow_type &&& IRQ_TYPE_EDGE_FALLING ≠ 0

/-- The word `msm_gpio_irq_set_type` stores to the interrupt-config register
(line 366) when it has read `w` there. -/
def set_type_word (flow_type w : Nat) : Nat :=
  set_type_polarity flow_type
    (if flow_type &&& IRQ_TYPE_EDGE_BOTH ≠ 0 then w ||| INTR_DECT_CTL_EDGE
     else w &&& not32 INTR_DECT_CTL_EDGE)

/-- The state of `msm_gpio_irq_set_type` right after the store of line 366,
before the dual-edge re-arm. -/
def set_type_programmed (P : Platform) (irq flow_type : Nat) (s : State) : State :=
  { s with
    regs := Function.update s.regs (GPIO_INTR_CFG P (msm_irq_to_gpio P irq))
      (set_type_word flow_type (s.word (GPIO_INTR_CFG P (msm_irq_to_gpio P irq))) % 4294967296),
    handle_irq := Function.update s.handle_irq irq
      (if flow_type &&& IRQ_TYPE_EDGE_BOTH ≠ 0 then FlowHandler.handle_edge_irq
       else FlowHandler.handle_level_irq),
    dual_edge_irqs :=
      if flow_type &&& IRQ_TYPE_EDGE_BOTH = IRQ_TYPE_EDGE_BOTH then
        set_bit (msm_irq_to_gpio P irq) s.dual_edge_irqs
      else clear_bit (msm_irq_to_gpio P irq) s.dual_edge_irqs,
    trace := s.trace ++
      [Event.spin_lock_irqsave,
       Event.readl (GPIO_INTR_CFG P (msm_irq_to_gpio P irq))
         (s.word (GPIO_INTR_CFG P (msm_irq_to_gpio P irq))),
       Event.writel
         (set_type_word flow_type (s.word (GPIO_INTR_CFG P (msm_irq_to_gpio P irq))) % 4294967296)
         (GPIO_INTR_CFG P (msm_irq_to_gpio P irq))] }

/-- The flow type asks for a high polarity: rising edge or level high. -/
def wants_high_polarity (flow_type : Nat) : Prop :=
  flow_type &&& IRQ_TYPE_EDGE_RISING ≠ 0 ∨ flow_type &&& IRQ_TYPE_LEVEL_HIGH ≠ 0

instance (f : Nat) : Decidable (wants_both_edges f) := by
  unfold wants_both_edges
  infer_instance

instance (f : Nat) : Decidable (wants_some_edge f) := by
  unfold wants_some_edge
  infer_instance

instance (f : Nat) : Decidable (wants_high_polarity f) := by
  unfold wants_high_polarity
  infer_instance

/-- The mark or unmark call on the summary interrupt that
`msm_gpio_irq_set_wake` makes, if any, given the flag and the emptiness of
`wake_irqs` before an on call resp. after an off call. -/
def summary_wake_calls (P : Platform) (on_ : Nat) (empty_before empty_after : Bool) :
    List Event :=
  if on_ ≠ 0 then
    if empty_before then [Event.set_irq_wake P.TLMM_SCSS_SUMMARY_IRQ 1] else []
  else
    if empty_after then [Event.set_irq_wake P.TLMM_SCSS_SUMMARY_IRQ 0] else []

/-! ## The remaining entry points of gpio-v2.c -/

/-- Modelled from the spec: `EINVAL` of asm-generic/errno-base.h is not among
the sources; the invalid-argument error number. -/
def EINVAL : Int := 22

def msm_gpio_get (P : Platform) (offset : Nat) (s : State) : Nat × State :=
  let r := readl P (GPIO_IN_OUT P offset) s
  (r.1 &&& BIT GPIO_IN_BIT, dsb r.2)

def msm_gpio_set (P : Platform) (offset val : Nat) (s : State) : State :=
  dsb (writel (if val ≠ 0 then BIT GPIO_OUT_BIT else 0) (GPIO_IN_OUT P offset) s)

def msm_gpio_direction_input (P : Platform) (offset : Nat) (s : State) : Int × State :=
  let s1 := spin_lock_irqsave s
  let s2 := clr_gpio_bits P (BIT GPIO_OE_BIT) (GPIO_CONFIG P offset) s1
  let s3 := dsb s2
  (0, spin_unlock_irqrestore s3)

def msm_gpio_direction_output (P : Platform) (offset val : Nat) (s : State) : Int × State :=
  let s1 := spin_lock_irqsave s
  let s2 := msm_gpio_set P offset val s1
  let s3 := set_gpio_bits P (BIT GPIO_OE_BIT) (GPIO_CONFIG P offset) s2
  let s4 := dsb s3
  (0, spin_unlock_irqrestore s4)

/-- The request hook: the answer of the pin-mux service for each pin is given
by `gpiomux_get` (the service, gpiomux.c, keeps its own state). -/
def msm_gpio_request (gpiomux_get : Nat → Int) (offset : Nat) (s : State) : Int × State :=
  (gpiomux_get (chip_base + offset), emit (Event.msm_gpiomux_get (chip_base + offset)) s)

def msm_gpio_free (offset : Nat) (s : State) : State :=
  emit (Event.msm_gpiomux_put (chip_base + offset)) s

/-- The loop of the macro `for_each_set_bit` from index `bit` on: the body is
run for `bit` and the search goes on behind it in the bitmap as it then is;
`fuel` bounds the number of passes, and `size` passes always suffice. -/
def for_each_set_bit_from (addr : State → Nat → Bool) (size : Nat)
    (body : Nat → State → State) : Nat → Nat → State → State
  | 0, _, s => s
  | fuel + 1, bit, s =>
    if bit < size then
      let s1 := body bit s
      for_each_set_bit_from addr size body fuel (find_next_bit (addr s1) size (bit + 1)) s1
    else s

/-- Modelled from the spec: the macro `for_each_set_bit` of linux/bitops.h is
not among the sources; the body is run for every set bit below `size`, in
ascending order. -/
def for_each_set_bit (addr : State → Nat → Bool) (size : Nat)
    (body : Nat → State → State) (s : State) : State :=
  for_each_set_bit_from addr size body size (find_first_bit (addr s) size) s

/-- The body of the loop of `msm_gpio_suspend_noirq` (lines 472-474). -/
def suspend_body (P : Platform) (i : Nat) (s : State) : State :=
  if !test_bit i s.wake_irqs then
    clr_gpio_bits P (INTR_RAW_STATUS_EN ||| INTR_ENABLE) (GPIO_INTR_CFG P i) s
  else s

def msm_gpio_suspend_noirq (P : Platform) (s : State) : Int × State :=
  let s1 := spin_lock_irqsave s
  let s2 := for_each_set_bit (fun t => t.enabled_irqs) P.NR_MSM_GPIOS (suspend_body P) s1
  let s3 := dsb s2
  (0, spin_unlock_irqrestore s3)

/-- The body of the loop of `msm_gpio_resume_noirq` (lines 505-506). -/
def resume_body (P : Platform) (i : Nat) (s : State) : State :=
  set_gpio_bits P (INTR_RAW_STATUS_EN ||| INTR_ENABLE) (GPIO_INTR_CFG P i) s

def msm_gpio_resume_noirq (P : Platform) (s : State) : Int × State :=
  let s1 := spin_lock_irqsave s
  let s2 := for_each_set_bit (fun t => t.enabled_irqs) P.NR_MSM_GPIOS (resume_body P) s1
  let s3 := dsb s2
  (0, spin_unlock_irqrestore s3)

/-- The field accessors of a packed pin configuration word, macros of
mach/gpio.h that gpio-v2.c uses but that are declared outside the translated
sources. -/
structure CfgMacros where
  GPIO_PIN : Nat → Nat
  GPIO_DIR : Nat → Nat
  GPIO_DRVSTR : Nat → Nat
  GPIO_FUNC : Nat → Nat
  GPIO_PULL : Nat → Nat

/-- The layout of `GPIO_CFG` words used in the examples below: function in
bits 0-3, pin in bits 4-13, direction in bit 14, pull in bits 15-16, drive
strength in bits 17-20. -/
def packed_cfg : CfgMacros where
  GPIO_PIN := fun c => (c >>> 4) &&& 0x3ff
  GPIO_DIR := fun c => (c >>> 14) &&& 0x1
  GPIO_DRVSTR := fun c => (c >>> 17) &&& 0xf
  GPIO_FUNC := fun c => c &&& 0xf
  GPIO_PULL := fun c => (c >>> 15) &&& 0x3

/-- The word `gpio_tlmm_config` stores (lines 1020-1023). -/
def tlmm_flags (M : CfgMacros) (config : Nat) : Nat :=
  ((M.GPIO_DIR config <<< 9) &&& (0x1 <<< 9)) |||
  ((M.GPIO_DRVSTR config <<< 6) &&& (0x7 <<< 6)) |||
  ((M.GPIO_FUNC config <<< 2) &&& (0xf <<< 2)) |||
  (M.GPIO_PULL config &&& 0x3)

def gpio_tlmm_config (P : Platform) (M : CfgMacros) (config _disable : Nat) (s : State) :
    Int × State :=
  let gpio := M.GPIO_PIN config
  if gpio > P.NR_MSM_GPIOS then (-EINVAL, s)
  else
    let s1 := writel (tlmm_flags M config) (GPIO_CONFIG P gpio) s
    (0, dsb s1)

/-- The word `msm_gpio_install_direct_irq` stores to the direct-connect
register (lines 1050-1052). -/
def direct_irq_bits (gpio input_polarity : Nat) : Nat :=
  if input_polarity ≠ 0 then (TARGET_PROC_SCORPION ||| (gpio <<< 3)) ||| DC_POLARITY_HI
  else TARGET_PROC_SCORPION ||| (gpio <<< 3)

def msm_gpio_install_direct_irq (P : Platform) (gpio irq input_polarity : Nat) (s : State) :
    Int × State :=
  if gpio ≥ P.NR_MSM_GPIOS ∨ irq ≥ P.NR_TLMM_SCSS_DIR_CONN_IRQ then (-EINVAL, s)
  else
    let s1 := spin_lock_irqsave s
    let r1 := readl P (GPIO_CONFIG P gpio) s1
    let s2 := writel (r1.1 ||| BIT GPIO_OE_BIT) (GPIO_CONFIG P gpio) r1.2
    let r2 := readl P (GPIO_INTR_CFG P gpio) s2
    let s3 := writel (r2.1 &&& not32 (INTR_RAW_STATUS_EN ||| INTR_ENABLE))
      (GPIO_INTR_CFG P gpio) r2.2
    let s4 := secure_writel P (DC_IRQ_ENABLE ||| TARGET_PROC_NONE) (GPIO_INTR_CFG_SU P gpio) s3
    let s5 := secure_writel P (direct_irq_bits gpio input_polarity)
      (DIR_CONN_INTR_CFG_SU P irq) s4
    let s6 := dsb s5
    (0, spin_unlock_irqrestore s6)

/-- The events the re-arm loop on `gpio` may produce: reads of the line's
in/out, interrupt-config and interrupt-status registers, stores to its
interrupt-config register, the MPM call for its irq and the drop message. -/
def is_rearm_event (P : Platform) (gpio : Nat) (e : Event) : Bool :=
  match e with
  | Event.readl a _ =>
    decide (a = GPIO_IN_OUT P gpio ∨ a = GPIO_INTR_CFG P gpio ∨ a = GPIO_INTR_STATUS P gpio)
  | Event.writel _ a => decide (a = GPIO_INTR_CFG P gpio)
  | Event.msm_mpm_set_irq_type irq _ => decide (irq = msm_gpio_to_irq P gpio)
  | Event.pr_err_dual_edge _ _ => true
  | _ => false

/-- A sequence of `msm_gpio_irq_set_wake` calls, each given by its line and its
flag, run in order. -/
def run_set_wake (P : Platform) : List (Nat × Nat) → State → State
  | [], s => s
  | c :: rest, s =>
    run_set_wake P rest (msm_gpio_irq_set_wake P (msm_gpio_to_irq P c.1) c.2 s).2

/-- Every call of the sequence is for a line below `NR_MSM_GPIOS`, and a call
with the flag off is only made for a line that is in `wake_irqs` at that
moment. -/
def wake_calls_valid (P : Platform) : List (Nat × Nat) → State → Bool
  | [], _ => true
  | c :: rest, s =>
    decide (c.1 < P.NR_MSM_GPIOS) && (decide (c.2 ≠ 0) || s.wake_irqs c.1) &&
      wake_calls_valid P rest (msm_gpio_irq_set_wake P (msm_gpio_to_irq P c.1) c.2 s).2

/-- The number of calls that mark the summary interrupt as a wake source. -/
def summary_marks (P : Platform) (evs : List Event) : Nat :=
  evs.count (Event.set_irq_wake P.TLMM_SCSS_SUMMARY_IRQ 1)

/-- The number of calls that unmark the summary interrupt as a wake source. -/
def summary_unmarks (P : Platform) (evs : List Event) : Nat :=
  evs.count (Event.set_irq_wake P.TLMM_SCSS_SUMMARY_IRQ 0)

/-- One when some line below `NR_MSM_GPIOS` is in `wake_irqs`, zero when none
is. -/
def wake_nonempty (P : Platform) (s : State) : Nat :=
  if bitmap_empty s.wake_irqs P.NR_MSM_GPIOS then 0 else 1

/-- Wake switched on for line 5, on for line 9, off for line 5, off for
line 9. -/
def wake_scenario : List (Nat × Nat) := [(5, 1), (9, 1), (5, 0), (9, 0)]

/-- Both interrupt-enable bits, `INTR_RAW_STATUS_EN` and `INTR_ENABLE`, are
set in the word `w`. -/
def enable_bits_set (w : Nat) : Prop :=
  w.testBit INTR_RAW_STATUS_EN_BIT = true ∧ w.testBit INTR_ENABLE_BIT = true

/-- Both interrupt-enable bits are clear in the word `w`. -/
def enable_bits_clear (w : Nat) : Prop :=
  w.testBit INTR_RAW_STATUS_EN_BIT = false ∧ w.testBit INTR_ENABLE_BIT = false

instance (w : Nat) : Decidable (enable_bits_set w) := by
  unfold enable_bits_set
  infer_instance

instance (w : Nat) : Decidable (enable_bits_clear w) := by
  unfold enable_bits_clear
  infer_instance

/-- The words `v` and `w` agree in every bit other than the two
interrupt-enable bits. -/
def same_but_enable_bits (v w : Nat) : Prop :=
  ∀ j, j ≠ INTR_RAW_STATUS_EN_BIT → j ≠ INTR_ENABLE_BIT → v.testBit j = w.testBit j

/-- The scenario of the spec: lines 5 and 9 unmasked with their enable bits
set (interrupt-config word 13 each), line 9 a wake source. -/
def suspend_scenario : State :=
  { probed (steady_line msm8x60 5 0) with
    regs := fun a =>
      if a = GPIO_INTR_CFG msm8x60 5 ∨ a = GPIO_INTR_CFG msm8x60 9 then 13 else 0
    enabled_irqs := fun i => i == 5 || i == 9
    wake_irqs := fun i => i == 9 }

/-! ## Sequences of driver calls -/

/-- A call into the driver; the interrupt callbacks are given by the line
whose irq they are called for. -/
inductive Op where
  | mask (i : Nat)
  | unmask (i : Nat)
  | ack (i : Nat)
  | set_type (i flow_type : Nat)
  | set_wake (i on_ : Nat)
  | direction_input (i : Nat)
  | direction_output (i val : Nat)
  | tlmm_config (config disable : Nat)
  | install_direct_irq (gpio irq input_polarity : Nat)
  | suspend
  | resume
deriving DecidableEq, Repr

/-- The state after one call. -/
def Op.run (P : Platform) (M : CfgMacros) : Op → State → State
  | Op.mask i, s => msm_gpio_irq_mask P (msm_gpio_to_irq P i) s
  | Op.unmask i, s => msm_gpio_irq_unmask P (msm_gpio_to_irq P i) s
  | Op.ack i, s => msm_gpio_irq_ack P (msm_gpio_to_irq P i) s
  | Op.set_type i f, s => (msm_gpio_irq_set_type P (msm_gpio_to_irq P i) f s).2
  | Op.set_wake i on_, s => (msm_gpio_irq_set_wake P (msm_gpio_to_irq P i) on_ s).2
  | Op.direction_input i, s => (msm_gpio_direction_input P i s).2
  | Op.direction_output i v, s => (msm_gpio_direction_output P i v s).2
  | Op.tlmm_config c d, s => (gpio_tlmm_config P M c d s).2
  | Op.install_direct_irq g irq pol, s => (msm_gpio_install_direct_irq P g irq pol s).2
  | Op.suspend, s => (msm_gpio_suspend_noirq P s).2
  | Op.resume, s => (msm_gpio_resume_noirq P s).2

/-- The state after a sequence of calls, made in order. -/
def run_ops (P : Platform) (M : CfgMacros) (ops : List Op) (s : State) : State :=
  ops.foldl (fun t op => op.run P M t) s

/-- The record of the flow type of the most recent `set_type` per line, after
one more call. -/
def note_set_type (h : Nat → Option Nat) (op : Op) : Nat → Option Nat :=
  match op with
  | Op.set_type i f => Function.update h i (some f)
  | _ => h

/-- The flow type of the most recent `set_type` on line `i` in a sequence of
calls, if there is one. -/
def last_set_type (ops : List Op) (i : Nat) : Option Nat :=
  ops.foldl note_set_type (fun _ => none) i

/-- Every line in `dual_edge_irqs` had its most recent `set_type` ask for both
edges, and has the edge-detect bit set. -/
def dual_edge_inv (P : Platform) (s : State) (h : Nat → Option Nat) : Prop :=
  ∀ i, s.dual_edge_irqs i = true →
    (∃ f, h i = some f ∧ wants_both_edges f) ∧
    (s.word (GPIO_INTR_CFG P i)).testBit INTR_DECT_CTL_BIT = true

/-- Line 5 set to both edges, unmasked, acknowledged, then a suspend and a
resume. -/
def dual_edge_scenario : List Op :=
  [Op.set_type 5 IRQ_TYPE_EDGE_BOTH, Op.unmask 5, Op.ack 5, Op.suspend, Op.resume]

/-- Line 5 unmasked, then routed as direct-connect interrupt 0. -/
def direct_irq_scenario : List Op := [Op.unmask 5, Op.install_direct_irq 5 0 1]

/-- On every line below `NR_MSM_GPIOS`, membership in `enabled_irqs` and the
`INTR_ENABLE` bit of the interrupt-config register agree. -/
def enabled_matches_hw (P : Platform) (s : State) : Prop :=
  ∀ i, i < P.NR_MSM_GPIOS →
    (s.enabled_irqs i = true ↔ (s.word (GPIO_INTR_CFG P i)).testBit INTR_ENABLE_BIT = true)

/-- The calls other than `msm_gpio_install_direct_irq`, suspend and resume,
with mask and unmask made for a line below `NR_MSM_GPIOS`. -/
def Op.is_plain (P : Platform) : Op → Bool
  | Op.mask i => decide (i < P.NR_MSM_GPIOS)
  | Op.unmask i => decide (i < P.NR_MSM_GPIOS)
  | Op.install_direct_irq _ _ _ => false
  | Op.suspend => false
  | Op.resume => false
  | _ => true

/-! ## The drive-strength and pull fields of the SDC buses (gpio-v2.c lines 84-108, 983-1010) -/

def SDC4_HDRV_PULL_CTL : Nat := 0x20a0
def SDC3_HDRV_PULL_CTL : Nat := 0x20a4

structure tlmm_field_cfg where
  reg : Nat
  off : Nat
deriving DecidableEq, Repr

def tlmm_hdrv_cfgs : List tlmm_field_cfg :=
  [{ reg := SDC4_HDRV_PULL_CTL, off := 6 },
   { reg := SDC4_HDRV_PULL_CTL, off := 3 },
   { reg := SDC4_HDRV_PULL_CTL, off := 0 },
   { reg := SDC3_HDRV_PULL_CTL, off := 6 },
   { reg := SDC3_HDRV_PULL_CTL, off := 3 },
   { reg := SDC3_HDRV_PULL_CTL, off := 0 }]

def tlmm_pull_cfgs : List tlmm_field_cfg :=
  [{ reg := SDC4_HDRV_PULL_CTL, off := 11 },
   { reg := SDC4_HDRV_PULL_CTL, off := 9 },
   { reg := SDC3_HDRV_PULL_CTL, off := 11 },
   { reg := SDC3_HDRV_PULL_CTL, off := 9 }]

/-- The field write of `msm_tlmm_set_field`.  An `id` past the end of the
table indexes outside the array, for which there is no result. -/
def msm_tlmm_set_field (P : Platform) (configs : List tlmm_field_cfg) (id width val : Nat)
    (s : State) : Option State :=
  match configs.get? id with
  | none => none
  | some cfg =>
    let mask := ((1 <<< width) - 1) % 4294967296
    let reg := P.MSM_TLMM_BASE + cfg.reg
    let s1 := spin_lock_irqsave s
    let r := readl P reg s1
    let reg_val := r.1 &&& not32 (mask <<< cfg.off)
    let reg_val := reg_val ||| ((val &&& mask) <<< cfg.off) % 4294967296
    let s2 := writel reg_val reg r.2
    let s3 := dsb s2
    some (spin_unlock_irqrestore s3)

def msm_tlmm_set_hdrive (P : Platform) (tgt drv_str : Nat) (s : State) : Option State :=
  msm_tlmm_set_field P tlmm_hdrv_cfgs tgt 3 drv_str s

def msm_tlmm_set_pull (P : Platform) (tgt pull : Nat) (s : State) : Option State :=
  msm_tlmm_set_field P tlmm_pull_cfgs tgt 2 pull s

/-- The state `t` is `s` after one locked field write to the register at
`a`: with `r = s.word a` the word the register held before, the bits
`[off, off + width)` of the register now hold `v mod 2^width`, every other bit
is as in `r`, no other register and no bitmap has changed, and the call made
one read and one store of that register inside the lock. -/
def field_written (a off width v : Nat) (s t : State) : Prop :=
  (∀ j, (t.word a).testBit j =
    if off ≤ j ∧ j < off + width then (v % 2 ^ width).testBit (j - off)
    else (s.word a).testBit j) ∧
  (∀ b, b ≠ a → t.regs b = s.regs b) ∧
  t.enabled_irqs = s.enabled_irqs ∧ t.wake_irqs = s.wake_irqs ∧
  t.dual_edge_irqs = s.dual_edge_irqs ∧
  events_since s t =
    [Event.spin_lock_irqsave, Event.readl a (s.word a), Event.writel (t.word a) a,
     Event.dsb, Event.spin_unlock_irqrestore]

/-- The two SDC drive/pull registers lie past the window of the last line:
the per-line windows, 16 bytes each from offset `0x1000`, end at or before
`SDC4_HDRV_PULL_CTL`.  On the msm8x60 the windows of its 173 lines end at
offset `0x1ad0`. -/
def sdc_regs_past_lines (P : Platform) : Prop :=
  0x1000 + 0x10 * P.NR_MSM_GPIOS ≤ SDC4_HDRV_PULL_CTL

instance (P : Platform) : Decidable (sdc_regs_past_lines P) := by
  unfold sdc_regs_past_lines
  infer_instance

/-- The state after probe in which the SDC3 drive/pull register holds
`0x1C0` (drive strength 7 on the clock line, every other field 0). -/
def sdc3_scenario : State :=
  { probed (fun _ _ => 0) with
    regs := fun a => if a = msm8x60.MSM_TLMM_BASE + SDC3_HDRV_PULL_CTL then 0x1C0 else 0 }

/-! ## Secure-monitor register reads (scm-io.c lines 31-61) -/

/-- The `smc` of `__secure_readl`: the monitor is asked for the word at the
physical address `addr`; `c` is the virtual address of that same register, and
the word returned is the one the register presents to a read. -/
def secure_readl_smc (P : Platform) (addr c : Nat) (s : State) : Nat × State :=
  if is_live P c then
    let v := s.live s.tick c % 4294967296
    (v, { s with tick := s.tick + 1, trace := s.trace ++ [Event.smc_io_read addr v] })
  else
    (s.word c, { s with trace := s.trace ++ [Event.smc_io_read addr (s.word c)] })

def secure_readl (P : Platform) (c : Nat) (s : State) : Nat × State :=
  if BETWEEN c P.MSM_MMSS_CLK_CTL_BASE P.MSM_MMSS_CLK_CTL_SIZE then
    secure_readl_smc P (XLATE c P.MSM_MMSS_CLK_CTL_PHYS P.MSM_MMSS_CLK_CTL_BASE) c s
  else if BETWEEN c P.MSM_TCSR_BASE P.MSM_TCSR_SIZE then
    secure_readl_smc P (XLATE c P.MSM_TCSR_PHYS P.MSM_TCSR_BASE) c s
  else if BETWEEN c P.MSM_TLMM_BASE P.MSM_TLMM_SIZE then
    secure_readl_smc P (XLATE c P.MSM_TLMM_PHYS P.MSM_TLMM_BASE) c s
  else
    readl P c s

/-- The address `c` lies in the window `[st, st + sz)`. -/
def in_window (c st sz : Nat) : Prop := st ≤ c ∧ c < st + sz

instance (c st sz : Nat) : Decidable (in_window c st sz) := by
  unfold in_window
  infer_instance

/-- The three protected windows and their physical images lie inside the
32-bit address space, so that neither the end of a window nor a translated
address wraps around. -/
def windows_fit (P : Platform) : Prop :=
  P.MSM_MMSS_CLK_CTL_BASE + P.MSM_MMSS_CLK_CTL_SIZE < 4294967296 ∧
  P.MSM_MMSS_CLK_CTL_PHYS + P.MSM_MMSS_CLK_CTL_SIZE ≤ 4294967296 ∧
  P.MSM_TCSR_BASE + P.MSM_TCSR_SIZE < 4294967296 ∧
  P.MSM_TCSR_PHYS + P.MSM_TCSR_SIZE ≤ 4294967296 ∧
  P.MSM_TLMM_BASE + P.MSM_TLMM_SIZE < 4294967296 ∧
  P.MSM_TLMM_PHYS + P.MSM_TLMM_SIZE ≤ 4294967296

instance (P : Platform) : Decidable (windows_fit P) := by
  unfold windows_fit
  infer_instance

/-- The physical address the secure monitor is given for the virtual address
`c`, if `c` lies in a protected window: the windows are tried in the order
MMSS clock control, TCSR, TLMM. -/
def secure_phys (P : Platform) (c : Nat) : Option Nat :=
  if in_window c P.MSM_MMSS_CLK_CTL_BASE P.MSM_MMSS_CLK_CTL_SIZE then
    some (P.MSM_MMSS_CLK_CTL_PHYS + (c - P.MSM_MMSS_CLK_CTL_BASE))
  else if in_window c P.MSM_TCSR_BASE P.MSM_TCSR_SIZE then
    some (P.MSM_TCSR_PHYS + (c - P.MSM_TCSR_BASE))
  else if in_window c P.MSM_TLMM_BASE P.MSM_TLMM_SIZE then
    some (P.MSM_TLMM_PHYS + (c - P.MSM_TLMM_BASE))
  else none

/-- Pass `k` (counted from 0) of the re-arm loop started in `s` meets the
success test of line 280: the raw-status bit reads set, or the two reads of
the input bit agree. -/
def pass_succeeds (P : Platform) (gpio : Nat) (s : State) (k : Nat) : Prop :=
  status_bit P gpio s (3 * k + 2) ≠ 0 ∨ in_bit P gpio s (3 * k) = in_bit P gpio s (3 * k + 1)

instance (P : Platform) (gpio : Nat) (s : State) (k : Nat) :
    Decidable (pass_succeeds P gpio s k) := by
  unfold pass_succeeds
  infer_instance

/-- A pin environment in which the first live read returns 1 and every later
one 0: the input of a line falls during the first pass of the re-arm loop and
stays low, and no raw-status bit is ever set. -/
def settling_line : Nat → Nat → Nat := fun t _ => if t = 0 then 1 else 0

/-! ## The lock around register accesses -/

/-- A register access: a memory-mapped read or write, or a read or write
through the secure monitor. -/
def is_reg_access (e : Event) : Bool :=
  match e with
  | Event.readl _ _ => true
  | Event.writel _ _ => true
  | Event.smc_io_write _ _ => true
  | Event.smc_io_read _ _ => true
  | _ => false

/-- An acquire or a release of `tlmm_lock`. -/
def is_lock_event (e : Event) : Bool :=
  match e with
  | Event.spin_lock_irqsave => true
  | Event.spin_unlock_irqrestore => true
  | _ => false

/-- Every register access among the events is made with `tlmm_lock` held;
`held` tells whether the lock is held before the first event. -/
def accesses_locked : Bool → List Event → Bool
  | _, [] => true
  | held, e :: es =>
    match e with
    | Event.spin_lock_irqsave => accesses_locked true es
    | Event.spin_unlock_irqrestore => accesses_locked false es
    | _ => (!is_reg_access e || held) && accesses_locked held es

/-- The msm8x60 with line 5 reading high, after `set_type` has configured
line 5 for both edges. -/
def rearm_scenario : State :=
  (msm_gpio_irq_set_type msm8x60 (msm_gpio_to_irq msm8x60 5) IRQ_TYPE_EDGE_BOTH
    high_line_state).2

/-! ## The debugfs attributes of a line (gpio-v2.c lines 541-672) -/

def GPIO_FUNC_SEL_BIT : Nat := 2
def GPIO_DRV_BIT : Nat := 6

def gpio_debug_direction_set (P : Platform) (id val : Nat) (s : State) : Int × State :=
  let s1 := spin_lock_irqsave s
  let s2 :=
    if val ≠ 0 then clr_gpio_bits P (BIT GPIO_OE_BIT) (GPIO_CONFIG P id) s1
    else set_gpio_bits P (BIT GPIO_OE_BIT) (GPIO_CONFIG P id) s1
  (0, spin_unlock_irqrestore s2)

/-- The getters return their status, the value they store through `val`, and
the state. -/
def gpio_debug_direction_get (P : Platform) (id : Nat) (s : State) : Int × Nat × State :=
  let r := readl P (GPIO_CONFIG P id) s
  (0, (r.1 &&& BIT GPIO_OE_BIT) >>> GPIO_OE_BIT, r.2)

/-- The setters take a `u64` and pass it on as the 32-bit `n` of
`set_gpio_bits`. -/
def gpio_debug_drv_set (P : Platform) (id val : Nat) (s : State) : Int × State :=
  let s1 := spin_lock_irqsave s
  let s2 := set_gpio_bits P ((val <<< GPIO_DRV_BIT) % 4294967296) (GPIO_CONFIG P id) s1
  (0, spin_unlock_irqrestore s2)

def gpio_debug_drv_get (P : Platform) (id : Nat) (s : State) : Int × Nat × State :=
  let r := readl P (GPIO_CONFIG P id) s
  (0, (r.1 >>> GPIO_DRV_BIT) &&& 0x7, r.2)

def gpio_debug_func_sel_set (P : Platform) (id val : Nat) (s : State) : Int × State :=
  let s1 := spin_lock_irqsave s
  let s2 := set_gpio_bits P ((val <<< GPIO_FUNC_SEL_BIT) % 4294967296) (GPIO_CONFIG P id) s1
  (0, spin_unlock_irqrestore s2)

def gpio_debug_func_sel_get (P : Platform) (id : Nat) (s : State) : Int × Nat × State :=
  let r := readl P (GPIO_CONFIG P id) s
  (0, (r.1 >>> GPIO_FUNC_SEL_BIT) &&& 0x7, r.2)

def gpio_debug_pull_set (P : Platform) (id val : Nat) (s : State) : Int × State :=
  let s1 := spin_lock_irqsave s
  let s2 := set_gpio_bits P (val % 4294967296) (GPIO_CONFIG P id) s1
  (0, spin_unlock_irqrestore s2)

def gpio_debug_pull_get (P : Platform) (id : Nat) (s : State) : Int × Nat × State :=
  let r := readl P (GPIO_CONFIG P id) s
  (0, r.1 &&& 0x3, r.2)

/-- The state after probe in which the config register of msm8x60 line 5
holds `0x45`: drive strength 1, function 1, pull 1. -/
def config_scenario : State :=
  { probed (fun _ _ => 0) with
    regs := fun a => if a = GPIO_CONFIG msm8x60 5 then 0x45 else 0 }

/-- None of the events is an acquire or release of `tlmm_lock`. -/
def takes_no_lock (evs : List Event) : Prop := ∀ e ∈ evs, is_lock_event e = false

end GpioV2

/-! # PM8901 interrupt controller (drivers/mfd/pmic8901.c)

The chip is reached over a serial bus: every transfer is appended to a trace,
the status each transfer returns and the byte each read delivers are supplied
by the environment (`Chip.bus_rc`, `Chip.bus_data`, indexed by the number of
transfers made so far).  The `u8` fields hold values below 256.
-/

namespace Pmic8901

/-! ## Register addresses and flags (pmic8901.c lines 34-64) -/

def SSBI_REG_ADDR_IRQ_BASE : Nat := 0xD5
def SSBI_REG_ADDR_IRQ_ROOT : Nat := SSBI_REG_ADDR_IRQ_BASE + 0
def SSBI_REG_ADDR_IRQ_M_STATUS1 : Nat := SSBI_REG_ADDR_IRQ_BASE + 1
def SSBI_REG_ADDR_IRQ_BLK_SEL : Nat := SSBI_REG_ADDR_IRQ_BASE + 5
def SSBI_REG_ADDR_IRQ_IT_STATUS : Nat := SSBI_REG_ADDR_IRQ_BASE + 6
def SSBI_REG_ADDR_IRQ_CONFIG : Nat := SSBI_REG_ADDR_IRQ_BASE + 7

def PM8901_IRQF_LVL_SEL : Nat := 0x01
def PM8901_IRQF_MASK_FE : Nat := 0x02
def PM8901_IRQF_MASK_RE : Nat := 0x04
def PM8901_IRQF_CLR : Nat := 0x08
def PM8901_IRQF_BITS_MASK : Nat := 0x70
def PM8901_IRQF_BITS_SHIFT : Nat := 4
def PM8901_IRQF_WRITE : Nat := 0x80

def PM8901_IRQF_MASK_ALL : Nat := PM8901_IRQF_MASK_FE ||| PM8901_IRQF_MASK_RE
def PM8901_IRQF_W_C_M : Nat := PM8901_IRQF_WRITE ||| PM8901_IRQF_CLR ||| PM8901_IRQF_MASK_ALL

def MAX_PM_IRQ : Nat := 72
def MAX_PM_BLOCKS : Nat := MAX_PM_IRQ / 8 + 1
def MAX_PM_MASTERS : Nat := MAX_PM_BLOCKS / 8 + 1

/-- Modelled from the spec: linux/interrupt.h is not among the sources; the
trigger flags rising, falling and high. -/
def IRQF_TRIGGER_RISING : Nat := 1
/-- Modelled from the spec: linux/interrupt.h is not among the sources. -/
def IRQF_TRIGGER_FALLING : Nat := 2
/-- Modelled from the spec: linux/interrupt.h is not among the sources. -/
def IRQF_TRIGGER_HIGH : Nat := 4

/-! ## Chip state and bus -/

/-- What the driver does to the world outside `struct pm8901_chip`, in program
order. -/
inductive Event where
  | spin_lock_irqsave
  | spin_unlock_irqrestore
  | ssbi_write (addr val : Nat)
  | ssbi_read (addr val : Nat)
  | generic_handle_irq (irq : Nat)
deriving DecidableEq, Repr

/-- The fields of `struct pm8901_chip` that the interrupt code uses
(`irq_base` is `pdata.irq_base`), the bus environment and the trace. -/
structure Chip where
  irq_base : Nat
  irqs_allowed : Nat → Nat
  blocks_allowed : Nat → Nat
  masters_allowed : Nat
  pm_max_irq : Nat
  pm_max_blocks : Nat
  pm_max_masters : Nat
  config : Nat → Nat
  bus_rc : Nat → Int
  bus_data : Nat → Nat
  transfers : Nat
  trace : List Event

/-- The events a run from `c` to `d` has appended. -/
def events_since (c d : Chip) : List Event := d.trace.drop c.trace.length

/-- Modelled from the spec: the bus layer (msm_ssbi.c, i2c) is not among the
sources; a one-byte write, whose status the environment supplies. -/
def ssbi_write (addr val : Nat) (c : Chip) : Int × Chip :=
  (c.bus_rc c.transfers,
   { c with transfers := c.transfers + 1, trace := c.trace ++ [Event.ssbi_write addr val] })

/-- Modelled from the spec: the bus layer is not among the sources; a one-byte
read, whose status and byte the environment supplies. -/
def ssbi_read (addr : Nat) (c : Chip) : (Int × Nat) × Chip :=
  ((c.bus_rc c.transfers, c.bus_data c.transfers % 256),
   { c with transfers := c.transfers + 1,
            trace := c.trace ++ [Event.ssbi_read addr (c.bus_data c.transfers % 256)] })

/-- The statement `x &= ~(1 << n)` on a `u8`. -/
def u8_clear_bit (x n : Nat) : Nat := (x &&& GpioV2.not32 (1 <<< n)) % 256

/-- The statement `x |= 1 << n` on a `u8`. -/
def u8_set_bit (x n : Nat) : Nat := (x ||| (1 <<< n)) % 256

/-! ## The interrupt chip (pmic8901.c lines 306-444) -/

def pm8901_config_irq (bp cp : Nat) (c : Chip) : Int × Chip :=
  let r := ssbi_write SSBI_REG_ADDR_IRQ_BLK_SEL bp c
  if r.1 ≠ 0 then r
  else ssbi_write SSBI_REG_ADDR_IRQ_CONFIG cp r.2

/-- The mask hook.  The chip is installed on the interrupts from `irq_base`
on, so the subtraction does not wrap. -/
def pm8901_irq_mask (irq : Nat) (chip : Chip) : Chip :=
  let irq := irq - chip.irq_base
  let block := (irq / 8) % 256
  let master := block / 8
  let irq_bit := irq % 8
  let c1 := { chip with
    irqs_allowed :=
      Function.update chip.irqs_allowed block (u8_clear_bit (chip.irqs_allowed block) irq_bit) }
  let c2 :=
    if c1.irqs_allowed block = 0 then
      let c := { c1 with
        blocks_allowed := Function.update c1.blocks_allowed master
          (u8_clear_bit (c1.blocks_allowed master) (block % 8)) }
      if c.blocks_allowed master = 0 then
        { c with masters_allowed := u8_clear_bit c.masters_allowed master }
      else c
    else c1
  let config :=
    (PM8901_IRQF_WRITE ||| c2.config irq ||| PM8901_IRQF_MASK_FE ||| PM8901_IRQF_MASK_RE) % 256
  (pm8901_config_irq block config c2).2

def pm8901_irq_unmask (irq : Nat) (chip : Chip) : Chip :=
  let irq := irq - chip.irq_base
  let block := (irq / 8) % 256
  let master := block / 8
  let irq_bit := irq % 8
  let old_irqs_allowed := chip.irqs_allowed block
  let c1 := { chip with
    irqs_allowed :=
      Function.update chip.irqs_allowed block (u8_set_bit (chip.irqs_allowed block) irq_bit) }
  let c2 :=
    if old_irqs_allowed = 0 then
      let old_blocks_allowed := c1.blocks_allowed master
      let c := { c1 with
        blocks_allowed := Function.update c1.blocks_allowed master
          (u8_set_bit (c1.blocks_allowed master) (block % 8)) }
      if old_blocks_allowed = 0 then
        { c with masters_allowed := u8_set_bit c.masters_allowed master }
      else c
    else c1
  let config := (PM8901_IRQF_WRITE ||| c2.config irq) % 256
  (pm8901_config_irq block config c2).2

def pm8901_irq_set_type (irq flow_type : Nat) (chip : Chip) : Int × Chip :=
  let irq := irq - chip.irq_base
  let c1 :=
    if irq > chip.pm_max_irq then
      { chip with pm_max_irq := irq,
                  pm_max_blocks := irq / 8 + 1,
                  pm_max_masters := (irq / 8 + 1) / 8 + 1 }
    else chip
  let block := (irq / 8) % 256
  let irq_bit := irq % 8
  let cfg0 := ((irq_bit <<< PM8901_IRQF_BITS_SHIFT) ||| PM8901_IRQF_MASK_RE |||
    PM8901_IRQF_MASK_FE) % 256
  let cfg :=
    if flow_type &&& (IRQF_TRIGGER_RISING ||| IRQF_TRIGGER_FALLING) ≠ 0 then
      let a :=
        if flow_type &&& IRQF_TRIGGER_RISING ≠ 0 then
          (cfg0 &&& GpioV2.not32 PM8901_IRQF_MASK_RE) % 256
        else cfg0
      if flow_type &&& IRQF_TRIGGER_FALLING ≠ 0 then
        (a &&& GpioV2.not32 PM8901_IRQF_MASK_FE) % 256
      else a
    else
      let a := (cfg0 ||| PM8901_IRQF_LVL_SEL) % 256
      if flow_type &&& IRQF_TRIGGER_HIGH ≠ 0 then
        (a &&& GpioV2.not32 PM8901_IRQF_MASK_RE) % 256
      else (a &&& GpioV2.not32 PM8901_IRQF_MASK_FE) % 256
  let c2 := { c1 with config := Function.update c1.config irq cfg }
  let config := (PM8901_IRQF_WRITE ||| c2.config irq ||| PM8901_IRQF_CLR) % 256
  pm8901_config_irq block config c2

/-! ## The interrupt thread (pmic8901.c lines 446-622) -/

def pm8901_read_root (c : Chip) : (Int × Nat) × Chip :=
  let r := ssbi_read SSBI_REG_ADDR_IRQ_ROOT c
  if r.1.1 ≠ 0 then ((r.1.1, 0), r.2) else r

def pm8901_read_master (m : Nat) (c : Chip) : (Int × Nat) × Chip :=
  let r := ssbi_read (SSBI_REG_ADDR_IRQ_M_STATUS1 + m) c
  if r.1.1 ≠ 0 then ((r.1.1, 0), r.2) else r

/-- Selects the block and reads its status byte; the byte is meaningful only
when the status returned is 0. -/
def pm8901_read_block (bp : Nat) (c : Chip) : (Int × Nat) × Chip :=
  let w := ssbi_write SSBI_REG_ADDR_IRQ_BLK_SEL bp c
  if w.1 ≠ 0 then ((w.1, 0), w.2)
  else ssbi_read SSBI_REG_ADDR_IRQ_IT_STATUS w.2

/-- The local variables of `pm8901_isr_thread` that outlive a loop pass;
`bail` is set once a `goto bail_out` has been taken. -/
structure IsrLocals where
  chip : Chip
  blocks : Nat → Nat
  handled : List Nat
  spurious : Nat
  bail : Bool

/-- The config byte written for a status bit whose interrupt is not allowed
(lines 578-579): `PM8901_IRQF_W_C_M | (k < PM8901_IRQF_BITS_SHIFT)`, where the
comparison yields 1 or 0. -/
def isr_spurious_config (k : Nat) : Nat :=
  (PM8901_IRQF_W_C_M ||| (if k < PM8901_IRQF_BITS_SHIFT then 1 else 0)) % 256

/-- One pass of the loop over the bits `k` of a block's status byte (lines
562-592). -/
def isr_check_bit (i block bits : Nat) (l : IsrLocals) (k : Nat) : IsrLocals :=
  if bits &&& (1 <<< k) = 0 then l
  else if (1 <<< i) &&& l.chip.masters_allowed ≠ 0 ∧
      l.blocks i &&& l.chip.blocks_allowed i ≠ 0 ∧
      bits &&& l.chip.irqs_allowed block ≠ 0 then
    { l with handled := l.handled ++ [(block * 8 + k + l.chip.irq_base) % 65536] }
  else
    { l with chip := (pm8901_config_irq block (isr_spurious_config k) l.chip).2,
             spurious := l.spurious + 1 }

/-- One pass of the loop over the blocks `j` of master `i` (lines 545-593). -/
def isr_check_block (i : Nat) (l : IsrLocals) (j : Nat) : IsrLocals :=
  if l.bail then l
  else if l.blocks i &&& (1 <<< j) = 0 then l
  else
    let block := (i * 8 + j) % 256
    let r := pm8901_read_block block l.chip
    if r.1.1 ≠ 0 then { l with chip := r.2, bail := true }
    else if r.1.2 = 0 then { l with chip := r.2, spurious := l.spurious + 100 }
    else (List.range 8).foldl (isr_check_bit i block r.1.2) { l with chip := r.2 }

/-- One pass of the second loop over the masters (lines 541-596). -/
def isr_check_master (l : IsrLocals) (i : Nat) : IsrLocals :=
  if l.bail then l
  else if l.blocks i = 0 then l
  else (List.range 8).foldl (isr_check_block i) l

/-- One pass of the first loop over the masters (lines 525-538). -/
def isr_read_master (masters : Nat) (l : IsrLocals) (i : Nat) : IsrLocals :=
  if l.bail then l
  else if masters &&& (1 <<< i) ≠ 0 then
    let r := pm8901_read_master i l.chip
    if r.1.1 ≠ 0 then
      { l with chip := r.2, blocks := Function.update l.blocks i r.1.2, bail := true }
    else if r.1.2 = 0 then
      { l with chip := r.2, blocks := Function.update l.blocks i r.1.2,
               spurious := l.spurious + 10000 }
    else { l with chip := r.2, blocks := Function.update l.blocks i r.1.2 }
  else { l with blocks := Function.update l.blocks i 0 }

def emit (e : Event) (c : Chip) : Chip := { c with trace := c.trace ++ [e] }

/-- The threaded handler; the messages it logs are left out.  It always
returns `IRQ_HANDLED`, so only the chip is returned. -/
def pm8901_isr_thread (chip : Chip) : Chip :=
  let c1 := emit Event.spin_lock_irqsave chip
  let r := pm8901_read_root c1
  let l :=
    if r.1.1 ≠ 0 then
      { chip := r.2, blocks := fun _ => 0, handled := [], spurious := 0, bail := true }
    else
      let masters := r.1.2 >>> 1
      let spurious :=
        if masters &&& r.2.masters_allowed = 0 ∨
            masters &&& GpioV2.not32 r.2.masters_allowed ≠ 0 then 1000000
        else 0
      let l0 : IsrLocals :=
        { chip := r.2, blocks := fun _ => 0, handled := [], spurious := spurious, bail := false }
      let l1 := (List.range r.2.pm_max_masters).foldl (isr_read_master masters) l0
      (List.range l1.chip.pm_max_masters).foldl isr_check_master l1
  let c2 := emit Event.spin_unlock_irqrestore l.chip
  l.handled.foldl (fun c irq => emit (Event.generic_handle_irq irq) c) c2

/-! ## Sequences of mask and unmask calls -/

inductive MaskOp where
  | mask (irq : Nat)
  | unmask (irq : Nat)
deriving DecidableEq, Repr

/-- The interrupt a call is made for. -/
def MaskOp.irq : MaskOp → Nat
  | MaskOp.mask irq => irq
  | MaskOp.unmask irq => irq

def MaskOp.run : MaskOp → Chip → Chip
  | MaskOp.mask irq, c => pm8901_irq_mask irq c
  | MaskOp.unmask irq, c => pm8901_irq_unmask irq c

/-- The calls are made one after the other, first to last. -/
def run_mask_ops (ops : List MaskOp) (c : Chip) : Chip :=
  ops.foldl (fun d op => op.run d) c

/-- Whether the last call made for `irq` in `ops` was an unmask; `b` is the
answer when `ops` holds no call for `irq`. -/
def last_is_unmask_from (irq : Nat) (b : Bool) (ops : List MaskOp) : Bool :=
  ops.foldl (fun a op =>
    match op with
    | MaskOp.mask i => if i = irq then false else a
    | MaskOp.unmask i => if i = irq then true else a) b

/-- Whether the last call made for `irq` in `ops` was an unmask. -/
def last_is_unmask (ops : List MaskOp) (irq : Nat) : Bool :=
  last_is_unmask_from irq false ops

/-- The chip as `kzalloc` and probe leave it (lines 846-872): every field
zero, the interrupt base from the platform data, on the given bus. -/
def zero_chip (irq_base : Nat) (bus_rc : Nat → Int) (bus_data : Nat → Nat) : Chip where
  irq_base := irq_base
  irqs_allowed := fun _ => 0
  blocks_allowed := fun _ => 0
  masters_allowed := 0
  pm_max_irq := 0
  pm_max_blocks := 0
  pm_max_masters := 0
  config := fun _ => 0
  bus_rc := bus_rc
  bus_data := bus_data
  transfers := 0
  trace := []

/-- A bus on which every transfer succeeds and on which the third transfer
(the root read of the thread) reads master 0 pending, the fourth block 0
pending and the sixth status bit 5 set. -/
def spurious_bus : Nat → Nat :=
  fun n => if n = 2 then 0x02 else if n = 3 then 0x01 else if n = 5 then 0x20 else 0

/-- The chip with interrupt base 512 on `spurious_bus` after interrupt 5 has
been given the rising-edge type (two bus writes) and never unmasked. -/
def spurious_scenario : Chip :=
  (pm8901_irq_set_type (512 + 5) IRQF_TRIGGER_RISING
    (zero_chip 512 (fun _ => 0) spurious_bus)).2

/-- A sequence of calls on the chip with interrupt base 512: interrupts 3 and
12 are unmasked, then 3 is masked again. -/
def mask_scenario : List MaskOp :=
  [MaskOp.unmask (512 + 3), MaskOp.unmask (512 + 12), MaskOp.mask (512 + 3)]

/-- The allowed masks of the chip are bytes and agree level by level: a
block's bit in `blocks_allowed` is set iff the block has an allowed interrupt,
and a master's bit in `masters_allowed` is set iff the master has an allowed
block. -/
def allowed_consistent (c : Chip) : Prop :=
  (∀ b, c.irqs_allowed b < 256) ∧ (∀ m, c.blocks_allowed m < 256) ∧
  c.masters_allowed < 256 ∧
  (∀ b, (c.blocks_allowed (b / 8)).testBit (b % 8) = true ↔ c.irqs_allowed b ≠ 0) ∧
  (∀ m, c.masters_allowed.testBit m = true ↔ c.blocks_allowed m ≠ 0)

/-- The bits of `irqs_allowed` are as `h` tells, by interrupt number. -/
def allowed_tracks (c : Chip) (h : Nat → Bool) : Prop :=
  ∀ r, (c.irqs_allowed (r / 8)).testBit (r % 8) = h (c.irq_base + r)

end Pmic8901

/-! ## Basic facts about the model -/

namespace GpioV2

theorem is_live_GPIO_INTR_CFG (P : Platform) (g : Nat) :
    is_live P (GPIO_INTR_CFG P g) = false := by
  have h : (GPIO_INTR_CFG P g - (P.MSM_TLMM_BASE + 0x1000)) % 0x10 = 8 := by
    simp only [GPIO_INTR_CFG]
    omega
  simp [is_live, h]

theorem is_live_GPIO_IN_OUT (P : Platform) (g : Nat) :
    is_live P (GPIO_IN_OUT P g) = decide (g < P.NR_MSM_GPIOS) := by
  have h1 : P.MSM_TLMM_BASE + 0x1000 ≤ GPIO_IN_OUT P g := by
    simp only [GPIO_IN_OUT]
    omega
  have h2 : (GPIO_IN_OUT P g - (P.MSM_TLMM_BASE + 0x1000)) % 0x10 = 4 := by
    simp only [GPIO_IN_OUT]
    omega
  have h3 : GPIO_IN_OUT P g < P.MSM_TLMM_BASE + 0x1000 + 0x10 * P.NR_MSM_GPIOS ↔
      g < P.NR_MSM_GPIOS := by
    simp only [GPIO_IN_OUT]
    omega
  simp [is_live, h1, h2, h3]

theorem is_live_GPIO_INTR_STATUS (P : Platform) (g : Nat) :
    is_live P (GPIO_INTR_STATUS P g) = decide (g < P.NR_MSM_GPIOS) := by
  have h1 : P.MSM_TLMM_BASE + 0x1000 ≤ GPIO_INTR_STATUS P g := by
    simp only [GPIO_INTR_STATUS]
    omega
  have h2 : (GPIO_INTR_STATUS P g - (P.MSM_TLMM_BASE + 0x1000)) % 0x10 = 0xc := by
    simp only [GPIO_INTR_STATUS]
    omega
  have h3 : GPIO_INTR_STATUS P g < P.MSM_TLMM_BASE + 0x1000 + 0x10 * P.NR_MSM_GPIOS ↔
      g < P.NR_MSM_GPIOS := by
    simp only [GPIO_INTR_STATUS]
    omega
  simp [is_live, h1, h2, h3]

/-- A line below `NR_MSM_GPIOS` has live in/out and interrupt-status
registers, so the words its reads return are the environment's. -/
theorem read_at_live_line (P : Platform) (g : Nat) (s : State) (k : Nat)
    (hg : g < P.NR_MSM_GPIOS) :
    read_at P (GPIO_IN_OUT P g) s k = s.live (s.tick + k) (GPIO_IN_OUT P g) % 4294967296 ∧
      read_at P (GPIO_INTR_STATUS P g) s k =
        s.live (s.tick + k) (GPIO_INTR_STATUS P g) % 4294967296 := by
  simp [read_at, is_live_GPIO_IN_OUT, is_live_GPIO_INTR_STATUS, hg]

theorem dual_edge_body_eq (P : Platform) (g : Nat) (s : State) :
    dual_edge_body P g s =
      { val := in_bit P g s 0, val2 := in_bit P g s 1, intstat := status_bit P g s 2,
        st := { s with
          regs := Function.update s.regs (GPIO_INTR_CFG P g)
            (rearm_word (in_bit P g s 0) (s.word (GPIO_INTR_CFG P g))),
          tick := s.tick + (if g < P.NR_MSM_GPIOS then 3 else 0),
          trace := s.trace ++ pass_events P g s } } := by
  have h1 : GPIO_IN_OUT P g ≠ GPIO_INTR_CFG P g := by
    simp only [GPIO_IN_OUT, GPIO_INTR_CFG]
    omega
  have h2 : GPIO_INTR_STATUS P g ≠ GPIO_INTR_CFG P g := by
    simp only [GPIO_INTR_STATUS, GPIO_INTR_CFG]
    omega
  by_cases hg : g < P.NR_MSM_GPIOS
  · by_cases h : (s.live s.tick (GPIO_IN_OUT P g) % 4294967296 &&& BIT GPIO_IN_BIT) = 0 <;>
    simp [dual_edge_body, readl, read_at, is_live_GPIO_INTR_CFG, is_live_GPIO_IN_OUT,
      is_live_GPIO_INTR_STATUS, clr_gpio_bits, set_gpio_bits, writel, in_bit, status_bit,
      rearm_word, pass_events, State.word, h, hg]
  · by_cases h : (s.regs (GPIO_IN_OUT P g) % 4294967296 &&& BIT GPIO_IN_BIT) = 0 <;>
    simp [dual_edge_body, readl, read_at, is_live_GPIO_INTR_CFG, is_live_GPIO_IN_OUT,
      is_live_GPIO_INTR_STATUS, clr_gpio_bits, set_gpio_bits, writel, in_bit, status_bit,
      rearm_word, pass_events, State.word, h, hg, Function.update_noteq h1,
      Function.update_noteq h2]

theorem dual_edge_loop_done (P : Platform) (g n : Nat) (s : State)
    (h : status_bit P g s 2 ≠ 0 ∨ in_bit P g s 0 = in_bit P g s 1) :
    dual_edge_loop P g n s =
      dual_edge_out P g (in_bit P g s 0) (dual_edge_body P g s).st := by
  cases n <;> simp [dual_edge_loop, dual_edge_body_eq, h]

theorem dual_edge_loop_retry (P : Platform) (g n : Nat) (s : State)
    (h : ¬ (status_bit P g s 2 ≠ 0 ∨ in_bit P g s 0 = in_bit P g s 1)) :
    dual_edge_loop P g (n + 1) s = dual_edge_loop P g n (dual_edge_body P g s).st := by
  simp only [dual_edge_loop, dual_edge_body_eq, h, if_false]

theorem dual_edge_loop_giveup (P : Platform) (g : Nat) (s : State)
    (h : ¬ (status_bit P g s 2 ≠ 0 ∨ in_bit P g s 0 = in_bit P g s 1)) :
    dual_edge_loop P g 0 s =
      emit (Event.pr_err_dual_edge (in_bit P g s 0) (in_bit P g s 1))
        (dual_edge_body P g s).st := by
  simp only [dual_edge_loop, dual_edge_body_eq, h, if_false]

theorem in_bit_after_pass (P : Platform) (g : Nat) (s : State) (k : Nat) :
    in_bit P g (dual_edge_body P g s).st k = in_bit P g s (k + 3) := by
  have h1 : GPIO_IN_OUT P g ≠ GPIO_INTR_CFG P g := by
    simp only [GPIO_IN_OUT, GPIO_INTR_CFG]
    omega
  by_cases hg : g < P.NR_MSM_GPIOS
  · simp [dual_edge_body_eq, in_bit, read_at, is_live_GPIO_IN_OUT, hg, Nat.add_assoc,
      Nat.add_comm 3 k]
  · simp [dual_edge_body_eq, in_bit, read_at, is_live_GPIO_IN_OUT, hg, State.word,
      Function.update_noteq h1]

theorem status_bit_after_pass (P : Platform) (g : Nat) (s : State) (k : Nat) :
    status_bit P g (dual_edge_body P g s).st k = status_bit P g s (k + 3) := by
  have h2 : GPIO_INTR_STATUS P g ≠ GPIO_INTR_CFG P g := by
    simp only [GPIO_INTR_STATUS, GPIO_INTR_CFG]
    omega
  by_cases hg : g < P.NR_MSM_GPIOS
  · simp [dual_edge_body_eq, status_bit, read_at, is_live_GPIO_INTR_STATUS, hg, Nat.add_assoc,
      Nat.add_comm 3 k]
  · simp [dual_edge_body_eq, status_bit, read_at, is_live_GPIO_INTR_STATUS, hg, State.word,
      Function.update_noteq h2]

theorem trace_after_pass (P : Platform) (g : Nat) (s : State) :
    (dual_edge_body P g s).st.trace = s.trace ++ pass_events P g s := by
  simp [dual_edge_body_eq]

theorem polarity_writes_pass (P : Platform) (g : Nat) (s : State) :
    (polarity_writes P g (pass_events P g s)).length = 1 := by
  simp [polarity_writes, pass_events, List.filter]

theorem mpm_calls_pass (P : Platform) (g : Nat) (s : State) :
    mpm_calls (pass_events P g s) = [] := by
  simp [mpm_calls, pass_events, List.filter, is_mpm_call]

theorem unstable_after_pass (P : Platform) (g : Nat) (s : State) (n : Nat)
    (h : unstable P g s (n + 1)) : unstable P g (dual_edge_body P g s).st n := by
  intro k hk
  have := h (k + 1) (by omega)
  simp only [in_bit_after_pass, status_bit_after_pass]
  have e1 : 3 * (k + 1) = 3 * k + 3 := by ring
  have e2 : 3 * k + 3 + 1 = 3 * k + 1 + 3 := by ring
  have e3 : 3 * k + 3 + 2 = 3 * k + 2 + 3 := by ring
  rw [e1, e2, e3] at this
  exact this

/-- On a line that stays unstable for `n + 1` passes the loop entered with
`loop_limit = n` makes `n + 1` polarity writes, then logs the drop, and never
calls the MPM. -/
theorem dual_edge_loop_unstable (P : Platform) (g : Nat) :
    ∀ (n : Nat) (s : State), unstable P g s n →
      ∃ evs, (dual_edge_loop P g n s).trace = s.trace ++ evs ∧
        (polarity_writes P g evs).length = n + 1 ∧ mpm_calls evs = [] ∧
        evs.getLast? =
          some (Event.pr_err_dual_edge (in_bit P g s (3 * n)) (in_bit P g s (3 * n + 1))) := by
  intro n
  induction n with
  | zero =>
    intro s h
    have h0 := h 0 (le_refl 0)
    have hn : ¬ (status_bit P g s 2 ≠ 0 ∨ in_bit P g s 0 = in_bit P g s 1) := by
      simp only [Nat.mul_zero, Nat.zero_add] at h0
      rintro (h1 | h1)
      · exact h1 h0.2
      · exact h0.1 h1
    refine ⟨pass_events P g s ++ [Event.pr_err_dual_edge (in_bit P g s 0) (in_bit P g s 1)],
      ?_, ?_, ?_, ?_⟩
    · rw [dual_edge_loop_giveup P g s hn]
      simp [emit, trace_after_pass]
    · have := polarity_writes_pass P g s
      simp only [polarity_writes, List.filter_append] at this ⊢
      simp [this]
    · have := mpm_calls_pass P g s
      simp only [mpm_calls, List.filter_append] at this ⊢
      simp [this, is_mpm_call]
    · simp
  | succ n ih =>
    intro s h
    have h0 := h 0 (Nat.zero_le _)
    have hn : ¬ (status_bit P g s 2 ≠ 0 ∨ in_bit P g s 0 = in_bit P g s 1) := by
      simp only [Nat.mul_zero, Nat.zero_add] at h0
      rintro (h1 | h1)
      · exact h1 h0.2
      · exact h0.1 h1
    obtain ⟨evs, ht, hp, hm, hl⟩ := ih _ (unstable_after_pass P g s n h)
    refine ⟨pass_events P g s ++ evs, ?_, ?_, ?_, ?_⟩
    · rw [dual_edge_loop_retry P g n s hn, ht, trace_after_pass, List.append_assoc]
    · have := polarity_writes_pass P g s
      simp only [polarity_writes, List.filter_append, List.length_append] at this hp ⊢
      omega
    · have := mpm_calls_pass P g s
      simp only [mpm_calls, List.filter_append] at this hm ⊢
      simp [this, hm]
    · have hne : evs ≠ [] := by
        intro he
        rw [he] at hl
        simp at hl
      rw [List.getLast?_append_of_ne_nil _ hne, hl, in_bit_after_pass, in_bit_after_pass]
      have e1 : 3 * n + 3 = 3 * (n + 1) := by ring
      have e2 : 3 * n + 1 + 3 = 3 * (n + 1) + 1 := by ring
      rw [e1, e2]

theorem events_since_append (s t : State) (evs : List Event)
    (h : t.trace = s.trace ++ evs) : events_since s t = evs := by
  simp [events_since, h]

theorem unstable_toggling_line (P : Platform) (g n : Nat) (hg : g < P.NR_MSM_GPIOS) :
    unstable P g (probed toggling_line) n := by
  intro k _
  have h0 : (3 * k) % 3 = 0 := by omega
  have h1 : (3 * k + 1) % 3 ≠ 0 := by omega
  have h2 : (3 * k + 2) % 3 ≠ 0 := by omega
  simp [in_bit, status_bit, read_at, is_live_GPIO_IN_OUT, is_live_GPIO_INTR_STATUS, hg, probed,
    toggling_line, h0, h1, h2, BIT, GPIO_IN_BIT, INTR_STATUS_BIT]

/-- C1 (code evaluated at the failing input): on msm8x60 line 5 with a pin that
toggles in every pass and a status bit that never latches, the re-arm loop
makes 101 polarity writes (not 100) before it logs the dropped interrupts; it
makes no MPM call. -/
theorem C1_toggling_line_makes_101_passes :
    (polarity_writes msm8x60 5
        (events_since (probed toggling_line)
          (msm_gpio_update_dual_edge_pos msm8x60 5 (probed toggling_line)))).length = 101 ∧
      mpm_calls
        (events_since (probed toggling_line)
          (msm_gpio_update_dual_edge_pos msm8x60 5 (probed toggling_line))) = [] ∧
      (events_since (probed toggling_line)
          (msm_gpio_update_dual_edge_pos msm8x60 5 (probed toggling_line))).getLast? =
        some (Event.pr_err_dual_edge 1 0) := by
  obtain ⟨evs, ht, hp, hm, hl⟩ :=
    dual_edge_loop_unstable msm8x60 5 100 (probed toggling_line)
      (unstable_toggling_line msm8x60 5 100 (by decide))
  have he := events_since_append _ _ evs ht
  unfold msm_gpio_update_dual_edge_pos
  rw [he]
  refine ⟨hp, hm, ?_⟩
  rw [hl]
  have hg : (5 : Nat) < msm8x60.NR_MSM_GPIOS := by decide
  simp [in_bit, read_at, is_live_GPIO_IN_OUT, hg, probed, toggling_line, BIT, GPIO_IN_BIT]

/-! ### Bit-level facts -/

theorem testBit_mod_word (x j : Nat) :
    (x % 4294967296).testBit j = (decide (j < 32) && x.testBit j) := by
  have h : (4294967296 : Nat) = 2 ^ 32 := by norm_num
  rw [h, Nat.testBit_mod_two_pow]

theorem testBit_not32 (m j : Nat) :
    (not32 m).testBit j = (decide (j < 32) && !(m % 4294967296).testBit j) := by
  have h : (4294967295 : Nat) = 2 ^ 32 - 1 := by norm_num
  unfold not32
  rw [Nat.testBit_xor, h, Nat.testBit_two_pow_sub_one, testBit_mod_word]
  cases decide (j < 32) <;> cases m.testBit j <;> rfl

theorem testBit_of_lt_word {c j : Nat} (hc : c < 4294967296) (hj : 32 ≤ j) :
    c.testBit j = false := by
  apply Nat.testBit_lt_two_pow
  calc c < 2 ^ 32 := by norm_num; exact hc
    _ ≤ 2 ^ j := Nat.pow_le_pow_right (by norm_num) hj

theorem word_lt (s : State) (a : Nat) : s.word a < 4294967296 :=
  Nat.mod_lt _ (by norm_num)

theorem testBit_BIT (n j : Nat) : (BIT n).testBit j = decide (n = j) := by
  rw [BIT, Nat.one_shiftLeft, Nat.testBit_two_pow]

theorem testBit_rearm_word (val c j : Nat) (hc : c < 4294967296) :
    (rearm_word val c).testBit j =
      if j = INTR_POL_CTL_BIT then decide (val = 0) else c.testBit j := by
  by_cases hj : j < 32
  · by_cases hv : val = 0 <;> by_cases h1 : j = INTR_POL_CTL_BIT <;>
      simp [rearm_word, hv, h1, testBit_mod_word, testBit_not32, INTR_POL_CTL_HI,
        testBit_BIT, hj, INTR_POL_CTL_BIT] <;>
      simp_all [INTR_POL_CTL_BIT] <;> omega
  · have hc0 : c.testBit j = false := testBit_of_lt_word hc (by omega)
    have h1 : j ≠ INTR_POL_CTL_BIT := by simp only [INTR_POL_CTL_BIT]; omega
    by_cases hv : val = 0 <;>
      simp [rearm_word, hv, h1, testBit_mod_word, hj, hc0]

/-! ### C2 -/

/-- C2: on a line whose input bit reads the same before and after the polarity
write, `msm_gpio_update_dual_edge_pos` makes exactly one pass (one polarity
write, then the MPM call), leaves `INTR_POL_CTL_HI` clear if the value read was
high and set if it was low, keeps every other bit of the line's
interrupt-config register, and changes no other register. -/
theorem C2_stable_line_single_pass (P : Platform) (g : Nat) (s : State)
    (h : in_bit P g s 0 = in_bit P g s 1) :
    (polarity_writes P g
        (events_since s (msm_gpio_update_dual_edge_pos P g s))).length = 1 ∧
      events_since s (msm_gpio_update_dual_edge_pos P g s) =
        pass_events P g s ++
          [Event.msm_mpm_set_irq_type (msm_gpio_to_irq P g)
            (if in_bit P g s 0 ≠ 0 then IRQF_TRIGGER_FALLING else IRQF_TRIGGER_RISING)] ∧
      ((msm_gpio_update_dual_edge_pos P g s).word (GPIO_INTR_CFG P g)).testBit
          INTR_POL_CTL_BIT = decide (in_bit P g s 0 = 0) ∧
      (∀ j, j ≠ INTR_POL_CTL_BIT →
        ((msm_gpio_update_dual_edge_pos P g s).word (GPIO_INTR_CFG P g)).testBit j =
          (s.word (GPIO_INTR_CFG P g)).testBit j) ∧
      (∀ a, a ≠ GPIO_INTR_CFG P g →
        (msm_gpio_update_dual_edge_pos P g s).regs a = s.regs a) := by
  have hd := dual_edge_loop_done P g 100 s (Or.inr h)
  have ht : (msm_gpio_update_dual_edge_pos P g s).trace =
      s.trace ++ (pass_events P g s ++
        [Event.msm_mpm_set_irq_type (msm_gpio_to_irq P g)
          (if in_bit P g s 0 ≠ 0 then IRQF_TRIGGER_FALLING else IRQF_TRIGGER_RISING)]) := by
    unfold msm_gpio_update_dual_edge_pos
    rw [hd, dual_edge_body_eq]
    by_cases hv : in_bit P g s 0 = 0 <;> simp [dual_edge_out, emit, hv]
  have hr : (msm_gpio_update_dual_edge_pos P g s).regs =
      Function.update s.regs (GPIO_INTR_CFG P g)
        (rearm_word (in_bit P g s 0) (s.word (GPIO_INTR_CFG P g))) := by
    unfold msm_gpio_update_dual_edge_pos
    rw [hd, dual_edge_body_eq]
    by_cases hv : in_bit P g s 0 = 0 <;> simp [dual_edge_out, emit, hv]
  have hw : (msm_gpio_update_dual_edge_pos P g s).word (GPIO_INTR_CFG P g) =
      rearm_word (in_bit P g s 0) (s.word (GPIO_INTR_CFG P g)) := by
    unfold State.word
    rw [hr, Function.update_same]
    unfold rearm_word
    split <;> exact Nat.mod_mod _ _
  have he := events_since_append _ _ _ ht
  refine ⟨?_, he, ?_, ?_, ?_⟩
  · rw [he]
    have := polarity_writes_pass P g s
    simp only [polarity_writes, List.filter_append, List.length_append] at this ⊢
    simp [this]
  · rw [hw, testBit_rearm_word _ _ _ (word_lt s _)]
    simp
  · intro j hj
    rw [hw, testBit_rearm_word _ _ _ (word_lt s _)]
    simp [hj]
  · intro a ha
    rw [hr, Function.update_noteq ha]

/-- C2 at msm8x60 line 5 held high: one pass, polarity bit left clear. -/
theorem C2_stable_line_single_pass_witness :
    in_bit msm8x60 5 high_line_state 0 = in_bit msm8x60 5 high_line_state 1 ∧
      (polarity_writes msm8x60 5
        (events_since high_line_state
          (msm_gpio_update_dual_edge_pos msm8x60 5 high_line_state))).length = 1 ∧
      ((msm_gpio_update_dual_edge_pos msm8x60 5 high_line_state).word
          (GPIO_INTR_CFG msm8x60 5)).testBit INTR_POL_CTL_BIT =
        decide (in_bit msm8x60 5 high_line_state 0 = 0) :=
  ⟨by decide,
   (C2_stable_line_single_pass msm8x60 5 high_line_state (by decide)).1,
   (C2_stable_line_single_pass msm8x60 5 high_line_state (by decide)).2.2.1⟩

/-! ### C3 -/

theorem is_mmio_pass_events (P : Platform) (g : Nat) (s : State) :
    ∀ e ∈ pass_events P g s, is_mmio e = true := by
  intro e he
  simp only [pass_events, List.mem_cons, List.mem_singleton, List.not_mem_nil, or_false] at he
  rcases he with h | h | h | h | h <;> rw [h] <;> rfl

/-- Shape of a run of the re-arm loop: some failed passes, then a last pass
started in a state `s'`, then either the MPM call for the edge armed in that
pass or the dropped-interrupts message. -/
theorem dual_edge_loop_shape (P : Platform) (g : Nat) :
    ∀ (n : Nat) (s : State), ∃ (pre : List Event) (s' : State),
      (∀ e ∈ pre, is_mmio e = true) ∧
      ((dual_edge_loop P g n s).trace =
          s.trace ++ (pre ++ (pass_events P g s' ++
            [Event.msm_mpm_set_irq_type (msm_gpio_to_irq P g)
              (if in_bit P g s' 0 ≠ 0 then IRQF_TRIGGER_FALLING else IRQF_TRIGGER_RISING)])) ∨
       (dual_edge_loop P g n s).trace =
          s.trace ++ (pre ++ (pass_events P g s' ++
            [Event.pr_err_dual_edge (in_bit P g s' 0) (in_bit P g s' 1)]))) := by
  intro n
  induction n with
  | zero =>
    intro s
    refine ⟨[], s, by simp, ?_⟩
    by_cases h : status_bit P g s 2 ≠ 0 ∨ in_bit P g s 0 = in_bit P g s 1
    · left
      rw [dual_edge_loop_done P g 0 s h, dual_edge_body_eq]
      by_cases hv : in_bit P g s 0 = 0 <;> simp [dual_edge_out, emit, hv]
    · right
      rw [dual_edge_loop_giveup P g s h]
      simp [emit, trace_after_pass]
  | succ n ih =>
    intro s
    by_cases h : status_bit P g s 2 ≠ 0 ∨ in_bit P g s 0 = in_bit P g s 1
    · refine ⟨[], s, by simp, Or.inl ?_⟩
      rw [dual_edge_loop_done P g (n + 1) s h, dual_edge_body_eq]
      by_cases hv : in_bit P g s 0 = 0 <;> simp [dual_edge_out, emit, hv]
    · obtain ⟨pre, s', hpre, ht⟩ := ih (dual_edge_body P g s).st
      refine ⟨pass_events P g s ++ pre, s', ?_, ?_⟩
      · intro e he
        rcases List.mem_append.mp he with h1 | h1
        · exact is_mmio_pass_events P g s e h1
        · exact hpre e h1
      · rw [dual_edge_loop_retry P g n s h]
        rcases ht with ht | ht
        · left
          rw [ht, trace_after_pass]
          simp only [List.append_assoc]
        · right
          rw [ht, trace_after_pass]
          simp only [List.append_assoc]

/-- C3 (as the code has it): whenever `msm_gpio_update_dual_edge_pos` calls the
MPM, the call is the last event of the run, it is for the line's irq, and the
direction passed is falling if the input bit sampled first in the final pass
was high and rising if it was low. -/
theorem C3_mpm_gets_armed_edge (P : Platform) (g : Nat) (s : State) (irq ty : Nat)
    (h : Event.msm_mpm_set_irq_type irq ty ∈
      events_since s (msm_gpio_update_dual_edge_pos P g s)) :
    irq = msm_gpio_to_irq P g ∧
      ∃ (pre : List Event) (x1 c w x2 x3 : Nat),
        events_since s (msm_gpio_update_dual_edge_pos P g s) =
          pre ++ [Event.readl (GPIO_IN_OUT P g) x1, Event.readl (GPIO_INTR_CFG P g) c,
            Event.writel w (GPIO_INTR_CFG P g), Event.readl (GPIO_IN_OUT P g) x2,
            Event.readl (GPIO_INTR_STATUS P g) x3,
            Event.msm_mpm_set_irq_type (msm_gpio_to_irq P g) ty] ∧
        ty = (if x1 &&& BIT GPIO_IN_BIT ≠ 0 then IRQF_TRIGGER_FALLING
              else IRQF_TRIGGER_RISING) := by
  obtain ⟨pre, s', hpre, ht⟩ := dual_edge_loop_shape P g 100 s
  have hnot : ∀ (l : List Event), (∀ e ∈ l, is_mmio e = true) →
      Event.msm_mpm_set_irq_type irq ty ∉ l := by
    intro l hl hm
    have := hl _ hm
    simp [is_mmio] at this
  unfold msm_gpio_update_dual_edge_pos at h ⊢
  rcases ht with ht | ht
  · have he := events_since_append _ _ _ ht
    rw [he] at h ⊢
    rcases List.mem_append.mp h with h1 | h1
    · exact absurd h1 (hnot pre hpre)
    · rcases List.mem_append.mp h1 with h2 | h2
      · exact absurd h2 (hnot _ (is_mmio_pass_events P g s'))
      · simp only [List.mem_singleton, Event.msm_mpm_set_irq_type.injEq] at h2
        obtain ⟨hirq, hty⟩ := h2
        refine ⟨hirq, pre, read_at P (GPIO_IN_OUT P g) s' 0,
          s'.word (GPIO_INTR_CFG P g),
          rearm_word (in_bit P g s' 0) (s'.word (GPIO_INTR_CFG P g)),
          read_at P (GPIO_IN_OUT P g) s' 1,
          read_at P (GPIO_INTR_STATUS P g) s' 2, ?_, ?_⟩
        · rw [← hty]
          rfl
        · rw [hty]
          rfl
  · have he := events_since_append _ _ _ ht
    rw [he] at h
    rcases List.mem_append.mp h with h1 | h1
    · exact absurd h1 (hnot pre hpre)
    · rcases List.mem_append.mp h1 with h2 | h2
      · exact absurd h2 (hnot _ (is_mmio_pass_events P g s'))
      · simp at h2

/-- C3 at msm8x60 line 5 held high: the MPM call of the run carries the line's
irq and the falling-edge trigger. -/
theorem C3_mpm_gets_armed_edge_witness :
    Event.msm_mpm_set_irq_type 261 IRQF_TRIGGER_FALLING ∈
        events_since high_line_state (msm_gpio_update_dual_edge_pos msm8x60 5 high_line_state) ∧
      261 = msm_gpio_to_irq msm8x60 5 :=
  ⟨by decide,
   (C3_mpm_gets_armed_edge msm8x60 5 high_line_state 261 IRQF_TRIGGER_FALLING (by decide)).1⟩

/-- C3 as stated fails: with msm8x60 line 5 held high the sampled value is
high, the re-arm succeeds in one pass, and the direction handed to the MPM is
falling, not rising. -/
theorem C3_counterexample_high_line_gets_falling :
    in_bit msm8x60 5 high_line_state 0 ≠ 0 ∧
      events_since high_line_state (msm_gpio_update_dual_edge_pos msm8x60 5 high_line_state) =
        [Event.readl (GPIO_IN_OUT msm8x60 5) 1, Event.readl (GPIO_INTR_CFG msm8x60 5) 0,
         Event.writel 0 (GPIO_INTR_CFG msm8x60 5), Event.readl (GPIO_IN_OUT msm8x60 5) 1,
         Event.readl (GPIO_INTR_STATUS msm8x60 5) 0,
         Event.msm_mpm_set_irq_type (msm_gpio_to_irq msm8x60 5) IRQF_TRIGGER_FALLING] ∧
      Event.msm_mpm_set_irq_type (msm_gpio_to_irq msm8x60 5) IRQF_TRIGGER_RISING ∉
        events_since high_line_state (msm_gpio_update_dual_edge_pos msm8x60 5 high_line_state) := by
  decide

/-! ### C4 -/

theorem find_next_bit_from_spec (addr : Nat → Bool) (size : Nat) :
    ∀ (fuel off : Nat), size - off ≤ fuel →
      (off ≤ size → off ≤ find_next_bit_from addr size fuel off) ∧
      find_next_bit_from addr size fuel off ≤ size ∧
      (find_next_bit_from addr size fuel off < size →
        addr (find_next_bit_from addr size fuel off) = true) ∧
      (∀ k, off ≤ k → k < find_next_bit_from addr size fuel off → addr k = false) := by
  intro fuel
  induction fuel with
  | zero =>
    intro off h
    simp only [find_next_bit_from]
    refine ⟨fun h1 => h1, le_refl _, fun h1 => absurd h1 (lt_irrefl _), ?_⟩
    intro k h1 h2
    omega
  | succ fuel ih =>
    intro off h
    by_cases h1 : off < size
    · by_cases h2 : addr off = true
      · have e : find_next_bit_from addr size (fuel + 1) off = off := by
          simp only [find_next_bit_from]
          rw [if_pos h1, if_pos h2]
        rw [e]
        refine ⟨fun _ => le_refl _, le_of_lt h1, fun _ => h2, ?_⟩
        intro k h3 h4
        omega
      · have e : find_next_bit_from addr size (fuel + 1) off =
            find_next_bit_from addr size fuel (off + 1) := by
          simp only [find_next_bit_from]
          rw [if_pos h1, if_neg h2]
        rw [e]
        obtain ⟨a1, a2, a3, a4⟩ := ih (off + 1) (by omega)
        refine ⟨fun _ => ?_, a2, a3, ?_⟩
        · have := a1 (by omega)
          omega
        · intro k h3 h4
          by_cases h5 : k = off
          · rw [h5]
            simpa using h2
          · exact a4 k (by omega) h4
    · have e : find_next_bit_from addr size (fuel + 1) off = size := by
        simp only [find_next_bit_from]
        rw [if_neg h1]
      rw [e]
      refine ⟨fun h2 => h2, le_refl _, fun h2 => absurd h2 (lt_irrefl _), ?_⟩
      intro k h2 h3
      omega

theorem find_next_bit_spec (addr : Nat → Bool) (size off : Nat) :
    (off ≤ size → off ≤ find_next_bit addr size off) ∧
      find_next_bit addr size off ≤ size ∧
      (find_next_bit addr size off < size → addr (find_next_bit addr size off) = true) ∧
      (∀ k, off ≤ k → k < find_next_bit addr size off → addr k = false) :=
  find_next_bit_from_spec addr size (size - off) off (le_refl _)

/-- Lines that are skipped by `find_next_bit` contribute nothing to a filter
that asks for membership in the bitmap. -/
theorem filter_skip (addr q : Nat → Bool) (n i r : Nat) (hir : i ≤ r) (hrn : r ≤ n)
    (hskip : ∀ k, i ≤ k → k < r → addr k = false) :
    (List.range' i (n - i)).filter (fun j => addr j && q j) =
      (List.range' r (n - r)).filter (fun j => addr j && q j) := by
  have hsplit : List.range' i (n - i) = List.range' i (r - i) ++ List.range' r (n - r) := by
    have := List.range'_append_1 i (r - i) (n - r)
    have e1 : i + (r - i) = r := by omega
    have e2 : n - r + (r - i) = n - i := by omega
    rw [e1, e2] at this
    exact this.symm
  rw [hsplit, List.filter_append]
  have hnil : (List.range' i (r - i)).filter (fun j => addr j && q j) = [] := by
    rw [List.filter_eq_nil_iff]
    intro a ha
    rw [List.mem_range'_1] at ha
    simp [hskip a ha.1 (by omega)]
  rw [hnil, List.nil_append]

theorem status_test (x : Nat) :
    (x % 4294967296 &&& BIT INTR_STATUS_BIT ≠ 0) ↔ x.testBit INTR_STATUS_BIT = true := by
  have h : BIT INTR_STATUS_BIT = 1 := rfl
  rw [h, Nat.and_one_is_mod]
  simp only [INTR_STATUS_BIT, Nat.testBit_zero, decide_eq_true_eq]
  omega

theorem summary_body_eq (P : Platform) (i : Nat) (s : State) (hi : i < P.NR_MSM_GPIOS) :
    summary_body P i s =
      { s with tick := s.tick + 1,
               trace := s.trace ++ scan_events P i (s.live s.tick (GPIO_INTR_STATUS P i)) } := by
  by_cases hb : (s.live s.tick (GPIO_INTR_STATUS P i)).testBit INTR_STATUS_BIT = true
  · have hb' := (status_test _).mpr hb
    simp [summary_body, readl, is_live_GPIO_INTR_STATUS, hi, hb', emit, scan_events, hb]
  · have hb' : ¬ (s.live s.tick (GPIO_INTR_STATUS P i) % 4294967296 &&&
        BIT INTR_STATUS_BIT ≠ 0) := fun h => hb ((status_test _).mp h)
    simp only [ne_eq, not_not] at hb'
    simp [summary_body, readl, is_live_GPIO_INTR_STATUS, hi, hb', scan_events, hb]

theorem dispatched_scan_events (P : Platform) (i x : Nat) :
    dispatched (scan_events P i x) =
      if x.testBit INTR_STATUS_BIT then [msm_gpio_to_irq P i] else [] := by
  by_cases hb : x.testBit INTR_STATUS_BIT = true <;>
    simp [dispatched, scan_events, hb, List.filterMap]

theorem is_scan_event_scan_events (P : Platform) (i x : Nat) :
    ∀ e ∈ scan_events P i x, is_scan_event e = true := by
  intro e he
  by_cases hb : x.testBit INTR_STATUS_BIT = true
  · simp only [scan_events, hb, if_true, List.mem_cons, List.mem_singleton, List.not_mem_nil,
      or_false] at he
    rcases he with h | h <;> rw [h] <;> rfl
  · simp only [scan_events, hb, if_false, List.mem_cons, List.not_mem_nil, or_false,
      Bool.false_eq_true] at he
    rw [he]
    rfl

theorem summary_loop_spec (P : Platform) (status : Nat → Nat) :
    ∀ (fuel i : Nat) (s : State),
      (∀ t j, s.live t (GPIO_INTR_STATUS P j) = status j) →
      i ≤ P.NR_MSM_GPIOS → (i < P.NR_MSM_GPIOS → s.enabled_irqs i = true) →
      P.NR_MSM_GPIOS - i ≤ fuel →
      ∃ evs, (summary_loop P fuel i s).trace = s.trace ++ evs ∧
        dispatched evs =
          ((List.range' i (P.NR_MSM_GPIOS - i)).filter
            (fun j => s.enabled_irqs j && (status j).testBit INTR_STATUS_BIT)).map
            (msm_gpio_to_irq P) ∧
        (∀ e ∈ evs, is_scan_event e = true) ∧
        (summary_loop P fuel i s).enabled_irqs = s.enabled_irqs ∧
        (summary_loop P fuel i s).wake_irqs = s.wake_irqs ∧
        (summary_loop P fuel i s).dual_edge_irqs = s.dual_edge_irqs ∧
        (summary_loop P fuel i s).regs = s.regs ∧
        (summary_loop P fuel i s).handle_irq = s.handle_irq := by
  intro fuel
  induction fuel with
  | zero =>
    intro i s _ hi _ hf
    have : P.NR_MSM_GPIOS - i = 0 := by omega
    refine ⟨[], ?_⟩
    simp [summary_loop, this, dispatched]
  | succ fuel ih =>
    intro i s hst hi hen hf
    by_cases hlt : i < P.NR_MSM_GPIOS
    · have hstep : summary_loop P (fuel + 1) i s =
          summary_loop P fuel (find_next_bit s.enabled_irqs P.NR_MSM_GPIOS (i + 1))
            (summary_body P i s) := by
        simp only [summary_loop, hlt, if_true]
        rw [summary_body_eq P i s hlt]
      have hrange : List.range' i (P.NR_MSM_GPIOS - i) =
          i :: List.range' (i + 1) (P.NR_MSM_GPIOS - (i + 1)) := by
        have e : P.NR_MSM_GPIOS - i = (P.NR_MSM_GPIOS - (i + 1)) + 1 := by omega
        rw [e, List.range'_succ]
      have heni := hen hlt
      obtain ⟨n1, n2, n3, n4⟩ := find_next_bit_spec s.enabled_irqs P.NR_MSM_GPIOS (i + 1)
      have hbody := summary_body_eq P i s hlt
      obtain ⟨evs, e1, e2, e3, e4, e5, e6, e7, e8⟩ :=
        ih (find_next_bit s.enabled_irqs P.NR_MSM_GPIOS (i + 1)) (summary_body P i s)
          (by intro t j; rw [hbody]; exact hst t j) n2
          (by intro h; rw [hbody]; exact n3 h)
          (by have := n1 (by omega); omega)
      rw [hstep]
      refine ⟨scan_events P i (status i) ++ evs, ?_, ?_, ?_, ?_, ?_, ?_, ?_, ?_⟩
      · rw [e1, hbody, hst]
        simp
      · rw [hrange, List.filter_cons]
        rw [filter_skip s.enabled_irqs (fun j => (status j).testBit INTR_STATUS_BIT)
          P.NR_MSM_GPIOS (i + 1) _ (n1 (by omega)) n2 n4]
        have e2' : dispatched evs =
            ((List.range' (find_next_bit s.enabled_irqs P.NR_MSM_GPIOS (i + 1))
              (P.NR_MSM_GPIOS - find_next_bit s.enabled_irqs P.NR_MSM_GPIOS (i + 1))).filter
              (fun j => s.enabled_irqs j && (status j).testBit INTR_STATUS_BIT)).map
              (msm_gpio_to_irq P) := by
          rw [e2, hbody]
        have hd : dispatched (scan_events P i (status i) ++ evs) =
            dispatched (scan_events P i (status i)) ++ dispatched evs := by
          simp [dispatched, List.filterMap_append]
        rw [hd, dispatched_scan_events, e2']
        by_cases hb : (status i).testBit INTR_STATUS_BIT = true <;> simp [heni, hb]
      · intro e he
        rcases List.mem_append.mp he with h1 | h1
        · exact is_scan_event_scan_events P i _ e h1
        · exact e3 e h1
      · rw [e4, hbody]
      · rw [e5, hbody]
      · rw [e6, hbody]
      · rw [e7, hbody]
      · rw [e8, hbody]
    · have : P.NR_MSM_GPIOS - i = 0 := by omega
      refine ⟨[], ?_⟩
      simp [summary_loop, hlt, this, dispatched]

theorem msm_gpio_to_irq_lt (P : Platform) {a b : Nat} (h : a < b) :
    msm_gpio_to_irq P a < msm_gpio_to_irq P b := by
  simp only [msm_gpio_to_irq, MSM_GPIO_TO_INT, chip_base]
  omega

/-- C4: with the raw-status words given by `status`, the summary handler
dispatches exactly the virtual interrupts of the lines below `NR_MSM_GPIOS`
that are in `enabled_irqs` and have status bit 0 set, in ascending line order;
its events are the scan (status reads and dispatches only) followed by one
acknowledge of the summary line; it changes none of the three bitmaps. -/
theorem C4_summary_handler_dispatch (P : Platform) (s : State) (irq : Nat)
    (status : Nat → Nat) (hst : ∀ t j, s.live t (GPIO_INTR_STATUS P j) = status j) :
    dispatched (events_since s (msm_summary_irq_handler P irq s)) =
        ((List.range P.NR_MSM_GPIOS).filter
          (fun j => s.enabled_irqs j && (status j).testBit INTR_STATUS_BIT)).map
          (msm_gpio_to_irq P) ∧
      (dispatched (events_since s (msm_summary_irq_handler P irq s))).Pairwise (· < ·) ∧
      (∃ scan, events_since s (msm_summary_irq_handler P irq s) = scan ++ [Event.chip_ack irq] ∧
        ∀ e ∈ scan, is_scan_event e = true) ∧
      (msm_summary_irq_handler P irq s).enabled_irqs = s.enabled_irqs ∧
      (msm_summary_irq_handler P irq s).wake_irqs = s.wake_irqs ∧
      (msm_summary_irq_handler P irq s).dual_edge_irqs = s.dual_edge_irqs := by
  obtain ⟨n1, n2, n3, n4⟩ := find_next_bit_spec s.enabled_irqs P.NR_MSM_GPIOS 0
  obtain ⟨evs, e1, e2, e3, e4, e5, e6, _, _⟩ :=
    summary_loop_spec P status P.NR_MSM_GPIOS (find_first_bit s.enabled_irqs P.NR_MSM_GPIOS) s
      hst n2 n3 (Nat.sub_le _ _)
  have ht : (msm_summary_irq_handler P irq s).trace =
      s.trace ++ (evs ++ [Event.chip_ack irq]) := by
    simp only [msm_summary_irq_handler, emit]
    rw [e1, List.append_assoc]
  have he := events_since_append _ _ _ ht
  have hd : dispatched (evs ++ [Event.chip_ack irq]) =
      ((List.range P.NR_MSM_GPIOS).filter
        (fun j => s.enabled_irqs j && (status j).testBit INTR_STATUS_BIT)).map
        (msm_gpio_to_irq P) := by
    have h1 : dispatched (evs ++ [Event.chip_ack irq]) = dispatched evs := by
      simp [dispatched, List.filterMap_append, List.filterMap]
    rw [h1, e2, List.range_eq_range']
    have := filter_skip s.enabled_irqs (fun j => (status j).testBit INTR_STATUS_BIT)
      P.NR_MSM_GPIOS 0 (find_first_bit s.enabled_irqs P.NR_MSM_GPIOS) (Nat.zero_le _) n2
      (fun k hk hk' => n4 k hk hk')
    rw [Nat.sub_zero] at this
    rw [this]
  rw [he]
  refine ⟨hd, ?_, ⟨evs, rfl, e3⟩, ?_, ?_, ?_⟩
  · rw [hd]
    apply List.Pairwise.map (msm_gpio_to_irq P) (R := (· < ·))
    · intro a b hab
      exact msm_gpio_to_irq_lt P hab
    · exact List.Pairwise.filter _ (List.pairwise_lt_range _)
  · simp only [msm_summary_irq_handler, emit]
    exact e4
  · simp only [msm_summary_irq_handler, emit]
    exact e5
  · simp only [msm_summary_irq_handler, emit]
    exact e6

/-- C4 on the scenario of the spec: lines 3, 17 and 200 enabled, status of line
17 alone set; only the interrupt of line 17 is dispatched. -/
theorem C4_summary_handler_dispatch_witness :
    (∀ t j, summary_scenario.live t (GPIO_INTR_STATUS wide_platform j) =
        summary_scenario_status j) ∧
      dispatched (events_since summary_scenario
        (msm_summary_irq_handler wide_platform 48 summary_scenario)) =
        [msm_gpio_to_irq wide_platform 17] :=
  ⟨fun _ _ => rfl,
   (C4_summary_handler_dispatch wide_platform summary_scenario 48 summary_scenario_status
      (fun _ _ => rfl)).1.trans (by decide)⟩

/-! ### C5, C6 -/

theorem secure_writel_eq (P : Platform) (v c : Nat) (s : State) :
    secure_writel P v c s =
      { s with regs := Function.update s.regs c (v % 4294967296),
               trace := s.trace ++ [secure_writel_event P v c] } := by
  unfold secure_writel secure_writel_event
  split
  · rfl
  · split
    · rfl
    · split
      · rfl
      · rfl

theorem GPIO_INTR_CFG_SU_ne_GPIO_INTR_CFG (P : Platform) (g : Nat) :
    GPIO_INTR_CFG_SU P g ≠ GPIO_INTR_CFG P g := by
  simp only [GPIO_INTR_CFG_SU, GPIO_INTR_CFG]
  omega

theorem msm_irq_to_gpio_to_irq (P : Platform) (i : Nat) :
    msm_irq_to_gpio P (msm_gpio_to_irq P i) = i := by
  simp [msm_irq_to_gpio, msm_gpio_to_irq, MSM_GPIO_TO_INT, chip_base]

theorem and_mod_word (x m : Nat) :
    (x % 4294967296 &&& m) % 4294967296 = x % 4294967296 &&& m :=
  Nat.mod_eq_of_lt (lt_of_le_of_lt Nat.and_le_left (Nat.mod_lt _ (by norm_num)))

theorem or_mod_word (x m : Nat) (hm : m < 4294967296) :
    (x % 4294967296 ||| m) % 4294967296 = x % 4294967296 ||| m := by
  apply Nat.mod_eq_of_lt
  have h : (4294967296 : Nat) = 2 ^ 32 := by norm_num
  rw [h] at hm ⊢
  exact Nat.or_lt_two_pow (Nat.mod_lt _ (by norm_num)) hm

theorem enable_bits_lt : INTR_RAW_STATUS_EN ||| INTR_ENABLE < 4294967296 := by decide

theorem msm_gpio_irq_mask_eq (P : Platform) (irq : Nat) (s : State) :
    msm_gpio_irq_mask P irq s =
      { s with
        regs := Function.update
          (Function.update s.regs (GPIO_INTR_CFG_SU P (msm_irq_to_gpio P irq)) TARGET_PROC_NONE)
          (GPIO_INTR_CFG P (msm_irq_to_gpio P irq))
          (s.word (GPIO_INTR_CFG P (msm_irq_to_gpio P irq)) &&&
            not32 (INTR_RAW_STATUS_EN ||| INTR_ENABLE)),
        enabled_irqs := clear_bit (msm_irq_to_gpio P irq) s.enabled_irqs,
        trace := s.trace ++
          [Event.spin_lock_irqsave,
           secure_writel_event P TARGET_PROC_NONE (GPIO_INTR_CFG_SU P (msm_irq_to_gpio P irq)),
           Event.readl (GPIO_INTR_CFG P (msm_irq_to_gpio P irq))
             (s.word (GPIO_INTR_CFG P (msm_irq_to_gpio P irq))),
           Event.writel
             (s.word (GPIO_INTR_CFG P (msm_irq_to_gpio P irq)) &&&
               not32 (INTR_RAW_STATUS_EN ||| INTR_ENABLE))
             (GPIO_INTR_CFG P (msm_irq_to_gpio P irq)),
           Event.dsb, Event.spin_unlock_irqrestore, Event.msm_mpm_enable_irq irq 0] } := by
  have hne := GPIO_INTR_CFG_SU_ne_GPIO_INTR_CFG P (msm_irq_to_gpio P irq)
  simp [msm_gpio_irq_mask, secure_writel_eq, clr_gpio_bits, readl, is_live_GPIO_INTR_CFG,
    writel, dsb, spin_lock_irqsave, spin_unlock_irqrestore, emit, State.word,
    Function.update_noteq hne.symm, TARGET_PROC_NONE, and_mod_word]

theorem msm_gpio_irq_unmask_eq (P : Platform) (irq : Nat) (s : State) :
    msm_gpio_irq_unmask P irq s =
      { s with
        regs := Function.update
          (Function.update s.regs (GPIO_INTR_CFG P (msm_irq_to_gpio P irq))
            (s.word (GPIO_INTR_CFG P (msm_irq_to_gpio P irq)) |||
              (INTR_RAW_STATUS_EN ||| INTR_ENABLE)))
          (GPIO_INTR_CFG_SU P (msm_irq_to_gpio P irq)) TARGET_PROC_SCORPION,
        enabled_irqs := set_bit (msm_irq_to_gpio P irq) s.enabled_irqs,
        trace := s.trace ++
          [Event.spin_lock_irqsave,
           Event.readl (GPIO_INTR_CFG P (msm_irq_to_gpio P irq))
             (s.word (GPIO_INTR_CFG P (msm_irq_to_gpio P irq))),
           Event.writel
             (s.word (GPIO_INTR_CFG P (msm_irq_to_gpio P irq)) |||
               (INTR_RAW_STATUS_EN ||| INTR_ENABLE))
             (GPIO_INTR_CFG P (msm_irq_to_gpio P irq)),
           secure_writel_event P TARGET_PROC_SCORPION
             (GPIO_INTR_CFG_SU P (msm_irq_to_gpio P irq)),
           Event.dsb, Event.spin_unlock_irqrestore, Event.msm_mpm_enable_irq irq 1] } := by
  simp [msm_gpio_irq_unmask, secure_writel_eq, set_gpio_bits, readl, is_live_GPIO_INTR_CFG,
    writel, dsb, spin_lock_irqsave, spin_unlock_irqrestore, emit, State.word,
    TARGET_PROC_SCORPION, or_mod_word _ _ enable_bits_lt]

theorem mpm_calls_cons (e : Event) (evs : List Event) :
    mpm_calls (e :: evs) = if is_mpm_call e then e :: mpm_calls evs else mpm_calls evs := by
  simp only [mpm_calls, List.filter_cons]

theorem mpm_calls_nil : mpm_calls [] = [] := rfl

theorem is_mpm_call_secure_writel_event (P : Platform) (v c : Nat) :
    is_mpm_call (secure_writel_event P v c) = false := by
  unfold secure_writel_event
  split
  · rfl
  · split
    · rfl
    · split
      · rfl
      · rfl

/-- The two registers of line `i` that mask and unmask store to are not
registers of another line, as long as both lines are below 768 (the owner
window, 4 bytes a line from offset 0x400, then stays below the per-line
windows at offset 0x1000). -/
theorem same_line_regs_of_frame (P : Platform) (i j : Nat) (s t : State)
    (hij : j ≠ i) (hi : i < 768) (hj : j < 768)
    (h : ∀ a, a ≠ GPIO_INTR_CFG P i → a ≠ GPIO_INTR_CFG_SU P i → t.regs a = s.regs a) :
    same_line_regs P j s t := by
  refine ⟨h _ ?_ ?_, h _ ?_ ?_, h _ ?_ ?_, h _ ?_ ?_, h _ ?_ ?_⟩ <;>
    simp only [GPIO_CONFIG, GPIO_IN_OUT, GPIO_INTR_CFG, GPIO_INTR_STATUS, GPIO_INTR_CFG_SU] <;>
    omega

/-- C5: the state after `msm_gpio_irq_unmask` and after `msm_gpio_irq_mask` on
the irq of line `i`: the bit of `i` in `enabled_irqs` set resp. cleared and no
other bit touched, the interrupt-config word or-ed with resp. and-ed with the
complement of `INTR_RAW_STATUS_EN | INTR_ENABLE`, the owner register holding
`TARGET_PROC_SCORPION` resp. `TARGET_PROC_NONE`, one MPM call telling the irq
enabled resp. disabled, `wake_irqs` and `dual_edge_irqs` as before, and no
register written other than these two of line `i`. -/
theorem C5_mask_unmask_post_state (P : Platform) (s : State) (i : Nat) :
    ((∀ j, (msm_gpio_irq_unmask P (msm_gpio_to_irq P i) s).enabled_irqs j =
          (decide (j = i) || s.enabled_irqs j)) ∧
      (msm_gpio_irq_unmask P (msm_gpio_to_irq P i) s).word (GPIO_INTR_CFG P i) =
        s.word (GPIO_INTR_CFG P i) ||| (INTR_RAW_STATUS_EN ||| INTR_ENABLE) ∧
      (msm_gpio_irq_unmask P (msm_gpio_to_irq P i) s).word (GPIO_INTR_CFG_SU P i) =
        TARGET_PROC_SCORPION ∧
      mpm_calls (events_since s (msm_gpio_irq_unmask P (msm_gpio_to_irq P i) s)) =
        [Event.msm_mpm_enable_irq (msm_gpio_to_irq P i) 1] ∧
      (msm_gpio_irq_unmask P (msm_gpio_to_irq P i) s).wake_irqs = s.wake_irqs ∧
      (msm_gpio_irq_unmask P (msm_gpio_to_irq P i) s).dual_edge_irqs = s.dual_edge_irqs ∧
      (∀ a, a ≠ GPIO_INTR_CFG P i → a ≠ GPIO_INTR_CFG_SU P i →
        (msm_gpio_irq_unmask P (msm_gpio_to_irq P i) s).regs a = s.regs a) ∧
      (∀ j, j ≠ i → i < 768 → j < 768 →
        same_line_regs P j s (msm_gpio_irq_unmask P (msm_gpio_to_irq P i) s))) ∧
    ((∀ j, (msm_gpio_irq_mask P (msm_gpio_to_irq P i) s).enabled_irqs j =
          (!decide (j = i) && s.enabled_irqs j)) ∧
      (msm_gpio_irq_mask P (msm_gpio_to_irq P i) s).word (GPIO_INTR_CFG P i) =
        s.word (GPIO_INTR_CFG P i) &&& not32 (INTR_RAW_STATUS_EN ||| INTR_ENABLE) ∧
      (msm_gpio_irq_mask P (msm_gpio_to_irq P i) s).word (GPIO_INTR_CFG_SU P i) =
        TARGET_PROC_NONE ∧
      mpm_calls (events_since s (msm_gpio_irq_mask P (msm_gpio_to_irq P i) s)) =
        [Event.msm_mpm_enable_irq (msm_gpio_to_irq P i) 0] ∧
      (msm_gpio_irq_mask P (msm_gpio_to_irq P i) s).wake_irqs = s.wake_irqs ∧
      (msm_gpio_irq_mask P (msm_gpio_to_irq P i) s).dual_edge_irqs = s.dual_edge_irqs ∧
      (∀ a, a ≠ GPIO_INTR_CFG P i → a ≠ GPIO_INTR_CFG_SU P i →
        (msm_gpio_irq_mask P (msm_gpio_to_irq P i) s).regs a = s.regs a) ∧
      (∀ j, j ≠ i → i < 768 → j < 768 →
        same_line_regs P j s (msm_gpio_irq_mask P (msm_gpio_to_irq P i) s))) := by
  have hne := GPIO_INTR_CFG_SU_ne_GPIO_INTR_CFG P i
  have hfu : ∀ a, a ≠ GPIO_INTR_CFG P i → a ≠ GPIO_INTR_CFG_SU P i →
      (msm_gpio_irq_unmask P (msm_gpio_to_irq P i) s).regs a = s.regs a := by
    intro a h1 h2
    rw [msm_gpio_irq_unmask_eq, msm_irq_to_gpio_to_irq]
    simp [Function.update_noteq h1, Function.update_noteq h2]
  have hfm : ∀ a, a ≠ GPIO_INTR_CFG P i → a ≠ GPIO_INTR_CFG_SU P i →
      (msm_gpio_irq_mask P (msm_gpio_to_irq P i) s).regs a = s.regs a := by
    intro a h1 h2
    rw [msm_gpio_irq_mask_eq, msm_irq_to_gpio_to_irq]
    simp [Function.update_noteq h1, Function.update_noteq h2]
  refine ⟨⟨?_, ?_, ?_, ?_, ?_, ?_, hfu, ?_⟩, ⟨?_, ?_, ?_, ?_, ?_, ?_, hfm, ?_⟩⟩
  · intro j
    rw [msm_gpio_irq_unmask_eq, msm_irq_to_gpio_to_irq]
    by_cases h : j = i <;> simp [set_bit, Function.update, h]
  · rw [msm_gpio_irq_unmask_eq, msm_irq_to_gpio_to_irq]
    simp [State.word, Function.update_noteq hne.symm, or_mod_word _ _ enable_bits_lt]
  · rw [msm_gpio_irq_unmask_eq, msm_irq_to_gpio_to_irq]
    simp [State.word, TARGET_PROC_SCORPION]
  · rw [msm_gpio_irq_unmask_eq, msm_irq_to_gpio_to_irq]
    simp only [events_since, List.drop_left, mpm_calls_cons, mpm_calls_nil,
      is_mpm_call_secure_writel_event]
    simp [is_mpm_call]
  · rw [msm_gpio_irq_unmask_eq]
  · rw [msm_gpio_irq_unmask_eq]
  · intro j hj hi hj'
    exact same_line_regs_of_frame P i j _ _ hj hi hj' hfu
  · intro j
    rw [msm_gpio_irq_mask_eq, msm_irq_to_gpio_to_irq]
    by_cases h : j = i <;> simp [clear_bit, Function.update, h]
  · rw [msm_gpio_irq_mask_eq, msm_irq_to_gpio_to_irq]
    simp [State.word, and_mod_word]
  · rw [msm_gpio_irq_mask_eq, msm_irq_to_gpio_to_irq]
    simp [State.word, Function.update_noteq hne, TARGET_PROC_NONE]
  · rw [msm_gpio_irq_mask_eq, msm_irq_to_gpio_to_irq]
    simp only [events_since, List.drop_left, mpm_calls_cons, mpm_calls_nil,
      is_mpm_call_secure_writel_event]
    simp [is_mpm_call]
  · rw [msm_gpio_irq_mask_eq]
  · rw [msm_gpio_irq_mask_eq]
  · intro j hj hi hj'
    exact same_line_regs_of_frame P i j _ _ hj hi hj' hfm

/-- C6: masking twice leaves the registers and the three bitmaps as masking
once does, and so does unmasking twice. -/
theorem C6_mask_unmask_idempotent (P : Platform) (s : State) (i : Nat) :
    ((msm_gpio_irq_mask P (msm_gpio_to_irq P i)
          (msm_gpio_irq_mask P (msm_gpio_to_irq P i) s)).regs =
        (msm_gpio_irq_mask P (msm_gpio_to_irq P i) s).regs ∧
      (msm_gpio_irq_mask P (msm_gpio_to_irq P i)
          (msm_gpio_irq_mask P (msm_gpio_to_irq P i) s)).enabled_irqs =
        (msm_gpio_irq_mask P (msm_gpio_to_irq P i) s).enabled_irqs ∧
      (msm_gpio_irq_mask P (msm_gpio_to_irq P i)
          (msm_gpio_irq_mask P (msm_gpio_to_irq P i) s)).wake_irqs =
        (msm_gpio_irq_mask P (msm_gpio_to_irq P i) s).wake_irqs ∧
      (msm_gpio_irq_mask P (msm_gpio_to_irq P i)
          (msm_gpio_irq_mask P (msm_gpio_to_irq P i) s)).dual_edge_irqs =
        (msm_gpio_irq_mask P (msm_gpio_to_irq P i) s).dual_edge_irqs) ∧
    ((msm_gpio_irq_unmask P (msm_gpio_to_irq P i)
          (msm_gpio_irq_unmask P (msm_gpio_to_irq P i) s)).regs =
        (msm_gpio_irq_unmask P (msm_gpio_to_irq P i) s).regs ∧
      (msm_gpio_irq_unmask P (msm_gpio_to_irq P i)
          (msm_gpio_irq_unmask P (msm_gpio_to_irq P i) s)).enabled_irqs =
        (msm_gpio_irq_unmask P (msm_gpio_to_irq P i) s).enabled_irqs ∧
      (msm_gpio_irq_unmask P (msm_gpio_to_irq P i)
          (msm_gpio_irq_unmask P (msm_gpio_to_irq P i) s)).wake_irqs =
        (msm_gpio_irq_unmask P (msm_gpio_to_irq P i) s).wake_irqs ∧
      (msm_gpio_irq_unmask P (msm_gpio_to_irq P i)
          (msm_gpio_irq_unmask P (msm_gpio_to_irq P i) s)).dual_edge_irqs =
        (msm_gpio_irq_unmask P (msm_gpio_to_irq P i) s).dual_edge_irqs) := by
  have hne := GPIO_INTR_CFG_SU_ne_GPIO_INTR_CFG P i
  refine ⟨⟨?_, ?_, ?_, ?_⟩, ⟨?_, ?_, ?_, ?_⟩⟩
  · rw [msm_gpio_irq_mask_eq P _ (msm_gpio_irq_mask P (msm_gpio_to_irq P i) s)]
    rw [msm_gpio_irq_mask_eq P _ s, msm_irq_to_gpio_to_irq]
    funext a
    by_cases h1 : a = GPIO_INTR_CFG P i
    · subst h1
      simp [State.word, and_mod_word, Nat.and_assoc]
    · by_cases h2 : a = GPIO_INTR_CFG_SU P i
      · subst h2
        simp [Function.update_noteq h1]
      · simp [Function.update_noteq h1, Function.update_noteq h2]
  · rw [msm_gpio_irq_mask_eq P _ (msm_gpio_irq_mask P (msm_gpio_to_irq P i) s)]
    rw [msm_gpio_irq_mask_eq P _ s, msm_irq_to_gpio_to_irq]
    funext j
    by_cases h : j = i <;> simp [clear_bit, Function.update, h]
  · rw [msm_gpio_irq_mask_eq P _ (msm_gpio_irq_mask P (msm_gpio_to_irq P i) s)]
  · rw [msm_gpio_irq_mask_eq P _ (msm_gpio_irq_mask P (msm_gpio_to_irq P i) s)]
  · rw [msm_gpio_irq_unmask_eq P _ (msm_gpio_irq_unmask P (msm_gpio_to_irq P i) s)]
    rw [msm_gpio_irq_unmask_eq P _ s, msm_irq_to_gpio_to_irq]
    funext a
    by_cases h2 : a = GPIO_INTR_CFG_SU P i
    · subst h2
      simp
    · by_cases h1 : a = GPIO_INTR_CFG P i
      · subst h1
        simp [State.word, Function.update_noteq h2, Function.update_noteq hne.symm,
          or_mod_word _ _ enable_bits_lt, Nat.or_assoc]
      · simp [Function.update_noteq h1, Function.update_noteq h2]
  · rw [msm_gpio_irq_unmask_eq P _ (msm_gpio_irq_unmask P (msm_gpio_to_irq P i) s)]
    rw [msm_gpio_irq_unmask_eq P _ s, msm_irq_to_gpio_to_irq]
    funext j
    by_cases h : j = i <;> simp [set_bit, Function.update, h]
  · rw [msm_gpio_irq_unmask_eq P _ (msm_gpio_irq_unmask P (msm_gpio_to_irq P i) s)]
  · rw [msm_gpio_irq_unmask_eq P _ (msm_gpio_irq_unmask P (msm_gpio_to_irq P i) s)]

/-! ### C7, C8, C9 -/

theorem and_low_mask (f k : Nat) (hk : 3 &&& k = k) : f &&& k = (f % 4) &&& k := by
  have h : f &&& 3 = f % 4 := Nat.and_pow_two_sub_one_eq_mod f 2
  rw [← h, Nat.and_assoc, hk]

theorem both_edges_iff (f : Nat) :
    f &&& IRQ_TYPE_EDGE_BOTH = IRQ_TYPE_EDGE_BOTH ↔ wants_both_edges f := by
  unfold wants_both_edges
  rw [and_low_mask f IRQ_TYPE_EDGE_BOTH (by decide), and_low_mask f IRQ_TYPE_EDGE_RISING (by decide),
    and_low_mask f IRQ_TYPE_EDGE_FALLING (by decide)]
  have hlt : f % 4 < 4 := Nat.mod_lt _ (by norm_num)
  generalize f % 4 = x at hlt
  interval_cases x <;> decide

theorem some_edge_iff (f : Nat) :
    f &&& IRQ_TYPE_EDGE_BOTH ≠ 0 ↔ wants_some_edge f := by
  unfold wants_some_edge
  rw [and_low_mask f IRQ_TYPE_EDGE_BOTH (by decide), and_low_mask f IRQ_TYPE_EDGE_RISING (by decide),
    and_low_mask f IRQ_TYPE_EDGE_FALLING (by decide)]
  have hlt : f % 4 < 4 := Nat.mod_lt _ (by norm_num)
  generalize f % 4 = x at hlt
  interval_cases x <;> decide

theorem msm_gpio_irq_set_type_eq (P : Platform) (irq f : Nat) (s : State) :
    msm_gpio_irq_set_type P irq f s =
      (0, emit (Event.msm_mpm_set_irq_type irq f)
        (spin_unlock_irqrestore (dsb
          (if f &&& IRQ_TYPE_EDGE_BOTH = IRQ_TYPE_EDGE_BOTH then
            msm_gpio_update_dual_edge_pos P (msm_irq_to_gpio P irq)
              (set_type_programmed P irq f s)
           else set_type_programmed P irq f s)))) := by
  have hprog : writel
      (set_type_polarity f
        (set_type_detect P irq f (readl P (GPIO_INTR_CFG P (msm_irq_to_gpio P irq))
          (spin_lock_irqsave s)).1
          (readl P (GPIO_INTR_CFG P (msm_irq_to_gpio P irq)) (spin_lock_irqsave s)).2).1)
      (GPIO_INTR_CFG P (msm_irq_to_gpio P irq))
      (set_type_detect P irq f (readl P (GPIO_INTR_CFG P (msm_irq_to_gpio P irq))
          (spin_lock_irqsave s)).1
          (readl P (GPIO_INTR_CFG P (msm_irq_to_gpio P irq)) (spin_lock_irqsave s)).2).2 =
      set_type_programmed P irq f s := by
    have hB : ¬ (IRQ_TYPE_EDGE_BOTH = 0) := by decide
    have hB' : ¬ (0 = IRQ_TYPE_EDGE_BOTH) := by decide
    by_cases h0 : f &&& IRQ_TYPE_EDGE_BOTH = 0
    · simp [set_type_programmed, set_type_detect, set_type_word, readl, is_live_GPIO_INTR_CFG,
        writel, spin_lock_irqsave, emit, State.word, h0, hB']
    · by_cases h3 : f &&& IRQ_TYPE_EDGE_BOTH = IRQ_TYPE_EDGE_BOTH
      · simp [set_type_programmed, set_type_detect, set_type_word, readl,
          is_live_GPIO_INTR_CFG, writel, spin_lock_irqsave, emit, State.word, h3, hB]
      · simp [set_type_programmed, set_type_detect, set_type_word, readl,
          is_live_GPIO_INTR_CFG, writel, spin_lock_irqsave, emit, State.word, h0, h3]
  unfold msm_gpio_irq_set_type
  simp only [hprog]

theorem word_after_pass (P : Platform) (g : Nat) (s : State) :
    (dual_edge_body P g s).st.word (GPIO_INTR_CFG P g) =
      rearm_word (in_bit P g s 0) (s.word (GPIO_INTR_CFG P g)) := by
  rw [dual_edge_body_eq]
  simp only [State.word, Function.update_same]
  unfold rearm_word
  split <;> exact Nat.mod_mod _ _

/-- What the re-arm loop leaves alone: the bitmaps, the flow handlers, every
register but the line's interrupt-config register, and in that register every
bit but the polarity bit. -/
theorem dual_edge_loop_frame (P : Platform) (g : Nat) :
    ∀ (n : Nat) (s : State),
      (dual_edge_loop P g n s).enabled_irqs = s.enabled_irqs ∧
      (dual_edge_loop P g n s).wake_irqs = s.wake_irqs ∧
      (dual_edge_loop P g n s).dual_edge_irqs = s.dual_edge_irqs ∧
      (dual_edge_loop P g n s).handle_irq = s.handle_irq ∧
      (∀ a, a ≠ GPIO_INTR_CFG P g → (dual_edge_loop P g n s).regs a = s.regs a) ∧
      (∀ j, j ≠ INTR_POL_CTL_BIT →
        ((dual_edge_loop P g n s).word (GPIO_INTR_CFG P g)).testBit j =
          (s.word (GPIO_INTR_CFG P g)).testBit j) := by
  have hbody : ∀ s : State,
      (dual_edge_body P g s).st.enabled_irqs = s.enabled_irqs ∧
      (dual_edge_body P g s).st.wake_irqs = s.wake_irqs ∧
      (dual_edge_body P g s).st.dual_edge_irqs = s.dual_edge_irqs ∧
      (dual_edge_body P g s).st.handle_irq = s.handle_irq ∧
      (∀ a, a ≠ GPIO_INTR_CFG P g → (dual_edge_body P g s).st.regs a = s.regs a) ∧
      (∀ j, j ≠ INTR_POL_CTL_BIT →
        ((dual_edge_body P g s).st.word (GPIO_INTR_CFG P g)).testBit j =
          (s.word (GPIO_INTR_CFG P g)).testBit j) := by
    intro s
    refine ⟨?_, ?_, ?_, ?_, ?_, ?_⟩
    · rw [dual_edge_body_eq]
    · rw [dual_edge_body_eq]
    · rw [dual_edge_body_eq]
    · rw [dual_edge_body_eq]
    · intro a ha
      rw [dual_edge_body_eq]
      simp [Function.update_noteq ha]
    · intro j hj
      rw [word_after_pass, testBit_rearm_word _ _ _ (word_lt s _)]
      simp [hj]
  have hout : ∀ (v : Nat) (s : State),
      dual_edge_out P g v s = { s with trace := (dual_edge_out P g v s).trace } := by
    intro v s
    unfold dual_edge_out emit
    split <;> rfl
  intro n
  induction n with
  | zero =>
    intro s
    by_cases h : status_bit P g s 2 ≠ 0 ∨ in_bit P g s 0 = in_bit P g s 1
    · rw [dual_edge_loop_done P g 0 s h, hout]
      exact hbody s
    · rw [dual_edge_loop_giveup P g s h]
      exact hbody s
  | succ n ih =>
    intro s
    by_cases h : status_bit P g s 2 ≠ 0 ∨ in_bit P g s 0 = in_bit P g s 1
    · rw [dual_edge_loop_done P g (n + 1) s h, hout]
      exact hbody s
    · rw [dual_edge_loop_retry P g n s h]
      obtain ⟨a1, a2, a3, a4, a5, a6⟩ := ih (dual_edge_body P g s).st
      obtain ⟨b1, b2, b3, b4, b5, b6⟩ := hbody s
      refine ⟨a1.trans b1, a2.trans b2, a3.trans b3, a4.trans b4, ?_, ?_⟩
      · intro a ha
        rw [a5 a ha, b5 a ha]
      · intro j hj
        rw [a6 j hj, b6 j hj]

theorem dual_edge_loop_trace (P : Platform) (g n : Nat) (s : State) :
    ∃ evs, (dual_edge_loop P g n s).trace = s.trace ++ evs := by
  obtain ⟨pre, s', _, h | h⟩ := dual_edge_loop_shape P g n s
  · exact ⟨_, h⟩
  · exact ⟨_, h⟩

theorem testBit_set_type_word (f w j : Nat) (hw : w < 4294967296) :
    (set_type_word f w % 4294967296).testBit j =
      if j = INTR_POL_CTL_BIT then
        decide (f &&& (IRQ_TYPE_EDGE_RISING ||| IRQ_TYPE_LEVEL_HIGH) ≠ 0)
      else if j = INTR_DECT_CTL_BIT then decide (f &&& IRQ_TYPE_EDGE_BOTH ≠ 0)
      else w.testBit j := by
  by_cases hj : j < 32
  · by_cases h1 : j = INTR_POL_CTL_BIT
    · have h2 : ¬ (j = INTR_DECT_CTL_BIT) := by rw [h1]; decide
      have h21 : ¬ (INTR_DECT_CTL_BIT = INTR_POL_CTL_BIT) := by decide
      by_cases hp : f &&& (IRQ_TYPE_EDGE_RISING ||| IRQ_TYPE_LEVEL_HIGH) = 0 <;>
      by_cases hd : f &&& IRQ_TYPE_EDGE_BOTH = 0 <;>
      simp [set_type_word, set_type_polarity, hp, hd, h1, h21, testBit_mod_word, testBit_not32,
        INTR_POL_CTL_HI, INTR_DECT_CTL_EDGE, testBit_BIT] <;>
      decide
    · by_cases h2 : j = INTR_DECT_CTL_BIT
      · have h12 : ¬ (INTR_POL_CTL_BIT = INTR_DECT_CTL_BIT) := by decide
        by_cases hp : f &&& (IRQ_TYPE_EDGE_RISING ||| IRQ_TYPE_LEVEL_HIGH) = 0 <;>
        by_cases hd : f &&& IRQ_TYPE_EDGE_BOTH = 0 <;>
        simp [set_type_word, set_type_polarity, hp, hd, h2, h12, testBit_mod_word,
          testBit_not32, INTR_POL_CTL_HI, INTR_DECT_CTL_EDGE, testBit_BIT] <;>
        decide
      · have h1' : ¬ (INTR_POL_CTL_BIT = j) := fun h => h1 h.symm
        have h2' : ¬ (INTR_DECT_CTL_BIT = j) := fun h => h2 h.symm
        by_cases hp : f &&& (IRQ_TYPE_EDGE_RISING ||| IRQ_TYPE_LEVEL_HIGH) = 0 <;>
        by_cases hd : f &&& IRQ_TYPE_EDGE_BOTH = 0 <;>
        simp [set_type_word, set_type_polarity, hp, hd, h1, h2, h1', h2', testBit_mod_word,
          testBit_not32, INTR_POL_CTL_HI, INTR_DECT_CTL_EDGE, testBit_BIT, hj]
  · have hw0 : w.testBit j = false := testBit_of_lt_word hw (by omega)
    have h1 : j ≠ INTR_POL_CTL_BIT := by simp only [INTR_POL_CTL_BIT]; omega
    have h2 : j ≠ INTR_DECT_CTL_BIT := by simp only [INTR_DECT_CTL_BIT]; omega
    simp [h1, h2, testBit_mod_word, hj, hw0]

theorem nat_or_eq_zero (x y : Nat) : x ||| y = 0 ↔ x = 0 ∧ y = 0 := by
  constructor
  · intro h
    have hb : ∀ i, (x.testBit i || y.testBit i) = false := by
      intro i
      rw [← Nat.testBit_or, h, Nat.zero_testBit]
    constructor
    · apply Nat.eq_of_testBit_eq
      intro i
      have := hb i
      rw [Nat.zero_testBit]
      cases hx : x.testBit i
      · rfl
      · rw [hx] at this
        simp at this
    · apply Nat.eq_of_testBit_eq
      intro i
      have := hb i
      rw [Nat.zero_testBit]
      cases hy : y.testBit i
      · rfl
      · rw [hy] at this
        simp at this
  · rintro ⟨rfl, rfl⟩
    rfl

theorem high_polarity_iff (f : Nat) :
    f &&& (IRQ_TYPE_EDGE_RISING ||| IRQ_TYPE_LEVEL_HIGH) ≠ 0 ↔ wants_high_polarity f := by
  unfold wants_high_polarity
  rw [Nat.and_or_distrib_left, Ne, nat_or_eq_zero]
  tauto

theorem set_type_result (P : Platform) (s : State) (i f : Nat) :
    (msm_gpio_irq_set_type P (msm_gpio_to_irq P i) f s).1 = 0 ∧
      (msm_gpio_irq_set_type P (msm_gpio_to_irq P i) f s).2.enabled_irqs = s.enabled_irqs ∧
      (msm_gpio_irq_set_type P (msm_gpio_to_irq P i) f s).2.wake_irqs = s.wake_irqs ∧
      (msm_gpio_irq_set_type P (msm_gpio_to_irq P i) f s).2.dual_edge_irqs =
        (if f &&& IRQ_TYPE_EDGE_BOTH = IRQ_TYPE_EDGE_BOTH then set_bit i s.dual_edge_irqs
         else clear_bit i s.dual_edge_irqs) ∧
      (msm_gpio_irq_set_type P (msm_gpio_to_irq P i) f s).2.handle_irq =
        Function.update s.handle_irq (msm_gpio_to_irq P i)
          (if f &&& IRQ_TYPE_EDGE_BOTH ≠ 0 then FlowHandler.handle_edge_irq
           else FlowHandler.handle_level_irq) ∧
      (∀ j, j ≠ INTR_POL_CTL_BIT →
        ((msm_gpio_irq_set_type P (msm_gpio_to_irq P i) f s).2.word
            (GPIO_INTR_CFG P i)).testBit j =
          (set_type_word f (s.word (GPIO_INTR_CFG P i)) % 4294967296).testBit j) ∧
      (¬ (f &&& IRQ_TYPE_EDGE_BOTH = IRQ_TYPE_EDGE_BOTH) →
        (msm_gpio_irq_set_type P (msm_gpio_to_irq P i) f s).2.word (GPIO_INTR_CFG P i) =
            set_type_word f (s.word (GPIO_INTR_CFG P i)) % 4294967296 ∧
          events_since s (msm_gpio_irq_set_type P (msm_gpio_to_irq P i) f s).2 =
            [Event.spin_lock_irqsave,
             Event.readl (GPIO_INTR_CFG P i) (s.word (GPIO_INTR_CFG P i)),
             Event.writel (set_type_word f (s.word (GPIO_INTR_CFG P i)) % 4294967296)
               (GPIO_INTR_CFG P i),
             Event.dsb, Event.spin_unlock_irqrestore,
             Event.msm_mpm_set_irq_type (msm_gpio_to_irq P i) f]) ∧
      (∀ a, a ≠ GPIO_INTR_CFG P i →
        (msm_gpio_irq_set_type P (msm_gpio_to_irq P i) f s).2.regs a = s.regs a) ∧
      (∃ evs, events_since s (msm_gpio_irq_set_type P (msm_gpio_to_irq P i) f s).2 =
        evs ++ [Event.msm_mpm_set_irq_type (msm_gpio_to_irq P i) f]) := by
  rw [msm_gpio_irq_set_type_eq, msm_irq_to_gpio_to_irq]
  have hprog_word : (set_type_programmed P (msm_gpio_to_irq P i) f s).word (GPIO_INTR_CFG P i) =
      set_type_word f (s.word (GPIO_INTR_CFG P i)) % 4294967296 := by
    simp [set_type_programmed, msm_irq_to_gpio_to_irq, State.word]
  by_cases hb : f &&& IRQ_TYPE_EDGE_BOTH = IRQ_TYPE_EDGE_BOTH
  · obtain ⟨a1, a2, a3, a4, a5, a6⟩ :=
      dual_edge_loop_frame P i 100 (set_type_programmed P (msm_gpio_to_irq P i) f s)
    obtain ⟨evs, hevs⟩ :=
      dual_edge_loop_trace P i 100 (set_type_programmed P (msm_gpio_to_irq P i) f s)
    simp only [hb, if_true, dsb, spin_unlock_irqrestore, emit, msm_gpio_update_dual_edge_pos,
      State.word] at a1 a2 a3 a4 a5 a6 hevs hprog_word ⊢
    refine ⟨trivial, ?_, ?_, ?_, ?_, ?_, ?_, ?_, ?_⟩
    · rw [a1]; rfl
    · rw [a2]; rfl
    · rw [a3]
      simp [set_type_programmed, msm_irq_to_gpio_to_irq, hb]
    · rw [a4]
      have hB : ¬ (IRQ_TYPE_EDGE_BOTH = 0) := by decide
      simp [set_type_programmed, hb, hB]
    · intro j hj
      rw [a6 j hj, hprog_word]
    · intro h
      exact absurd trivial h
    · intro a ha
      rw [a5 a ha]
      simp [set_type_programmed, msm_irq_to_gpio_to_irq, Function.update_noteq ha]
    · refine ⟨[Event.spin_lock_irqsave,
        Event.readl (GPIO_INTR_CFG P i) (s.word (GPIO_INTR_CFG P i)),
        Event.writel (set_type_word f (s.word (GPIO_INTR_CFG P i)) % 4294967296)
          (GPIO_INTR_CFG P i)] ++ evs ++ [Event.dsb, Event.spin_unlock_irqrestore], ?_⟩
      apply events_since_append
      simp only [hevs]
      simp [set_type_programmed, msm_irq_to_gpio_to_irq, State.word]
  · simp only [hb, if_false, dsb, spin_unlock_irqrestore, emit, State.word] at hprog_word ⊢
    refine ⟨trivial, rfl, rfl, ?_, ?_, ?_, ?_, ?_, ?_⟩
    · simp [set_type_programmed, msm_irq_to_gpio_to_irq, hb]
    · simp [set_type_programmed]
    · intro j _
      rw [hprog_word]
    · intro _
      refine ⟨hprog_word, ?_⟩
      apply events_since_append
      simp [set_type_programmed, msm_irq_to_gpio_to_irq, State.word]
    · intro a ha
      simp [set_type_programmed, msm_irq_to_gpio_to_irq, Function.update_noteq ha]
    · refine ⟨[Event.spin_lock_irqsave,
        Event.readl (GPIO_INTR_CFG P i) (s.word (GPIO_INTR_CFG P i)),
        Event.writel (set_type_word f (s.word (GPIO_INTR_CFG P i)) % 4294967296)
          (GPIO_INTR_CFG P i), Event.dsb, Event.spin_unlock_irqrestore], ?_⟩
      apply events_since_append
      simp [set_type_programmed, msm_irq_to_gpio_to_irq, State.word]

/-- C7: after `msm_gpio_irq_set_type` on the irq of line `i` with flow type `f`,
line `i` is in `dual_edge_irqs` exactly when `f` has both the rising-edge and
the falling-edge bit; no other line's membership changes, `enabled_irqs` and
`wake_irqs` are as before, and the call returns 0. -/
theorem C7_set_type_dual_edge_membership (P : Platform) (s : State) (i f : Nat) :
    ((msm_gpio_irq_set_type P (msm_gpio_to_irq P i) f s).2.dual_edge_irqs i = true ↔
        wants_both_edges f) ∧
      (∀ j, j ≠ i →
        (msm_gpio_irq_set_type P (msm_gpio_to_irq P i) f s).2.dual_edge_irqs j =
          s.dual_edge_irqs j) ∧
      (msm_gpio_irq_set_type P (msm_gpio_to_irq P i) f s).2.enabled_irqs = s.enabled_irqs ∧
      (msm_gpio_irq_set_type P (msm_gpio_to_irq P i) f s).2.wake_irqs = s.wake_irqs ∧
      (msm_gpio_irq_set_type P (msm_gpio_to_irq P i) f s).1 = 0 := by
  obtain ⟨r0, r1, r2, r3, _, _, _, _, _⟩ := set_type_result P s i f
  refine ⟨?_, ?_, r1, r2, r0⟩
  · rw [r3, ← both_edges_iff]
    by_cases hb : f &&& IRQ_TYPE_EDGE_BOTH = IRQ_TYPE_EDGE_BOTH <;>
      simp [hb, set_bit, clear_bit]
  · intro j hj
    rw [r3]
    by_cases hb : f &&& IRQ_TYPE_EDGE_BOTH = IRQ_TYPE_EDGE_BOTH <;>
      simp [hb, set_bit, clear_bit, Function.update_noteq hj]

/-- C8 (as the code has it): `msm_gpio_irq_set_type` leaves the edge-detect bit
`INTR_DECT_CTL_EDGE` set and installs `handle_edge_irq` exactly when the flow
type has the rising-edge or the falling-edge bit (one edge is enough);
otherwise it leaves the bit clear and installs `handle_level_irq`. -/
theorem C8_set_type_detect_mode (P : Platform) (s : State) (i f : Nat) :
    (((msm_gpio_irq_set_type P (msm_gpio_to_irq P i) f s).2.word
          (GPIO_INTR_CFG P i)).testBit INTR_DECT_CTL_BIT = true ↔ wants_some_edge f) ∧
      ((msm_gpio_irq_set_type P (msm_gpio_to_irq P i) f s).2.handle_irq (msm_gpio_to_irq P i) =
          FlowHandler.handle_edge_irq ↔ wants_some_edge f) ∧
      ((msm_gpio_irq_set_type P (msm_gpio_to_irq P i) f s).2.handle_irq (msm_gpio_to_irq P i) =
          FlowHandler.handle_level_irq ↔ ¬ wants_some_edge f) := by
  obtain ⟨_, _, _, _, r4, r5, _, _, _⟩ := set_type_result P s i f
  have h21 : INTR_DECT_CTL_BIT ≠ INTR_POL_CTL_BIT := by decide
  refine ⟨?_, ?_, ?_⟩
  · rw [r5 _ h21, testBit_set_type_word _ _ _ (word_lt s _), ← some_edge_iff]
    simp [h21]
  · rw [r4, ← some_edge_iff]
    by_cases h : f &&& IRQ_TYPE_EDGE_BOTH = 0 <;> simp [h]
  · rw [r4, ← some_edge_iff]
    by_cases h : f &&& IRQ_TYPE_EDGE_BOTH = 0 <;> simp [h]

/-- C8 as stated fails: for the rising-edge-only flow type on msm8x60 line 5,
which does not ask for both edges, `msm_gpio_irq_set_type` sets the edge-detect
bit and installs the edge-triggered handler. -/
theorem C8_counterexample_rising_only_is_edge_mode :
    ¬ wants_both_edges IRQ_TYPE_EDGE_RISING ∧
      ((msm_gpio_irq_set_type msm8x60 (msm_gpio_to_irq msm8x60 5) IRQ_TYPE_EDGE_RISING
          low_line_state).2.word (GPIO_INTR_CFG msm8x60 5)).testBit INTR_DECT_CTL_BIT = true ∧
      (msm_gpio_irq_set_type msm8x60 (msm_gpio_to_irq msm8x60 5) IRQ_TYPE_EDGE_RISING
          low_line_state).2.handle_irq (msm_gpio_to_irq msm8x60 5) =
        FlowHandler.handle_edge_irq := by
  decide

/-- C9: for a flow type `f` that does not ask for both edges,
`msm_gpio_irq_set_type` leaves `INTR_POL_CTL_HI` set exactly when `f` has the
rising-edge or the level-high bit, keeps every bit of the interrupt-config
register other than the detect and the polarity bit, writes no other register,
and its only call to the MPM, the last event of the run, carries the irq and
exactly `f`. -/
theorem C9_set_type_polarity_and_frame (P : Platform) (s : State) (i f : Nat)
    (h : ¬ wants_both_edges f) :
    (((msm_gpio_irq_set_type P (msm_gpio_to_irq P i) f s).2.word
          (GPIO_INTR_CFG P i)).testBit INTR_POL_CTL_BIT = true ↔ wants_high_polarity f) ∧
      (∀ j, j ≠ INTR_DECT_CTL_BIT → j ≠ INTR_POL_CTL_BIT →
        ((msm_gpio_irq_set_type P (msm_gpio_to_irq P i) f s).2.word
            (GPIO_INTR_CFG P i)).testBit j = (s.word (GPIO_INTR_CFG P i)).testBit j) ∧
      (∀ a, a ≠ GPIO_INTR_CFG P i →
        (msm_gpio_irq_set_type P (msm_gpio_to_irq P i) f s).2.regs a = s.regs a) ∧
      mpm_calls (events_since s (msm_gpio_irq_set_type P (msm_gpio_to_irq P i) f s).2) =
        [Event.msm_mpm_set_irq_type (msm_gpio_to_irq P i) f] ∧
      (events_since s (msm_gpio_irq_set_type P (msm_gpio_to_irq P i) f s).2).getLast? =
        some (Event.msm_mpm_set_irq_type (msm_gpio_to_irq P i) f) := by
  have hb : ¬ (f &&& IRQ_TYPE_EDGE_BOTH = IRQ_TYPE_EDGE_BOTH) :=
    fun hb => h ((both_edges_iff f).mp hb)
  obtain ⟨_, _, _, _, _, r5, r6, r7, _⟩ := set_type_result P s i f
  obtain ⟨hw, hev⟩ := r6 hb
  refine ⟨?_, ?_, r7, ?_, ?_⟩
  · rw [hw, testBit_set_type_word _ _ _ (word_lt s _), ← high_polarity_iff]
    simp
  · intro j h2 h1
    rw [r5 j h1, testBit_set_type_word _ _ _ (word_lt s _)]
    simp [h1, h2]
  · rw [hev]
    simp [mpm_calls, List.filter, is_mpm_call]
  · rw [hev]
    simp

/-- C9 at msm8x60 line 5 with the rising-edge flow type: the polarity bit is
set and the MPM gets the flow type. -/
theorem C9_set_type_polarity_and_frame_witness :
    ¬ wants_both_edges IRQ_TYPE_EDGE_RISING ∧
      (((msm_gpio_irq_set_type msm8x60 (msm_gpio_to_irq msm8x60 5) IRQ_TYPE_EDGE_RISING
          low_line_state).2.word (GPIO_INTR_CFG msm8x60 5)).testBit INTR_POL_CTL_BIT = true ↔
        wants_high_polarity IRQ_TYPE_EDGE_RISING) ∧
      mpm_calls (events_since low_line_state
          (msm_gpio_irq_set_type msm8x60 (msm_gpio_to_irq msm8x60 5) IRQ_TYPE_EDGE_RISING
            low_line_state).2) =
        [Event.msm_mpm_set_irq_type (msm_gpio_to_irq msm8x60 5) IRQ_TYPE_EDGE_RISING] :=
  ⟨by decide,
   (C9_set_type_polarity_and_frame msm8x60 low_line_state 5 IRQ_TYPE_EDGE_RISING (by decide)).1,
   (C9_set_type_polarity_and_frame msm8x60 low_line_state 5 IRQ_TYPE_EDGE_RISING
      (by decide)).2.2.2.1⟩

/-! ### C10 -/

theorem bitmap_empty_set_bit (w : Nat → Bool) (i n : Nat) (hi : i < n) :
    bitmap_empty (set_bit i w) n = false := by
  simp only [bitmap_empty, decide_eq_false_iff_not]
  intro h
  have := h i hi
  simp [set_bit] at this

theorem bitmap_empty_clear_bit (w : Nat → Bool) (i n : Nat)
    (h : bitmap_empty w n = true) : bitmap_empty (clear_bit i w) n = true := by
  simp only [bitmap_empty, decide_eq_true_eq] at h ⊢
  intro k hk
  by_cases hki : k = i
  · subst hki
    simp [clear_bit]
  · simp [clear_bit, Function.update_noteq hki, h k hk]

theorem msm_gpio_irq_set_wake_eq (P : Platform) (irq on_ : Nat) (s : State) :
    msm_gpio_irq_set_wake P irq on_ s =
      (0, { s with
        wake_irqs :=
          if on_ ≠ 0 then set_bit (msm_irq_to_gpio P irq) s.wake_irqs
          else clear_bit (msm_irq_to_gpio P irq) s.wake_irqs,
        trace := s.trace ++
          (summary_wake_calls P on_ (bitmap_empty s.wake_irqs P.NR_MSM_GPIOS)
              (bitmap_empty (clear_bit (msm_irq_to_gpio P irq) s.wake_irqs) P.NR_MSM_GPIOS) ++
            [Event.msm_mpm_set_irq_wake irq on_]) }) := by
  by_cases hon : on_ = 0
  · by_cases he : bitmap_empty (clear_bit (msm_irq_to_gpio P irq) s.wake_irqs)
        P.NR_MSM_GPIOS = true
    · simp [msm_gpio_irq_set_wake, summary_wake_calls, emit, hon, he]
    · simp [msm_gpio_irq_set_wake, summary_wake_calls, emit, hon, he]
  · by_cases he : bitmap_empty s.wake_irqs P.NR_MSM_GPIOS = true
    · simp [msm_gpio_irq_set_wake, summary_wake_calls, emit, hon, he]
    · simp [msm_gpio_irq_set_wake, summary_wake_calls, emit, hon, he]

/-- C10 (as the code has it): `msm_gpio_irq_set_wake` on the irq of a line
`i < NR_MSM_GPIOS` marks the summary interrupt as a wake source exactly when
the call takes `wake_irqs` from empty to non-empty; it unmarks it exactly when
the flag is off and `wake_irqs` is empty after the call, which for a non-empty
`wake_irqs` is the transition to empty; it makes at most one such call, then
forwards `(irq, on)` to the MPM; `wake_irqs` becomes the old set with `i`
added (on) or removed (off) and the call returns 0. -/
theorem C10_set_wake_transitions (P : Platform) (s : State) (i on_ : Nat)
    (hi : i < P.NR_MSM_GPIOS) :
    (Event.set_irq_wake P.TLMM_SCSS_SUMMARY_IRQ 1 ∈
          events_since s (msm_gpio_irq_set_wake P (msm_gpio_to_irq P i) on_ s).2 ↔
        bitmap_empty s.wake_irqs P.NR_MSM_GPIOS = true ∧
          bitmap_empty (msm_gpio_irq_set_wake P (msm_gpio_to_irq P i) on_ s).2.wake_irqs
            P.NR_MSM_GPIOS = false) ∧
      (Event.set_irq_wake P.TLMM_SCSS_SUMMARY_IRQ 0 ∈
          events_since s (msm_gpio_irq_set_wake P (msm_gpio_to_irq P i) on_ s).2 ↔
        on_ = 0 ∧
          bitmap_empty (msm_gpio_irq_set_wake P (msm_gpio_to_irq P i) on_ s).2.wake_irqs
            P.NR_MSM_GPIOS = true) ∧
      (bitmap_empty s.wake_irqs P.NR_MSM_GPIOS = false →
        (Event.set_irq_wake P.TLMM_SCSS_SUMMARY_IRQ 0 ∈
            events_since s (msm_gpio_irq_set_wake P (msm_gpio_to_irq P i) on_ s).2 ↔
          bitmap_empty (msm_gpio_irq_set_wake P (msm_gpio_to_irq P i) on_ s).2.wake_irqs
            P.NR_MSM_GPIOS = true)) ∧
      events_since s (msm_gpio_irq_set_wake P (msm_gpio_to_irq P i) on_ s).2 =
        summary_wake_calls P on_ (bitmap_empty s.wake_irqs P.NR_MSM_GPIOS)
            (bitmap_empty (msm_gpio_irq_set_wake P (msm_gpio_to_irq P i) on_ s).2.wake_irqs
              P.NR_MSM_GPIOS) ++
          [Event.msm_mpm_set_irq_wake (msm_gpio_to_irq P i) on_] ∧
      (∀ j, (msm_gpio_irq_set_wake P (msm_gpio_to_irq P i) on_ s).2.wake_irqs j =
        if on_ ≠ 0 then (decide (j = i) || s.wake_irqs j)
        else (!decide (j = i) && s.wake_irqs j)) ∧
      (msm_gpio_irq_set_wake P (msm_gpio_to_irq P i) on_ s).1 = 0 := by
  rw [msm_gpio_irq_set_wake_eq, msm_irq_to_gpio_to_irq]
  have hset := bitmap_empty_set_bit s.wake_irqs i P.NR_MSM_GPIOS hi
  simp only [events_since, List.drop_left]
  by_cases hon : on_ = 0
  · subst hon
    by_cases he : bitmap_empty (clear_bit i s.wake_irqs) P.NR_MSM_GPIOS = true
    · refine ⟨?_, ?_, ?_, ?_, ?_, trivial⟩
      · simp [summary_wake_calls, he]
      · simp [summary_wake_calls, he]
      · simp [summary_wake_calls, he]
      · simp [summary_wake_calls, he]
      · intro j
        by_cases hj : j = i <;> simp [clear_bit, Function.update, hj]
    · have hold : ¬ (bitmap_empty s.wake_irqs P.NR_MSM_GPIOS = true) :=
        fun h => he (bitmap_empty_clear_bit _ i _ h)
      refine ⟨?_, ?_, ?_, ?_, ?_, trivial⟩
      · simp [summary_wake_calls, he, hold]
      · simp [summary_wake_calls, he]
      · simp [summary_wake_calls, he]
      · simp [summary_wake_calls, he]
      · intro j
        by_cases hj : j = i <;> simp [clear_bit, Function.update, hj]
  · by_cases he : bitmap_empty s.wake_irqs P.NR_MSM_GPIOS = true
    · refine ⟨?_, ?_, ?_, ?_, ?_, trivial⟩
      · simp [summary_wake_calls, he, hon, hset]
      · simp [summary_wake_calls, he, hon, hset]
      · simp [summary_wake_calls, he, hon, hset]
      · simp [summary_wake_calls, he, hon, hset]
      · intro j
        by_cases hj : j = i <;> simp [set_bit, Function.update, hj, hon]
    · refine ⟨?_, ?_, ?_, ?_, ?_, trivial⟩
      · simp [summary_wake_calls, he, hon, hset]
      · simp [summary_wake_calls, he, hon, hset]
      · simp [summary_wake_calls, he, hon, hset]
      · simp [summary_wake_calls, he, hon, hset]
      · intro j
        by_cases hj : j = i <;> simp [set_bit, Function.update, hj, hon]

/-- C10 at msm8x60 line 5, first wake source switched on: the summary
interrupt is marked. -/
theorem C10_set_wake_transitions_witness :
    5 < msm8x60.NR_MSM_GPIOS ∧
      (Event.set_irq_wake msm8x60.TLMM_SCSS_SUMMARY_IRQ 1 ∈
          events_since low_line_state
            (msm_gpio_irq_set_wake msm8x60 (msm_gpio_to_irq msm8x60 5) 1 low_line_state).2 ↔
        bitmap_empty low_line_state.wake_irqs msm8x60.NR_MSM_GPIOS = true ∧
          bitmap_empty
            (msm_gpio_irq_set_wake msm8x60 (msm_gpio_to_irq msm8x60 5) 1
              low_line_state).2.wake_irqs msm8x60.NR_MSM_GPIOS = false) :=
  ⟨by decide, (C10_set_wake_transitions msm8x60 low_line_state 5 1 (by decide)).1⟩

set_option maxRecDepth 8000 in
/-- C10 as stated fails: switching wake off for msm8x60 line 5 while
`wake_irqs` is already empty is no transition from non-empty to empty, yet the
summary interrupt is unmarked. -/
theorem C10_counterexample_unmark_on_empty :
    bitmap_empty low_line_state.wake_irqs msm8x60.NR_MSM_GPIOS = true ∧
      events_since low_line_state
          (msm_gpio_irq_set_wake msm8x60 (msm_gpio_to_irq msm8x60 5) 0 low_line_state).2 =
        [Event.set_irq_wake msm8x60.TLMM_SCSS_SUMMARY_IRQ 0,
         Event.msm_mpm_set_irq_wake (msm_gpio_to_irq msm8x60 5) 0] := by
  decide

/-! ### C16 -/

theorem is_rearm_event_pass_events (P : Platform) (g : Nat) (s : State) :
    ∀ e ∈ pass_events P g s, is_rearm_event P g e = true := by
  intro e he
  simp only [pass_events, List.mem_cons, List.mem_singleton, List.not_mem_nil, or_false] at he
  rcases he with h | h | h | h | h <;> rw [h] <;> simp [is_rearm_event]

/-- Every event of a run of the re-arm loop concerns the line itself, and the
run stores to the line's interrupt-config register at least once. -/
theorem dual_edge_loop_events (P : Platform) (g : Nat) :
    ∀ (n : Nat) (s : State), ∃ evs,
      (dual_edge_loop P g n s).trace = s.trace ++ evs ∧
      (∀ e ∈ evs, is_rearm_event P g e = true) ∧
      polarity_writes P g evs ≠ [] := by
  have hpw : ∀ (s : State) (rest : List Event),
      polarity_writes P g (pass_events P g s ++ rest) ≠ [] := by
    intro s rest h
    have h1 := polarity_writes_pass P g s
    simp only [polarity_writes, List.filter_append, List.append_eq_nil] at h h1
    rw [h.1] at h1
    simp at h1
  intro n
  induction n with
  | zero =>
    intro s
    by_cases h : status_bit P g s 2 ≠ 0 ∨ in_bit P g s 0 = in_bit P g s 1
    · refine ⟨pass_events P g s ++ [Event.msm_mpm_set_irq_type (msm_gpio_to_irq P g)
        (if in_bit P g s 0 ≠ 0 then IRQF_TRIGGER_FALLING else IRQF_TRIGGER_RISING)], ?_, ?_, hpw _ _⟩
      · rw [dual_edge_loop_done P g 0 s h, dual_edge_body_eq]
        by_cases hv : in_bit P g s 0 = 0 <;> simp [dual_edge_out, emit, hv]
      · intro e he
        rcases List.mem_append.mp he with h1 | h1
        · exact is_rearm_event_pass_events P g s e h1
        · simp only [List.mem_singleton] at h1
          rw [h1]
          simp [is_rearm_event]
    · refine ⟨pass_events P g s ++
        [Event.pr_err_dual_edge (in_bit P g s 0) (in_bit P g s 1)], ?_, ?_, hpw _ _⟩
      · rw [dual_edge_loop_giveup P g s h]
        simp [emit, trace_after_pass]
      · intro e he
        rcases List.mem_append.mp he with h1 | h1
        · exact is_rearm_event_pass_events P g s e h1
        · simp only [List.mem_singleton] at h1
          rw [h1]
          rfl
  | succ n ih =>
    intro s
    by_cases h : status_bit P g s 2 ≠ 0 ∨ in_bit P g s 0 = in_bit P g s 1
    · refine ⟨pass_events P g s ++ [Event.msm_mpm_set_irq_type (msm_gpio_to_irq P g)
        (if in_bit P g s 0 ≠ 0 then IRQF_TRIGGER_FALLING else IRQF_TRIGGER_RISING)], ?_, ?_, hpw _ _⟩
      · rw [dual_edge_loop_done P g (n + 1) s h, dual_edge_body_eq]
        by_cases hv : in_bit P g s 0 = 0 <;> simp [dual_edge_out, emit, hv]
      · intro e he
        rcases List.mem_append.mp he with h1 | h1
        · exact is_rearm_event_pass_events P g s e h1
        · simp only [List.mem_singleton] at h1
          rw [h1]
          simp [is_rearm_event]
    · obtain ⟨evs, ht, hev, _⟩ := ih (dual_edge_body P g s).st
      refine ⟨pass_events P g s ++ evs, ?_, ?_, hpw _ _⟩
      · rw [dual_edge_loop_retry P g n s h, ht, trace_after_pass, List.append_assoc]
      · intro e he
        rcases List.mem_append.mp he with h1 | h1
        · exact is_rearm_event_pass_events P g s e h1
        · exact hev e h1

theorem status_clear_word : BIT INTR_STATUS_BIT % 4294967296 = BIT INTR_STATUS_BIT := by decide

theorem GPIO_INTR_STATUS_ne_GPIO_INTR_CFG (P : Platform) (i j : Nat) :
    GPIO_INTR_STATUS P i ≠ GPIO_INTR_CFG P j := by
  simp only [GPIO_INTR_STATUS, GPIO_INTR_CFG]
  omega

/-- C16: `msm_gpio_irq_ack` on the irq of line `i` first stores
`BIT(INTR_STATUS_BIT)` to the interrupt-status register of `i`; every later
store of the call goes to the interrupt-config register of `i`; no bitmap
changes and no register other than these two; the re-arm algorithm runs on
`i` exactly when `i` is in `dual_edge_irqs`; when it is not, the call is the
status store and the barrier alone, so the interrupt-config register keeps its
word and no MPM call is made. -/
theorem C16_ack_effect (P : Platform) (s : State) (i : Nat) :
    (∃ rest, events_since s (msm_gpio_irq_ack P (msm_gpio_to_irq P i) s) =
        Event.writel (BIT INTR_STATUS_BIT) (GPIO_INTR_STATUS P i) :: rest ∧
        ∀ v a, Event.writel v a ∈ rest → a = GPIO_INTR_CFG P i) ∧
      (msm_gpio_irq_ack P (msm_gpio_to_irq P i) s).enabled_irqs = s.enabled_irqs ∧
      (msm_gpio_irq_ack P (msm_gpio_to_irq P i) s).wake_irqs = s.wake_irqs ∧
      (msm_gpio_irq_ack P (msm_gpio_to_irq P i) s).dual_edge_irqs = s.dual_edge_irqs ∧
      (∀ a, a ≠ GPIO_INTR_STATUS P i → a ≠ GPIO_INTR_CFG P i →
        (msm_gpio_irq_ack P (msm_gpio_to_irq P i) s).regs a = s.regs a) ∧
      (s.dual_edge_irqs i = true →
        msm_gpio_irq_ack P (msm_gpio_to_irq P i) s =
          dsb (msm_gpio_update_dual_edge_pos P i
            (writel (BIT INTR_STATUS_BIT) (GPIO_INTR_STATUS P i) s))) ∧
      (polarity_writes P i (events_since s (msm_gpio_irq_ack P (msm_gpio_to_irq P i) s)) ≠ [] ↔
        s.dual_edge_irqs i = true) ∧
      (s.dual_edge_irqs i = false →
        events_since s (msm_gpio_irq_ack P (msm_gpio_to_irq P i) s) =
            [Event.writel (BIT INTR_STATUS_BIT) (GPIO_INTR_STATUS P i), Event.dsb] ∧
          (msm_gpio_irq_ack P (msm_gpio_to_irq P i) s).regs (GPIO_INTR_CFG P i) =
            s.regs (GPIO_INTR_CFG P i) ∧
          mpm_calls (events_since s (msm_gpio_irq_ack P (msm_gpio_to_irq P i) s)) = []) := by
  have hsc := status_clear_word
  have hne := GPIO_INTR_STATUS_ne_GPIO_INTR_CFG P i i
  cases hd : s.dual_edge_irqs i
  · -- not a dual-edge line
    have hack : msm_gpio_irq_ack P (msm_gpio_to_irq P i) s =
        { s with
          regs := Function.update s.regs (GPIO_INTR_STATUS P i) (BIT INTR_STATUS_BIT),
          trace := s.trace ++
            [Event.writel (BIT INTR_STATUS_BIT) (GPIO_INTR_STATUS P i), Event.dsb] } := by
      simp [msm_gpio_irq_ack, msm_irq_to_gpio_to_irq, writel, test_bit, hd, dsb, emit, hsc]
    rw [hack]
    refine ⟨⟨[Event.dsb], ?_, ?_⟩, rfl, rfl, rfl, ?_, ?_, ?_, ?_⟩
    · simp [events_since]
    · intro v a h
      simp at h
    · intro a h1 _
      simp [Function.update_noteq h1]
    · intro h
      simp at h
    · simp [events_since, polarity_writes, List.filter, hne]
    · intro _
      refine ⟨by simp [events_since], ?_, ?_⟩
      · simp [Function.update_noteq hne.symm]
      · simp [events_since, mpm_calls, List.filter, is_mpm_call]
  · -- a dual-edge line
    have hack : msm_gpio_irq_ack P (msm_gpio_to_irq P i) s =
        dsb (msm_gpio_update_dual_edge_pos P i
          (writel (BIT INTR_STATUS_BIT) (GPIO_INTR_STATUS P i) s)) := by
      simp [msm_gpio_irq_ack, msm_irq_to_gpio_to_irq, writel, test_bit, hd]
    obtain ⟨a1, a2, a3, _, a5, _⟩ :=
      dual_edge_loop_frame P i 100 (writel (BIT INTR_STATUS_BIT) (GPIO_INTR_STATUS P i) s)
    obtain ⟨evs, ht, hev, hpw⟩ :=
      dual_edge_loop_events P i 100 (writel (BIT INTR_STATUS_BIT) (GPIO_INTR_STATUS P i) s)
    have htr : (msm_gpio_irq_ack P (msm_gpio_to_irq P i) s).trace =
        s.trace ++ (Event.writel (BIT INTR_STATUS_BIT) (GPIO_INTR_STATUS P i) ::
          (evs ++ [Event.dsb])) := by
      rw [hack]
      simp only [dsb, emit, msm_gpio_update_dual_edge_pos]
      rw [ht]
      simp [writel, hsc]
    have he := events_since_append _ _ _ htr
    refine ⟨⟨evs ++ [Event.dsb], he, ?_⟩, ?_, ?_, ?_, ?_, fun _ => hack, ?_, ?_⟩
    · intro v a h
      rcases List.mem_append.mp h with h1 | h1
      · have := hev _ h1
        simpa [is_rearm_event] using this
      · simp at h1
    · rw [hack]
      simp only [dsb, emit, msm_gpio_update_dual_edge_pos]
      rw [a1]
      rfl
    · rw [hack]
      simp only [dsb, emit, msm_gpio_update_dual_edge_pos]
      rw [a2]
      rfl
    · rw [hack]
      simp only [dsb, emit, msm_gpio_update_dual_edge_pos]
      rw [a3]
      rfl
    · intro a h1 h2
      rw [hack]
      simp only [dsb, emit, msm_gpio_update_dual_edge_pos]
      rw [a5 a h2]
      simp [writel, Function.update_noteq h1]
    · rw [he]
      constructor
      · intro _
        rfl
      · intro _ h
        apply hpw
        simp only [polarity_writes, List.filter_cons, List.filter_append] at h ⊢
        simp only [hne, decide_False, Bool.false_eq_true, if_false, List.append_eq_nil] at h
        exact h.1
    · intro h
      simp at h

/-! ### C17, C18, C19, C20 -/

/-- C17: on the controller's chip (base 0) `msm_irq_to_gpio` undoes
`msm_gpio_to_irq`, the round trip through the line gives the irq back,
`msm_gpio_to_irq i` is `NR_MSM_IRQS + i`, and `msm_gpio_to_irq` is injective;
when the irq space up to `NR_MSM_IRQS + NR_MSM_GPIOS` fits a C `int`, so does
the irq of every line below `NR_MSM_GPIOS`. -/
theorem C17_line_irq_bijection (P : Platform) (i : Nat) :
    msm_irq_to_gpio P (msm_gpio_to_irq P i) = i ∧
      msm_gpio_to_irq P (msm_irq_to_gpio P (msm_gpio_to_irq P i)) = msm_gpio_to_irq P i ∧
      msm_gpio_to_irq P i = P.NR_MSM_IRQS + i ∧
      (∀ j, msm_gpio_to_irq P i = msm_gpio_to_irq P j → i = j) ∧
      (P.NR_MSM_IRQS + P.NR_MSM_GPIOS ≤ 2147483648 → i < P.NR_MSM_GPIOS →
        msm_gpio_to_irq P i < 2147483648) := by
  refine ⟨msm_irq_to_gpio_to_irq P i, ?_, ?_, ?_, ?_⟩
  · rw [msm_irq_to_gpio_to_irq]
  · simp [msm_gpio_to_irq, MSM_GPIO_TO_INT, chip_base]
  · intro j h
    simp only [msm_gpio_to_irq, MSM_GPIO_TO_INT, chip_base] at h
    omega
  · intro h1 h2
    simp only [msm_gpio_to_irq, MSM_GPIO_TO_INT, chip_base]
    omega

/-- C18: whatever the pin-mux service answers, `msm_gpio_request` on line `i`
makes the one reserve call for pin `base + i` and returns its answer;
`msm_gpio_free` makes the one release call; neither changes a register or any
of the three bitmaps. -/
theorem C18_request_delegation (gpiomux_get : Nat → Int) (s : State) (i : Nat) :
    (msm_gpio_request gpiomux_get i s).1 = gpiomux_get (chip_base + i) ∧
      events_since s (msm_gpio_request gpiomux_get i s).2 =
        [Event.msm_gpiomux_get (chip_base + i)] ∧
      (msm_gpio_request gpiomux_get i s).2.regs = s.regs ∧
      (msm_gpio_request gpiomux_get i s).2.enabled_irqs = s.enabled_irqs ∧
      (msm_gpio_request gpiomux_get i s).2.wake_irqs = s.wake_irqs ∧
      (msm_gpio_request gpiomux_get i s).2.dual_edge_irqs = s.dual_edge_irqs ∧
      events_since s (msm_gpio_free i s) = [Event.msm_gpiomux_put (chip_base + i)] ∧
      (msm_gpio_free i s).regs = s.regs ∧
      (msm_gpio_free i s).enabled_irqs = s.enabled_irqs ∧
      (msm_gpio_free i s).wake_irqs = s.wake_irqs ∧
      (msm_gpio_free i s).dual_edge_irqs = s.dual_edge_irqs := by
  refine ⟨rfl, ?_, rfl, rfl, rfl, rfl, ?_, rfl, rfl, rfl, rfl⟩
  · simp [events_since, msm_gpio_request, emit]
  · simp [events_since, msm_gpio_free, emit]

/-- C19: `msm_gpio_install_direct_irq` returns `-EINVAL` exactly when
`gpio >= NR_MSM_GPIOS` or `irq >= NR_TLMM_SCSS_DIR_CONN_IRQ`, and then leaves
the whole state (registers, bitmaps, trace) as it was; otherwise it returns
0. -/
theorem C19_direct_irq_validation (P : Platform) (s : State) (gpio irq pol : Nat) :
    ((msm_gpio_install_direct_irq P gpio irq pol s).1 = -EINVAL ↔
        (gpio ≥ P.NR_MSM_GPIOS ∨ irq ≥ P.NR_TLMM_SCSS_DIR_CONN_IRQ)) ∧
      ((gpio ≥ P.NR_MSM_GPIOS ∨ irq ≥ P.NR_TLMM_SCSS_DIR_CONN_IRQ) →
        (msm_gpio_install_direct_irq P gpio irq pol s).2 = s) ∧
      (¬ (gpio ≥ P.NR_MSM_GPIOS ∨ irq ≥ P.NR_TLMM_SCSS_DIR_CONN_IRQ) →
        (msm_gpio_install_direct_irq P gpio irq pol s).1 = 0) := by
  by_cases h : gpio ≥ P.NR_MSM_GPIOS ∨ irq ≥ P.NR_TLMM_SCSS_DIR_CONN_IRQ
  · simp only [msm_gpio_install_direct_irq, h, if_true, true_iff, forall_true_left,
      not_true_eq_false, false_implies, and_self]
  · have hE : ¬ ((0 : Int) = -EINVAL) := by decide
    simp only [msm_gpio_install_direct_irq, h, if_false, hE, false_iff, not_false_eq_true,
      false_implies, forall_true_left, and_self]

/-- C20 (code evaluated at the failing input): a configuration word whose pin
index is exactly `NR_MSM_GPIOS` (173 on msm8x60, outside `[0, 173)`) is not
rejected: `gpio_tlmm_config` returns 0 and stores to the address
`GPIO_CONFIG(173)`, past the last line's window. -/
theorem C20_pin_index_N_is_accepted :
    packed_cfg.GPIO_PIN (173 <<< 4) = msm8x60.NR_MSM_GPIOS ∧
      (gpio_tlmm_config msm8x60 packed_cfg (173 <<< 4) 0 low_line_state).1 = 0 ∧
      events_since low_line_state
          (gpio_tlmm_config msm8x60 packed_cfg (173 <<< 4) 0 low_line_state).2 =
        [Event.writel 0 (GPIO_CONFIG msm8x60 173), Event.dsb] := by
  decide

/-! ### C11 -/

theorem bitmap_empty_of_mem (w : Nat → Bool) (i n : Nat) (hi : i < n) (hw : w i = true) :
    bitmap_empty w n = false := by
  simp only [bitmap_empty, decide_eq_false_iff_not]
  intro h
  rw [h i hi] at hw
  exact absurd hw (by decide)

/-- One valid call keeps the balance: marks plus the old non-emptiness equal
unmarks plus the new non-emptiness. -/
theorem set_wake_step_balance (P : Platform) (s : State) (i on_ : Nat)
    (hi : i < P.NR_MSM_GPIOS) (hoff : on_ = 0 → s.wake_irqs i = true) :
    ∃ evs, (msm_gpio_irq_set_wake P (msm_gpio_to_irq P i) on_ s).2.trace = s.trace ++ evs ∧
      summary_marks P evs + wake_nonempty P s =
        summary_unmarks P evs +
          wake_nonempty P (msm_gpio_irq_set_wake P (msm_gpio_to_irq P i) on_ s).2 := by
  rw [msm_gpio_irq_set_wake_eq, msm_irq_to_gpio_to_irq]
  refine ⟨_, rfl, ?_⟩
  have hset := bitmap_empty_set_bit s.wake_irqs i P.NR_MSM_GPIOS hi
  by_cases hon : on_ = 0
  · have hne := bitmap_empty_of_mem s.wake_irqs i P.NR_MSM_GPIOS hi (hoff hon)
    subst hon
    by_cases he : bitmap_empty (clear_bit i s.wake_irqs) P.NR_MSM_GPIOS = true
    · simp [summary_marks, summary_unmarks, wake_nonempty, summary_wake_calls, he, hne,
        List.count_cons]
    · simp [summary_marks, summary_unmarks, wake_nonempty, summary_wake_calls, he, hne,
        List.count_cons]
  · by_cases he : bitmap_empty s.wake_irqs P.NR_MSM_GPIOS = true
    · simp [summary_marks, summary_unmarks, wake_nonempty, summary_wake_calls, he, hon, hset,
        List.count_cons]
    · simp [summary_marks, summary_unmarks, wake_nonempty, summary_wake_calls, he, hon, hset,
        List.count_cons]

theorem run_set_wake_balance (P : Platform) :
    ∀ (calls : List (Nat × Nat)) (s : State), wake_calls_valid P calls s = true →
      ∃ evs, (run_set_wake P calls s).trace = s.trace ++ evs ∧
        summary_marks P evs + wake_nonempty P s =
          summary_unmarks P evs + wake_nonempty P (run_set_wake P calls s) := by
  intro calls
  induction calls with
  | nil =>
    intro s _
    exact ⟨[], by simp [run_set_wake], by simp [run_set_wake, summary_marks, summary_unmarks]⟩
  | cons c rest ih =>
    intro s hv
    simp only [wake_calls_valid, Bool.and_eq_true, Bool.or_eq_true, decide_eq_true_eq] at hv
    obtain ⟨⟨hlt, hoff⟩, hrest⟩ := hv
    have hoff' : c.2 = 0 → s.wake_irqs c.1 = true := by
      intro h0
      rcases hoff with h | h
      · exact absurd h0 h
      · exact h
    obtain ⟨e1, t1, b1⟩ := set_wake_step_balance P s c.1 c.2 hlt hoff'
    obtain ⟨e2, t2, b2⟩ := ih _ hrest
    refine ⟨e1 ++ e2, ?_, ?_⟩
    · simp only [run_set_wake]
      rw [t2, t1, List.append_assoc]
    · simp only [run_set_wake]
      simp only [summary_marks, summary_unmarks, List.count_append] at b1 b2 ⊢
      omega

theorem wake_calls_valid_take (P : Platform) :
    ∀ (calls : List (Nat × Nat)) (s : State) (k : Nat),
      wake_calls_valid P calls s = true → wake_calls_valid P (calls.take k) s = true := by
  intro calls
  induction calls with
  | nil =>
    intro s k _
    simp [wake_calls_valid]
  | cons c rest ih =>
    intro s k hv
    cases k with
    | zero => simp [wake_calls_valid]
    | succ k =>
      simp only [List.take_succ_cons, wake_calls_valid, Bool.and_eq_true] at hv ⊢
      exact ⟨hv.1, ih _ k hv.2⟩

/-- C11: start with `wake_irqs` empty and run any sequence of
`msm_gpio_irq_set_wake` calls on lines below `NR_MSM_GPIOS` in which wake is
switched off only for a line that is in `wake_irqs`; then after every number
`k` of calls the marks of the summary interrupt exceed the unmarks by one if
`wake_irqs` is non-empty and equal them if it is empty. -/
theorem C11_set_wake_balance (P : Platform) (calls : List (Nat × Nat)) (s : State)
    (h0 : bitmap_empty s.wake_irqs P.NR_MSM_GPIOS = true)
    (hv : wake_calls_valid P calls s = true) (k : Nat) :
    summary_marks P (events_since s (run_set_wake P (calls.take k) s)) =
      summary_unmarks P (events_since s (run_set_wake P (calls.take k) s)) +
        (if bitmap_empty (run_set_wake P (calls.take k) s).wake_irqs P.NR_MSM_GPIOS then 0
         else 1) := by
  obtain ⟨evs, ht, hb⟩ :=
    run_set_wake_balance P (calls.take k) s (wake_calls_valid_take P calls s k hv)
  rw [events_since_append _ _ _ ht]
  simp only [wake_nonempty, h0, if_true, Nat.add_zero] at hb
  exact hb

set_option maxRecDepth 16000 in
/-- C11 on the scenario of the spec (msm8x60 lines 5 and 9): the balance holds
after the second call; the two on calls mark the summary interrupt once, the
first off call does not unmark it, the second does, once. -/
theorem C11_set_wake_balance_witness :
    bitmap_empty low_line_state.wake_irqs msm8x60.NR_MSM_GPIOS = true ∧
      wake_calls_valid msm8x60 wake_scenario low_line_state = true ∧
      summary_marks msm8x60
          (events_since low_line_state
            (run_set_wake msm8x60 (wake_scenario.take 2) low_line_state)) =
        summary_unmarks msm8x60
            (events_since low_line_state
              (run_set_wake msm8x60 (wake_scenario.take 2) low_line_state)) +
          (if bitmap_empty (run_set_wake msm8x60 (wake_scenario.take 2) low_line_state).wake_irqs
              msm8x60.NR_MSM_GPIOS then 0 else 1) ∧
      summary_marks msm8x60
          (events_since low_line_state
            (run_set_wake msm8x60 (wake_scenario.take 2) low_line_state)) = 1 ∧
      summary_unmarks msm8x60
          (events_since low_line_state
            (run_set_wake msm8x60 (wake_scenario.take 3) low_line_state)) = 0 ∧
      summary_unmarks msm8x60
          (events_since low_line_state
            (run_set_wake msm8x60 (wake_scenario.take 4) low_line_state)) = 1 ∧
      summary_marks msm8x60
          (events_since low_line_state
            (run_set_wake msm8x60 (wake_scenario.take 4) low_line_state)) = 1 :=
  ⟨by decide, by decide,
   C11_set_wake_balance msm8x60 wake_scenario low_line_state (by decide) (by decide) 2,
   by decide, by decide, by decide, by decide⟩

/-! ### C12, C13 -/

/-- When the body leaves the bitmap alone, `for_each_set_bit` runs the body
over the set bits below `size` in ascending order. -/
theorem for_each_set_bit_from_eq (addr : State → Nat → Bool) (size : Nat)
    (body : Nat → State → State) (hpres : ∀ i s, addr (body i s) = addr s) :
    ∀ (fuel bit : Nat) (s : State), bit ≤ size → (bit < size → addr s bit = true) →
      size - bit ≤ fuel →
      for_each_set_bit_from addr size body fuel bit s =
        ((List.range' bit (size - bit)).filter (addr s)).foldl (fun t i => body i t) s := by
  intro fuel
  induction fuel with
  | zero =>
    intro bit s _ _ hf
    have : size - bit = 0 := by omega
    simp [for_each_set_bit_from, this]
  | succ fuel ih =>
    intro bit s hle hset hf
    by_cases hlt : bit < size
    · obtain ⟨n1, n2, n3, n4⟩ := find_next_bit_spec (addr s) size (bit + 1)
      have hrange : List.range' bit (size - bit) =
          bit :: List.range' (bit + 1) (size - (bit + 1)) := by
        have e : size - bit = (size - (bit + 1)) + 1 := by omega
        rw [e, List.range'_succ]
      have hskip := filter_skip (addr s) (fun _ => true) size (bit + 1)
        (find_next_bit (addr s) size (bit + 1)) (n1 (by omega)) n2 n4
      simp only [Bool.and_true] at hskip
      simp only [for_each_set_bit_from, hlt, if_true, hpres]
      rw [ih _ _ n2 (by rw [hpres]; exact n3) (by have := n1 (by omega); omega), hpres,
        hrange, List.filter_cons, hset hlt]
      simp only [if_true, List.foldl_cons]
      rw [hskip]
    · have : size - bit = 0 := by omega
      simp [for_each_set_bit_from, hlt, this]

theorem for_each_set_bit_eq (addr : State → Nat → Bool) (size : Nat)
    (body : Nat → State → State) (hpres : ∀ i s, addr (body i s) = addr s) (s : State) :
    for_each_set_bit addr size body s =
      ((List.range size).filter (addr s)).foldl (fun t i => body i t) s := by
  obtain ⟨_, n2, n3, n4⟩ := find_next_bit_spec (addr s) size 0
  unfold for_each_set_bit
  have hff : find_first_bit (addr s) size = find_next_bit (addr s) size 0 := rfl
  rw [hff, for_each_set_bit_from_eq addr size body hpres size _ s n2 n3 (Nat.sub_le _ _)]
  have hskip := filter_skip (addr s) (fun _ => true) size 0 (find_next_bit (addr s) size 0)
    (Nat.zero_le _) n2 (fun k hk hk' => n4 k hk hk')
  simp only [Bool.and_true, Nat.sub_zero] at hskip
  rw [List.range_eq_range', hskip]

theorem clr_gpio_bits_cfg_eq (P : Platform) (n i : Nat) (s : State) :
    clr_gpio_bits P n (GPIO_INTR_CFG P i) s =
      { s with
        regs := Function.update s.regs (GPIO_INTR_CFG P i)
          (s.word (GPIO_INTR_CFG P i) &&& not32 n),
        trace := s.trace ++
          [Event.readl (GPIO_INTR_CFG P i) (s.word (GPIO_INTR_CFG P i)),
           Event.writel (s.word (GPIO_INTR_CFG P i) &&& not32 n) (GPIO_INTR_CFG P i)] } := by
  simp [clr_gpio_bits, readl, is_live_GPIO_INTR_CFG, writel, State.word, and_mod_word]

theorem set_gpio_bits_cfg_eq (P : Platform) (n i : Nat) (hn : n < 4294967296) (s : State) :
    set_gpio_bits P n (GPIO_INTR_CFG P i) s =
      { s with
        regs := Function.update s.regs (GPIO_INTR_CFG P i) (s.word (GPIO_INTR_CFG P i) ||| n),
        trace := s.trace ++
          [Event.readl (GPIO_INTR_CFG P i) (s.word (GPIO_INTR_CFG P i)),
           Event.writel (s.word (GPIO_INTR_CFG P i) ||| n) (GPIO_INTR_CFG P i)] } := by
  simp [set_gpio_bits, readl, is_live_GPIO_INTR_CFG, writel, State.word, or_mod_word _ _ hn]

theorem GPIO_INTR_CFG_inj (P : Platform) {i j : Nat}
    (h : GPIO_INTR_CFG P i = GPIO_INTR_CFG P j) : i = j := by
  simp only [GPIO_INTR_CFG] at h
  omega

theorem suspend_body_eq (P : Platform) (i : Nat) (s : State) :
    suspend_body P i s =
      if s.wake_irqs i = true then s
      else clr_gpio_bits P (INTR_RAW_STATUS_EN ||| INTR_ENABLE) (GPIO_INTR_CFG P i) s := by
  cases h : s.wake_irqs i <;> simp [suspend_body, test_bit, h]

/-- The loop of suspend over a list of lines: bitmaps and handlers stay, the
interrupt-config word of every listed line that is no wake source loses the
two enable bits, every other register keeps its content. -/
theorem suspend_fold (P : Platform) :
    ∀ (l : List Nat) (s : State),
      (l.foldl (fun t i => suspend_body P i t) s).enabled_irqs = s.enabled_irqs ∧
      (l.foldl (fun t i => suspend_body P i t) s).wake_irqs = s.wake_irqs ∧
      (l.foldl (fun t i => suspend_body P i t) s).dual_edge_irqs = s.dual_edge_irqs ∧
      (l.foldl (fun t i => suspend_body P i t) s).handle_irq = s.handle_irq ∧
      (∀ a, (∃ i ∈ l, s.wake_irqs i = false ∧ a = GPIO_INTR_CFG P i) →
        (l.foldl (fun t i => suspend_body P i t) s).regs a =
          s.word a &&& not32 (INTR_RAW_STATUS_EN ||| INTR_ENABLE)) ∧
      (∀ a, (∀ i ∈ l, s.wake_irqs i = false → a ≠ GPIO_INTR_CFG P i) →
        (l.foldl (fun t i => suspend_body P i t) s).regs a = s.regs a) := by
  intro l
  induction l with
  | nil =>
    intro s
    refine ⟨rfl, rfl, rfl, rfl, ?_, fun _ _ => rfl⟩
    rintro a ⟨i, hi, _⟩
    simp at hi
  | cons i l ih =>
    intro s
    obtain ⟨a1, a2, a3, a4, a5, a6⟩ := ih (suspend_body P i s)
    simp only [List.foldl_cons]
    cases hw : s.wake_irqs i
    · -- line `i` is no wake source: its enable bits are cleared
      have hs : suspend_body P i s =
          clr_gpio_bits P (INTR_RAW_STATUS_EN ||| INTR_ENABLE) (GPIO_INTR_CFG P i) s := by
        rw [suspend_body_eq]
        simp [hw]
      rw [hs, clr_gpio_bits_cfg_eq] at a1 a2 a3 a4 a5 a6 ⊢
      refine ⟨a1, a2, a3, a4, ?_, ?_⟩
      · intro a hex
        by_cases hl : ∃ j ∈ l, s.wake_irqs j = false ∧ a = GPIO_INTR_CFG P j
        · rw [a5 a hl]
          by_cases ha : a = GPIO_INTR_CFG P i
          · subst ha
            simp [State.word, and_mod_word, Nat.and_assoc]
          · simp [State.word, Function.update_noteq ha]
        · have hai : a = GPIO_INTR_CFG P i := by
            obtain ⟨j, hj, hwj, haj⟩ := hex
            rcases List.mem_cons.mp hj with h | h
            · rw [haj, h]
            · exact absurd ⟨j, h, hwj, haj⟩ hl
          have hno : ∀ j ∈ l, s.wake_irqs j = false → a ≠ GPIO_INTR_CFG P j := by
            intro j hj hwj haj
            exact hl ⟨j, hj, hwj, haj⟩
          rw [a6 a hno, hai]
          simp
      · intro a hall
        have hai : a ≠ GPIO_INTR_CFG P i := hall i (List.mem_cons_self _ _) hw
        rw [a6 a (fun j hj hwj => hall j (List.mem_cons_of_mem _ hj) hwj)]
        simp [Function.update_noteq hai]
    · -- a wake source is skipped
      have hs : suspend_body P i s = s := by
        rw [suspend_body_eq]
        simp [hw]
      rw [hs] at a1 a2 a3 a4 a5 a6 ⊢
      refine ⟨a1, a2, a3, a4, ?_, ?_⟩
      · intro a hex
        apply a5 a
        obtain ⟨j, hj, hwj, haj⟩ := hex
        rcases List.mem_cons.mp hj with h | h
        · rw [h, hw] at hwj
          exact absurd hwj (by decide)
        · exact ⟨j, h, hwj, haj⟩
      · intro a hall
        exact a6 a (fun j hj hwj => hall j (List.mem_cons_of_mem _ hj) hwj)

/-- The loop of resume over a list of lines: bitmaps and handlers stay, the
interrupt-config word of every listed line gains the two enable bits, every
other register keeps its content. -/
theorem resume_fold (P : Platform) :
    ∀ (l : List Nat) (s : State),
      (l.foldl (fun t i => resume_body P i t) s).enabled_irqs = s.enabled_irqs ∧
      (l.foldl (fun t i => resume_body P i t) s).wake_irqs = s.wake_irqs ∧
      (l.foldl (fun t i => resume_body P i t) s).dual_edge_irqs = s.dual_edge_irqs ∧
      (l.foldl (fun t i => resume_body P i t) s).handle_irq = s.handle_irq ∧
      (∀ a, (∃ i ∈ l, a = GPIO_INTR_CFG P i) →
        (l.foldl (fun t i => resume_body P i t) s).regs a =
          s.word a ||| (INTR_RAW_STATUS_EN ||| INTR_ENABLE)) ∧
      (∀ a, (∀ i ∈ l, a ≠ GPIO_INTR_CFG P i) →
        (l.foldl (fun t i => resume_body P i t) s).regs a = s.regs a) := by
  intro l
  induction l with
  | nil =>
    intro s
    refine ⟨rfl, rfl, rfl, rfl, ?_, fun _ _ => rfl⟩
    rintro a ⟨i, hi, _⟩
    simp at hi
  | cons i l ih =>
    intro s
    obtain ⟨a1, a2, a3, a4, a5, a6⟩ := ih (resume_body P i s)
    simp only [List.foldl_cons]
    simp only [resume_body, set_gpio_bits_cfg_eq P _ i enable_bits_lt] at a1 a2 a3 a4 a5 a6 ⊢
    refine ⟨a1, a2, a3, a4, ?_, ?_⟩
    · intro a hex
      by_cases hl : ∃ j ∈ l, a = GPIO_INTR_CFG P j
      · rw [a5 a hl]
        by_cases ha : a = GPIO_INTR_CFG P i
        · subst ha
          simp [State.word, or_mod_word _ _ enable_bits_lt, Nat.or_assoc]
        · simp [State.word, Function.update_noteq ha]
      · have hai : a = GPIO_INTR_CFG P i := by
          obtain ⟨j, hj, haj⟩ := hex
          rcases List.mem_cons.mp hj with h | h
          · rw [haj, h]
          · exact absurd ⟨j, h, haj⟩ hl
        have hno : ∀ j ∈ l, a ≠ GPIO_INTR_CFG P j := by
          intro j hj haj
          exact hl ⟨j, hj, haj⟩
        rw [a6 a hno, hai]
        simp
    · intro a hall
      have hai : a ≠ GPIO_INTR_CFG P i := hall i (List.mem_cons_self _ _)
      rw [a6 a (fun j hj => hall j (List.mem_cons_of_mem _ hj))]
      simp [Function.update_noteq hai]

theorem suspend_body_enabled (P : Platform) (i : Nat) (s : State) :
    (suspend_body P i s).enabled_irqs = s.enabled_irqs := by
  rw [suspend_body_eq]
  split
  · rfl
  · rw [clr_gpio_bits_cfg_eq]

theorem resume_body_enabled (P : Platform) (i : Nat) (s : State) :
    (resume_body P i s).enabled_irqs = s.enabled_irqs := by
  rw [resume_body, set_gpio_bits_cfg_eq P _ i enable_bits_lt]

theorem mem_enabled_lines (w : Nat → Bool) (n i : Nat) :
    i ∈ (List.range n).filter w ↔ i < n ∧ w i = true := by
  rw [List.mem_filter, List.mem_range]

theorem suspend_result (P : Platform) (s : State) :
    (msm_gpio_suspend_noirq P s).1 = 0 ∧
      (msm_gpio_suspend_noirq P s).2.enabled_irqs = s.enabled_irqs ∧
      (msm_gpio_suspend_noirq P s).2.wake_irqs = s.wake_irqs ∧
      (msm_gpio_suspend_noirq P s).2.dual_edge_irqs = s.dual_edge_irqs ∧
      (msm_gpio_suspend_noirq P s).2.handle_irq = s.handle_irq ∧
      (∀ i, i < P.NR_MSM_GPIOS → s.enabled_irqs i = true → s.wake_irqs i = false →
        (msm_gpio_suspend_noirq P s).2.regs (GPIO_INTR_CFG P i) =
          s.word (GPIO_INTR_CFG P i) &&& not32 (INTR_RAW_STATUS_EN ||| INTR_ENABLE)) ∧
      (∀ a, (∀ i, i < P.NR_MSM_GPIOS → s.enabled_irqs i = true → s.wake_irqs i = false →
          a ≠ GPIO_INTR_CFG P i) →
        (msm_gpio_suspend_noirq P s).2.regs a = s.regs a) := by
  obtain ⟨a1, a2, a3, a4, a5, a6⟩ :=
    suspend_fold P ((List.range P.NR_MSM_GPIOS).filter (spin_lock_irqsave s).enabled_irqs)
      (spin_lock_irqsave s)
  have hrun : (msm_gpio_suspend_noirq P s).2 =
      spin_unlock_irqrestore (dsb
        (((List.range P.NR_MSM_GPIOS).filter (spin_lock_irqsave s).enabled_irqs).foldl
          (fun t i => suspend_body P i t) (spin_lock_irqsave s))) := by
    simp only [msm_gpio_suspend_noirq]
    rw [for_each_set_bit_eq (fun t => t.enabled_irqs) P.NR_MSM_GPIOS (suspend_body P)
      (suspend_body_enabled P)]
  rw [hrun]
  simp only [spin_unlock_irqrestore, dsb, emit, spin_lock_irqsave, State.word] at a1 a2 a3 a4 a5 a6 ⊢
  refine ⟨rfl, a1, a2, a3, a4, ?_, ?_⟩
  · intro i hi he hw
    exact a5 _ ⟨i, (mem_enabled_lines _ _ _).mpr ⟨hi, he⟩, hw, rfl⟩
  · intro a hall
    apply a6
    intro i hi hw
    obtain ⟨h1, h2⟩ := (mem_enabled_lines _ _ _).mp hi
    exact hall i h1 h2 hw

theorem resume_result (P : Platform) (s : State) :
    (msm_gpio_resume_noirq P s).1 = 0 ∧
      (msm_gpio_resume_noirq P s).2.enabled_irqs = s.enabled_irqs ∧
      (msm_gpio_resume_noirq P s).2.wake_irqs = s.wake_irqs ∧
      (msm_gpio_resume_noirq P s).2.dual_edge_irqs = s.dual_edge_irqs ∧
      (msm_gpio_resume_noirq P s).2.handle_irq = s.handle_irq ∧
      (∀ i, i < P.NR_MSM_GPIOS → s.enabled_irqs i = true →
        (msm_gpio_resume_noirq P s).2.regs (GPIO_INTR_CFG P i) =
          s.word (GPIO_INTR_CFG P i) ||| (INTR_RAW_STATUS_EN ||| INTR_ENABLE)) ∧
      (∀ a, (∀ i, i < P.NR_MSM_GPIOS → s.enabled_irqs i = true → a ≠ GPIO_INTR_CFG P i) →
        (msm_gpio_resume_noirq P s).2.regs a = s.regs a) := by
  obtain ⟨a1, a2, a3, a4, a5, a6⟩ :=
    resume_fold P ((List.range P.NR_MSM_GPIOS).filter (spin_lock_irqsave s).enabled_irqs)
      (spin_lock_irqsave s)
  have hrun : (msm_gpio_resume_noirq P s).2 =
      spin_unlock_irqrestore (dsb
        (((List.range P.NR_MSM_GPIOS).filter (spin_lock_irqsave s).enabled_irqs).foldl
          (fun t i => resume_body P i t) (spin_lock_irqsave s))) := by
    simp only [msm_gpio_resume_noirq]
    rw [for_each_set_bit_eq (fun t => t.enabled_irqs) P.NR_MSM_GPIOS (resume_body P)
      (resume_body_enabled P)]
  rw [hrun]
  simp only [spin_unlock_irqrestore, dsb, emit, spin_lock_irqsave, State.word] at a1 a2 a3 a4 a5 a6 ⊢
  refine ⟨rfl, a1, a2, a3, a4, ?_, ?_⟩
  · intro i hi he
    exact a5 _ ⟨i, (mem_enabled_lines _ _ _).mpr ⟨hi, he⟩, rfl⟩
  · intro a hall
    apply a6
    intro i hi
    obtain ⟨h1, h2⟩ := (mem_enabled_lines _ _ _).mp hi
    exact hall i h1 h2

theorem testBit_enable_bits (j : Nat) :
    ((INTR_RAW_STATUS_EN ||| INTR_ENABLE) % 4294967296).testBit j =
      (decide (j = INTR_RAW_STATUS_EN_BIT) || decide (j = INTR_ENABLE_BIT)) := by
  have h : (INTR_RAW_STATUS_EN ||| INTR_ENABLE) % 4294967296 =
      BIT INTR_RAW_STATUS_EN_BIT ||| BIT INTR_ENABLE_BIT := by decide
  rw [h, Nat.testBit_or, testBit_BIT, testBit_BIT]
  by_cases h1 : j = INTR_RAW_STATUS_EN_BIT <;> by_cases h2 : j = INTR_ENABLE_BIT <;>
    simp [h1, h2, eq_comm]

theorem testBit_clear_enable (w j : Nat) (hw : w < 4294967296) :
    (w &&& not32 (INTR_RAW_STATUS_EN ||| INTR_ENABLE)).testBit j =
      (w.testBit j && !(decide (j = INTR_RAW_STATUS_EN_BIT) || decide (j = INTR_ENABLE_BIT))) := by
  rw [Nat.testBit_and, testBit_not32, testBit_enable_bits]
  by_cases hj : j < 32
  · simp [hj]
  · rw [testBit_of_lt_word hw (by omega)]
    simp

theorem testBit_set_enable (w j : Nat) :
    (w ||| (INTR_RAW_STATUS_EN ||| INTR_ENABLE)).testBit j =
      (w.testBit j || (decide (j = INTR_RAW_STATUS_EN_BIT) || decide (j = INTR_ENABLE_BIT))) := by
  have h : INTR_RAW_STATUS_EN ||| INTR_ENABLE =
      (INTR_RAW_STATUS_EN ||| INTR_ENABLE) % 4294967296 := by decide
  rw [Nat.testBit_or, h, testBit_enable_bits]

theorem set_enable_of_set (w : Nat) (h : enable_bits_set w) :
    w ||| (INTR_RAW_STATUS_EN ||| INTR_ENABLE) = w := by
  apply Nat.eq_of_testBit_eq
  intro j
  rw [testBit_set_enable]
  by_cases h1 : j = INTR_RAW_STATUS_EN_BIT
  · rw [h1, h.1]
    simp
  · by_cases h2 : j = INTR_ENABLE_BIT
    · rw [h2, h.2]
      simp
    · simp [h1, h2]

theorem set_after_clear_enable (w : Nat) (hw : w < 4294967296) :
    (w &&& not32 (INTR_RAW_STATUS_EN ||| INTR_ENABLE)) ||| (INTR_RAW_STATUS_EN ||| INTR_ENABLE) =
      w ||| (INTR_RAW_STATUS_EN ||| INTR_ENABLE) := by
  apply Nat.eq_of_testBit_eq
  intro j
  rw [testBit_set_enable, testBit_set_enable, testBit_clear_enable w j hw]
  by_cases h1 : j = INTR_RAW_STATUS_EN_BIT <;> by_cases h2 : j = INTR_ENABLE_BIT <;>
    simp [h1, h2]

/-- C12: after `msm_gpio_suspend_noirq` every line below `NR_MSM_GPIOS` that is
in `enabled_irqs` and not in `wake_irqs` has its interrupt-config word and-ed
with the complement of `INTR_RAW_STATUS_EN | INTR_ENABLE` (both bits clear,
every other bit as before); no other register is written, so every line that
is a wake source or is not enabled keeps all its registers; the three bitmaps
are unchanged and the call returns 0. -/
theorem C12_suspend_effect (P : Platform) (s : State) :
    (∀ i, i < P.NR_MSM_GPIOS → s.enabled_irqs i = true → s.wake_irqs i = false →
        (msm_gpio_suspend_noirq P s).2.word (GPIO_INTR_CFG P i) =
          s.word (GPIO_INTR_CFG P i) &&& not32 (INTR_RAW_STATUS_EN ||| INTR_ENABLE) ∧
        enable_bits_clear ((msm_gpio_suspend_noirq P s).2.word (GPIO_INTR_CFG P i)) ∧
        same_but_enable_bits ((msm_gpio_suspend_noirq P s).2.word (GPIO_INTR_CFG P i))
          (s.word (GPIO_INTR_CFG P i))) ∧
      (∀ a, (∀ i, i < P.NR_MSM_GPIOS → s.enabled_irqs i = true → s.wake_irqs i = false →
          a ≠ GPIO_INTR_CFG P i) →
        (msm_gpio_suspend_noirq P s).2.regs a = s.regs a) ∧
      (∀ j, j < 768 → (s.wake_irqs j = true ∨ s.enabled_irqs j = false) →
        same_line_regs P j s (msm_gpio_suspend_noirq P s).2) ∧
      (msm_gpio_suspend_noirq P s).2.enabled_irqs = s.enabled_irqs ∧
      (msm_gpio_suspend_noirq P s).2.wake_irqs = s.wake_irqs ∧
      (msm_gpio_suspend_noirq P s).2.dual_edge_irqs = s.dual_edge_irqs ∧
      (msm_gpio_suspend_noirq P s).1 = 0 := by
  obtain ⟨r0, r1, r2, r3, _, r5, r6⟩ := suspend_result P s
  refine ⟨?_, r6, ?_, r1, r2, r3, r0⟩
  · intro i hi he hw
    have hword : (msm_gpio_suspend_noirq P s).2.word (GPIO_INTR_CFG P i) =
        s.word (GPIO_INTR_CFG P i) &&& not32 (INTR_RAW_STATUS_EN ||| INTR_ENABLE) := by
      rw [State.word, r5 i hi he hw]
      exact and_mod_word _ _
    refine ⟨hword, ?_, ?_⟩
    · rw [hword]
      constructor
      · rw [testBit_clear_enable _ _ (word_lt s _)]
        simp
      · rw [testBit_clear_enable _ _ (word_lt s _)]
        simp
    · intro j h1 h2
      rw [hword, testBit_clear_enable _ _ (word_lt s _)]
      simp [h1, h2]
  · intro j hj hor
    have hcfg : ∀ i, i < P.NR_MSM_GPIOS → s.enabled_irqs i = true → s.wake_irqs i = false →
        GPIO_INTR_CFG P j ≠ GPIO_INTR_CFG P i := by
      intro i _ he hw h
      have hji := GPIO_INTR_CFG_inj P h
      subst hji
      rcases hor with h1 | h1
      · rw [h1] at hw
        exact absurd hw (by decide)
      · rw [h1] at he
        exact absurd he (by decide)
    refine ⟨r6 _ ?_, r6 _ ?_, r6 _ hcfg, r6 _ ?_, r6 _ ?_⟩ <;>
      intro i _ _ _ <;>
      simp only [GPIO_CONFIG, GPIO_IN_OUT, GPIO_INTR_CFG, GPIO_INTR_STATUS, GPIO_INTR_CFG_SU] <;>
      omega

/-- C12 on the scenario of the spec (lines 5 and 9 enabled, line 9 a wake
source): the enable bits of line 5 are clear after suspend and the registers
of line 9 are as before. -/
theorem C12_suspend_effect_witness :
    enable_bits_clear
        ((msm_gpio_suspend_noirq msm8x60 suspend_scenario).2.word (GPIO_INTR_CFG msm8x60 5)) ∧
      same_line_regs msm8x60 9 suspend_scenario
        (msm_gpio_suspend_noirq msm8x60 suspend_scenario).2 :=
  ⟨((C12_suspend_effect msm8x60 suspend_scenario).1 5 (by decide) (by decide) (by decide)).2.1,
   (C12_suspend_effect msm8x60 suspend_scenario).2.2.1 9 (by decide) (Or.inl (by decide))⟩

/-- C13: if every line of `enabled_irqs` below `NR_MSM_GPIOS` has both enable
bits set, then suspend followed by resume gives back every register word and
the three bitmaps, and so does resume alone; in every state, resume or-s
`INTR_RAW_STATUS_EN | INTR_ENABLE` into the interrupt-config word of every
enabled line (both bits set, the other bits as before) and writes no other
register. -/
theorem C13_suspend_resume_round_trip (P : Platform) (s : State) :
    ((∀ i, i < P.NR_MSM_GPIOS → s.enabled_irqs i = true →
          enable_bits_set (s.word (GPIO_INTR_CFG P i))) →
        (∀ a, (msm_gpio_resume_noirq P (msm_gpio_suspend_noirq P s).2).2.word a = s.word a) ∧
        (msm_gpio_resume_noirq P (msm_gpio_suspend_noirq P s).2).2.enabled_irqs =
          s.enabled_irqs ∧
        (msm_gpio_resume_noirq P (msm_gpio_suspend_noirq P s).2).2.wake_irqs = s.wake_irqs ∧
        (msm_gpio_resume_noirq P (msm_gpio_suspend_noirq P s).2).2.dual_edge_irqs =
          s.dual_edge_irqs ∧
        (∀ a, (msm_gpio_resume_noirq P s).2.word a = s.word a)) ∧
      (∀ i, i < P.NR_MSM_GPIOS → s.enabled_irqs i = true →
        (msm_gpio_resume_noirq P s).2.word (GPIO_INTR_CFG P i) =
          s.word (GPIO_INTR_CFG P i) ||| (INTR_RAW_STATUS_EN ||| INTR_ENABLE) ∧
        enable_bits_set ((msm_gpio_resume_noirq P s).2.word (GPIO_INTR_CFG P i)) ∧
        same_but_enable_bits ((msm_gpio_resume_noirq P s).2.word (GPIO_INTR_CFG P i))
          (s.word (GPIO_INTR_CFG P i))) ∧
      (∀ a, (∀ i, i < P.NR_MSM_GPIOS → s.enabled_irqs i = true → a ≠ GPIO_INTR_CFG P i) →
        (msm_gpio_resume_noirq P s).2.regs a = s.regs a) ∧
      (∀ j, j < 768 → s.enabled_irqs j = false →
        same_line_regs P j s (msm_gpio_resume_noirq P s).2) ∧
      (msm_gpio_resume_noirq P s).2.enabled_irqs = s.enabled_irqs ∧
      (msm_gpio_resume_noirq P s).2.wake_irqs = s.wake_irqs ∧
      (msm_gpio_resume_noirq P s).2.dual_edge_irqs = s.dual_edge_irqs := by
  obtain ⟨_, r1, r2, r3, _, r5, r6⟩ := resume_result P s
  obtain ⟨_, u1, u2, u3, _, u5, u6⟩ := suspend_result P s
  obtain ⟨_, t1, t2, t3, _, t5, t6⟩ := resume_result P (msm_gpio_suspend_noirq P s).2
  have hrw : ∀ i, i < P.NR_MSM_GPIOS → s.enabled_irqs i = true →
      (msm_gpio_resume_noirq P s).2.word (GPIO_INTR_CFG P i) =
        s.word (GPIO_INTR_CFG P i) ||| (INTR_RAW_STATUS_EN ||| INTR_ENABLE) := by
    intro i hi he
    rw [State.word, r5 i hi he]
    exact or_mod_word _ _ enable_bits_lt
  refine ⟨?_, ?_, r6, ?_, r1, r2, r3⟩
  · intro H
    refine ⟨?_, t1.trans u1, t2.trans u2, t3.trans u3, ?_⟩
    · intro a
      by_cases hex : ∃ i, i < P.NR_MSM_GPIOS ∧ s.enabled_irqs i = true ∧ a = GPIO_INTR_CFG P i
      · obtain ⟨i, hi, he, rfl⟩ := hex
        have hres := t5 i hi (by rw [u1]; exact he)
        have hset := set_enable_of_set _ (H i hi he)
        cases hw : s.wake_irqs i
        · have hsus : (msm_gpio_suspend_noirq P s).2.word (GPIO_INTR_CFG P i) =
              s.word (GPIO_INTR_CFG P i) &&& not32 (INTR_RAW_STATUS_EN ||| INTR_ENABLE) := by
            rw [State.word, u5 i hi he hw]
            exact and_mod_word _ _
          rw [State.word, hres, hsus, set_after_clear_enable _ (word_lt s _), hset]
          exact Nat.mod_eq_of_lt (word_lt s _)
        · have hsus : (msm_gpio_suspend_noirq P s).2.regs (GPIO_INTR_CFG P i) =
              s.regs (GPIO_INTR_CFG P i) := by
            apply u6
            intro k _ _ hwk h
            have := GPIO_INTR_CFG_inj P h
            subst this
            rw [hw] at hwk
            exact absurd hwk (by decide)
          have hsw : (msm_gpio_suspend_noirq P s).2.word (GPIO_INTR_CFG P i) =
              s.word (GPIO_INTR_CFG P i) := by
            rw [State.word, hsus]
            rfl
          rw [State.word, hres, hsw, hset]
          exact Nat.mod_eq_of_lt (word_lt s _)
      · have hno : ∀ i, i < P.NR_MSM_GPIOS → s.enabled_irqs i = true →
            a ≠ GPIO_INTR_CFG P i := fun i hi he h => hex ⟨i, hi, he, h⟩
        have h1 := t6 a (fun i hi he => hno i hi (by rw [u1] at he; exact he))
        have h2 := u6 a (fun i hi he _ => hno i hi he)
        rw [State.word, h1, h2]
        rfl
    · intro a
      by_cases hex : ∃ i, i < P.NR_MSM_GPIOS ∧ s.enabled_irqs i = true ∧ a = GPIO_INTR_CFG P i
      · obtain ⟨i, hi, he, rfl⟩ := hex
        rw [hrw i hi he, set_enable_of_set _ (H i hi he)]
      · have hno : ∀ i, i < P.NR_MSM_GPIOS → s.enabled_irqs i = true →
            a ≠ GPIO_INTR_CFG P i := fun i hi he h => hex ⟨i, hi, he, h⟩
        rw [State.word, r6 a hno]
        rfl
  · intro i hi he
    refine ⟨hrw i hi he, ?_, ?_⟩
    · rw [hrw i hi he]
      constructor
      · rw [testBit_set_enable]
        simp
      · rw [testBit_set_enable]
        simp
    · intro j h1 h2
      rw [hrw i hi he, testBit_set_enable]
      simp [h1, h2]
  · intro j hj hdis
    have hcfg : ∀ i, i < P.NR_MSM_GPIOS → s.enabled_irqs i = true →
        GPIO_INTR_CFG P j ≠ GPIO_INTR_CFG P i := by
      intro i _ he h
      have hji := GPIO_INTR_CFG_inj P h
      subst hji
      rw [hdis] at he
      exact absurd he (by decide)
    refine ⟨r6 _ ?_, r6 _ ?_, r6 _ hcfg, r6 _ ?_, r6 _ ?_⟩ <;>
      intro i _ _ <;>
      simp only [GPIO_CONFIG, GPIO_IN_OUT, GPIO_INTR_CFG, GPIO_INTR_STATUS, GPIO_INTR_CFG_SU] <;>
      omega

set_option maxRecDepth 16000 in
/-- C13 on the scenario of the spec: lines 5 and 9 are enabled with both enable
bits set; after suspend and resume the interrupt-config word of line 5 is the
one before. -/
theorem C13_suspend_resume_round_trip_witness :
    (∀ i, i < msm8x60.NR_MSM_GPIOS → suspend_scenario.enabled_irqs i = true →
        enable_bits_set (suspend_scenario.word (GPIO_INTR_CFG msm8x60 i))) ∧
      (msm_gpio_resume_noirq msm8x60
          (msm_gpio_suspend_noirq msm8x60 suspend_scenario).2).2.word
          (GPIO_INTR_CFG msm8x60 5) =
        suspend_scenario.word (GPIO_INTR_CFG msm8x60 5) :=
  ⟨by decide,
   ((C13_suspend_resume_round_trip msm8x60 suspend_scenario).1 (by decide)).1
     (GPIO_INTR_CFG msm8x60 5)⟩

/-! ### C14, C15 -/

theorem is_live_GPIO_CONFIG (P : Platform) (g : Nat) : is_live P (GPIO_CONFIG P g) = false := by
  simp only [is_live, GPIO_CONFIG, Bool.and_eq_false_imp, decide_eq_true_eq,
    Bool.or_eq_false_iff, decide_eq_false_iff_not]
  omega

theorem GPIO_CONFIG_ne_GPIO_INTR_CFG (P : Platform) (i j : Nat) :
    GPIO_INTR_CFG P i ≠ GPIO_CONFIG P j := by
  simp only [GPIO_CONFIG, GPIO_INTR_CFG]
  omega

theorem GPIO_IN_OUT_ne_GPIO_INTR_CFG (P : Platform) (i j : Nat) :
    GPIO_INTR_CFG P i ≠ GPIO_IN_OUT P j := by
  simp only [GPIO_IN_OUT, GPIO_INTR_CFG]
  omega

theorem msm_gpio_direction_input_regs (P : Platform) (i : Nat) (s : State) :
    (msm_gpio_direction_input P i s).2.dual_edge_irqs = s.dual_edge_irqs ∧
      ∀ a, a ≠ GPIO_CONFIG P i → (msm_gpio_direction_input P i s).2.regs a = s.regs a := by
  refine ⟨?_, ?_⟩
  · simp [msm_gpio_direction_input, clr_gpio_bits, readl, is_live_GPIO_CONFIG, writel, dsb,
      spin_lock_irqsave, spin_unlock_irqrestore, emit]
  · intro a ha
    simp [msm_gpio_direction_input, clr_gpio_bits, readl, is_live_GPIO_CONFIG, writel, dsb,
      spin_lock_irqsave, spin_unlock_irqrestore, emit, Function.update_noteq ha]

theorem msm_gpio_direction_output_regs (P : Platform) (i v : Nat) (s : State) :
    (msm_gpio_direction_output P i v s).2.dual_edge_irqs = s.dual_edge_irqs ∧
      ∀ a, a ≠ GPIO_CONFIG P i → a ≠ GPIO_IN_OUT P i →
        (msm_gpio_direction_output P i v s).2.regs a = s.regs a := by
  refine ⟨?_, ?_⟩
  · simp [msm_gpio_direction_output, msm_gpio_set, set_gpio_bits, readl, is_live_GPIO_CONFIG,
      writel, dsb, spin_lock_irqsave, spin_unlock_irqrestore, emit]
  · intro a ha hb
    simp [msm_gpio_direction_output, msm_gpio_set, set_gpio_bits, readl, is_live_GPIO_CONFIG,
      writel, dsb, spin_lock_irqsave, spin_unlock_irqrestore, emit, Function.update_noteq ha,
      Function.update_noteq hb]

theorem gpio_tlmm_config_regs (P : Platform) (M : CfgMacros) (c d : Nat) (s : State) :
    (gpio_tlmm_config P M c d s).2.dual_edge_irqs = s.dual_edge_irqs ∧
      ∀ a, a ≠ GPIO_CONFIG P (M.GPIO_PIN c) → (gpio_tlmm_config P M c d s).2.regs a = s.regs a := by
  by_cases h : M.GPIO_PIN c > P.NR_MSM_GPIOS
  · simp [gpio_tlmm_config, h]
  · refine ⟨?_, ?_⟩
    · simp [gpio_tlmm_config, h, writel, dsb, emit]
    · intro a ha
      simp [gpio_tlmm_config, h, writel, dsb, emit, Function.update_noteq ha]

theorem msm_gpio_install_direct_irq_eq (P : Platform) (g irq pol : Nat) (s : State)
    (h : ¬ (g ≥ P.NR_MSM_GPIOS ∨ irq ≥ P.NR_TLMM_SCSS_DIR_CONN_IRQ)) :
    (msm_gpio_install_direct_irq P g irq pol s).2 =
      { s with
        regs := Function.update (Function.update (Function.update (Function.update s.regs
          (GPIO_CONFIG P g) (s.word (GPIO_CONFIG P g) ||| BIT GPIO_OE_BIT))
          (GPIO_INTR_CFG P g)
            (s.word (GPIO_INTR_CFG P g) &&& not32 (INTR_RAW_STATUS_EN ||| INTR_ENABLE)))
          (GPIO_INTR_CFG_SU P g) (DC_IRQ_ENABLE ||| TARGET_PROC_NONE))
          (DIR_CONN_INTR_CFG_SU P irq) (direct_irq_bits g pol % 4294967296),
        trace := s.trace ++
          [Event.spin_lock_irqsave,
           Event.readl (GPIO_CONFIG P g) (s.word (GPIO_CONFIG P g)),
           Event.writel (s.word (GPIO_CONFIG P g) ||| BIT GPIO_OE_BIT) (GPIO_CONFIG P g),
           Event.readl (GPIO_INTR_CFG P g) (s.word (GPIO_INTR_CFG P g)),
           Event.writel
             (s.word (GPIO_INTR_CFG P g) &&& not32 (INTR_RAW_STATUS_EN ||| INTR_ENABLE))
             (GPIO_INTR_CFG P g),
           secure_writel_event P (DC_IRQ_ENABLE ||| TARGET_PROC_NONE) (GPIO_INTR_CFG_SU P g),
           secure_writel_event P (direct_irq_bits g pol) (DIR_CONN_INTR_CFG_SU P irq),
           Event.dsb, Event.spin_unlock_irqrestore] } := by
  have hne := GPIO_CONFIG_ne_GPIO_INTR_CFG P g g
  have hoe : BIT GPIO_OE_BIT < 4294967296 := by decide
  have hdc : (DC_IRQ_ENABLE ||| TARGET_PROC_NONE) % 4294967296 =
      DC_IRQ_ENABLE ||| TARGET_PROC_NONE := by decide
  simp [msm_gpio_install_direct_irq, h, secure_writel_eq, readl, is_live_GPIO_CONFIG,
    is_live_GPIO_INTR_CFG, writel, dsb, spin_lock_irqsave, spin_unlock_irqrestore, emit,
    State.word, Function.update_noteq hne, and_mod_word, or_mod_word _ _ hoe, hdc]

theorem msm_gpio_irq_ack_result (P : Platform) (s : State) (i : Nat) :
    (msm_gpio_irq_ack P (msm_gpio_to_irq P i) s).enabled_irqs = s.enabled_irqs ∧
      (msm_gpio_irq_ack P (msm_gpio_to_irq P i) s).dual_edge_irqs = s.dual_edge_irqs ∧
      (∀ a, a ≠ GPIO_INTR_STATUS P i → a ≠ GPIO_INTR_CFG P i →
        (msm_gpio_irq_ack P (msm_gpio_to_irq P i) s).regs a = s.regs a) ∧
      (∀ b, b ≠ INTR_POL_CTL_BIT →
        ((msm_gpio_irq_ack P (msm_gpio_to_irq P i) s).word (GPIO_INTR_CFG P i)).testBit b =
          (s.word (GPIO_INTR_CFG P i)).testBit b) := by
  have hne := GPIO_INTR_STATUS_ne_GPIO_INTR_CFG P i i
  cases hd : s.dual_edge_irqs i
  · have hack : msm_gpio_irq_ack P (msm_gpio_to_irq P i) s =
        dsb (writel (BIT INTR_STATUS_BIT) (GPIO_INTR_STATUS P i) s) := by
      simp [msm_gpio_irq_ack, msm_irq_to_gpio_to_irq, writel, test_bit, hd]
    rw [hack]
    refine ⟨rfl, rfl, ?_, ?_⟩
    · intro a h1 _
      simp [dsb, emit, writel, Function.update_noteq h1]
    · intro b _
      simp [dsb, emit, writel, State.word, Function.update_noteq hne.symm]
  · have hack : msm_gpio_irq_ack P (msm_gpio_to_irq P i) s =
        dsb (msm_gpio_update_dual_edge_pos P i
          (writel (BIT INTR_STATUS_BIT) (GPIO_INTR_STATUS P i) s)) := by
      simp [msm_gpio_irq_ack, msm_irq_to_gpio_to_irq, writel, test_bit, hd]
    obtain ⟨a1, _, a3, _, a5, a6⟩ :=
      dual_edge_loop_frame P i 100 (writel (BIT INTR_STATUS_BIT) (GPIO_INTR_STATUS P i) s)
    rw [hack]
    simp only [dsb, emit, msm_gpio_update_dual_edge_pos, State.word] at a6 ⊢
    refine ⟨?_, ?_, ?_, ?_⟩
    · rw [a1]
      rfl
    · rw [a3]
      rfl
    · intro a h1 h2
      rw [a5 a h2]
      simp [writel, Function.update_noteq h1]
    · intro b hb
      rw [a6 b hb]
      simp [writel, Function.update_noteq hne.symm]

theorem detect_of_regs_eq (s t : State) (a : Nat) (h : t.regs a = s.regs a)
    (hb : (s.word a).testBit INTR_DECT_CTL_BIT = true) :
    (t.word a).testBit INTR_DECT_CTL_BIT = true := by
  rw [State.word, h]
  exact hb

theorem detect_clear_enable (s t : State) (a : Nat)
    (h : t.regs a = s.word a &&& not32 (INTR_RAW_STATUS_EN ||| INTR_ENABLE))
    (hb : (s.word a).testBit INTR_DECT_CTL_BIT = true) :
    (t.word a).testBit INTR_DECT_CTL_BIT = true := by
  have hw : t.word a = s.word a &&& not32 (INTR_RAW_STATUS_EN ||| INTR_ENABLE) := by
    rw [State.word, h]
    exact and_mod_word _ _
  rw [hw, testBit_clear_enable _ _ (word_lt s a), hb]
  decide

theorem detect_set_enable (s t : State) (a : Nat)
    (h : t.regs a = s.word a ||| (INTR_RAW_STATUS_EN ||| INTR_ENABLE))
    (hb : (s.word a).testBit INTR_DECT_CTL_BIT = true) :
    (t.word a).testBit INTR_DECT_CTL_BIT = true := by
  have hw : t.word a = s.word a ||| (INTR_RAW_STATUS_EN ||| INTR_ENABLE) := by
    rw [State.word, h]
    exact or_mod_word _ _ enable_bits_lt
  rw [hw, testBit_set_enable, hb]
  rfl

theorem detect_const (t : State) (a c : Nat) (h : t.regs a = c)
    (hc : (c % 4294967296).testBit INTR_DECT_CTL_BIT = true) :
    (t.word a).testBit INTR_DECT_CTL_BIT = true := by
  rw [State.word, h]
  exact hc

theorem detect_direct_irq_bits (g pol : Nat) :
    (direct_irq_bits g pol % 4294967296 % 4294967296).testBit INTR_DECT_CTL_BIT = true := by
  have h4 : TARGET_PROC_SCORPION.testBit INTR_DECT_CTL_BIT = true := by decide
  rw [Nat.mod_mod, testBit_mod_word]
  unfold direct_irq_bits
  split
  · rw [Nat.testBit_or, Nat.testBit_or, h4]
    simp
    decide
  · rw [Nat.testBit_or, h4]
    simp
    decide

/-- A call other than `set_type` leaves `dual_edge_irqs` alone and never
clears the edge-detect bit of an interrupt-config register. -/
theorem op_keeps_detect (P : Platform) (M : CfgMacros) (op : Op) (s : State)
    (hop : ∀ i f, op ≠ Op.set_type i f) :
    (op.run P M s).dual_edge_irqs = s.dual_edge_irqs ∧
      ∀ i, (s.word (GPIO_INTR_CFG P i)).testBit INTR_DECT_CTL_BIT = true →
        ((op.run P M s).word (GPIO_INTR_CFG P i)).testBit INTR_DECT_CTL_BIT = true := by
  cases op with
  | mask j =>
    simp only [Op.run]
    rw [msm_gpio_irq_mask_eq, msm_irq_to_gpio_to_irq]
    refine ⟨rfl, ?_⟩
    intro i hb
    by_cases h1 : GPIO_INTR_CFG P i = GPIO_INTR_CFG P j
    · apply detect_clear_enable s _ _ _ hb
      rw [h1]
      simp
    · by_cases h2 : GPIO_INTR_CFG P i = GPIO_INTR_CFG_SU P j
      · apply detect_const _ _ TARGET_PROC_NONE
        · dsimp only
          rw [Function.update_noteq h1, h2, Function.update_same]
        · decide
      · apply detect_of_regs_eq s _ _ _ hb
        simp [Function.update_noteq h1, Function.update_noteq h2]
  | unmask j =>
    simp only [Op.run]
    rw [msm_gpio_irq_unmask_eq, msm_irq_to_gpio_to_irq]
    refine ⟨rfl, ?_⟩
    intro i hb
    by_cases h2 : GPIO_INTR_CFG P i = GPIO_INTR_CFG_SU P j
    · apply detect_const _ _ TARGET_PROC_SCORPION
      · dsimp only
        rw [h2, Function.update_same]
      · decide
    · by_cases h1 : GPIO_INTR_CFG P i = GPIO_INTR_CFG P j
      · apply detect_set_enable s _ _ _ hb
        rw [h1] at h2 ⊢
        simp [Function.update_noteq h2]
      · apply detect_of_regs_eq s _ _ _ hb
        simp [Function.update_noteq h1, Function.update_noteq h2]
  | ack j =>
    simp only [Op.run]
    obtain ⟨_, a2, a3, a4⟩ := msm_gpio_irq_ack_result P s j
    refine ⟨a2, ?_⟩
    intro i hb
    by_cases h1 : GPIO_INTR_CFG P i = GPIO_INTR_CFG P j
    · rw [h1] at hb ⊢
      rw [a4 _ (by decide)]
      exact hb
    · exact detect_of_regs_eq s _ _
        (a3 _ (GPIO_INTR_STATUS_ne_GPIO_INTR_CFG P j i).symm h1) hb
  | set_type j f => exact absurd rfl (hop j f)
  | set_wake j on_ =>
    simp only [Op.run]
    rw [msm_gpio_irq_set_wake_eq]
    exact ⟨rfl, fun i hb => hb⟩
  | direction_input j =>
    simp only [Op.run]
    obtain ⟨a1, a2⟩ := msm_gpio_direction_input_regs P j s
    exact ⟨a1, fun i hb => detect_of_regs_eq s _ _
      (a2 _ (GPIO_CONFIG_ne_GPIO_INTR_CFG P i j)) hb⟩
  | direction_output j v =>
    simp only [Op.run]
    obtain ⟨a1, a2⟩ := msm_gpio_direction_output_regs P j v s
    exact ⟨a1, fun i hb => detect_of_regs_eq s _ _
      (a2 _ (GPIO_CONFIG_ne_GPIO_INTR_CFG P i j) (GPIO_IN_OUT_ne_GPIO_INTR_CFG P i j)) hb⟩
  | tlmm_config c d =>
    simp only [Op.run]
    obtain ⟨a1, a2⟩ := gpio_tlmm_config_regs P M c d s
    exact ⟨a1, fun i hb => detect_of_regs_eq s _ _
      (a2 _ (GPIO_CONFIG_ne_GPIO_INTR_CFG P i _)) hb⟩
  | install_direct_irq g irq pol =>
    simp only [Op.run]
    by_cases h : g ≥ P.NR_MSM_GPIOS ∨ irq ≥ P.NR_TLMM_SCSS_DIR_CONN_IRQ
    · simp only [msm_gpio_install_direct_irq, h, if_true]
      exact ⟨trivial, fun i hb => hb⟩
    · rw [msm_gpio_install_direct_irq_eq P g irq pol s h]
      refine ⟨rfl, ?_⟩
      intro i hb
      by_cases h4 : GPIO_INTR_CFG P i = DIR_CONN_INTR_CFG_SU P irq
      · apply detect_const _ _ (direct_irq_bits g pol % 4294967296)
        · dsimp only
          rw [h4, Function.update_same]
        · exact detect_direct_irq_bits g pol
      · by_cases h3 : GPIO_INTR_CFG P i = GPIO_INTR_CFG_SU P g
        · apply detect_const _ _ (DC_IRQ_ENABLE ||| TARGET_PROC_NONE)
          · dsimp only
            rw [Function.update_noteq h4, h3, Function.update_same]
          · decide
        · by_cases h2 : GPIO_INTR_CFG P i = GPIO_INTR_CFG P g
          · apply detect_clear_enable s _ _ _ hb
            rw [h2] at h3 h4 ⊢
            simp [Function.update_noteq h3, Function.update_noteq h4]
          · apply detect_of_regs_eq s _ _ _ hb
            simp [Function.update_noteq h2, Function.update_noteq h3,
              Function.update_noteq h4,
              Function.update_noteq (GPIO_CONFIG_ne_GPIO_INTR_CFG P i g)]
  | suspend =>
    simp only [Op.run]
    obtain ⟨_, _, _, r3, _, r5, r6⟩ := suspend_result P s
    refine ⟨r3, ?_⟩
    intro i hb
    by_cases hex : i < P.NR_MSM_GPIOS ∧ s.enabled_irqs i = true ∧ s.wake_irqs i = false
    · exact detect_clear_enable s _ _ (r5 i hex.1 hex.2.1 hex.2.2) hb
    · apply detect_of_regs_eq s _ _ _ hb
      apply r6
      intro k hk he hw h
      have := GPIO_INTR_CFG_inj P h
      subst this
      exact hex ⟨hk, he, hw⟩
  | resume =>
    simp only [Op.run]
    obtain ⟨_, _, _, r3, _, r5, r6⟩ := resume_result P s
    refine ⟨r3, ?_⟩
    intro i hb
    by_cases hex : i < P.NR_MSM_GPIOS ∧ s.enabled_irqs i = true
    · exact detect_set_enable s _ _ (r5 i hex.1 hex.2) hb
    · apply detect_of_regs_eq s _ _ _ hb
      apply r6
      intro k hk he h
      have := GPIO_INTR_CFG_inj P h
      subst this
      exact hex ⟨hk, he⟩

theorem dual_edge_inv_step (P : Platform) (M : CfgMacros) (op : Op) (s : State)
    (h : Nat → Option Nat) (hinv : dual_edge_inv P s h) :
    dual_edge_inv P (op.run P M s) (note_set_type h op) := by
  by_cases hst : ∃ j f, op = Op.set_type j f
  · obtain ⟨j, f, rfl⟩ := hst
    obtain ⟨_, _, _, r3, _, r5, _, r7, _⟩ := set_type_result P s j f
    intro i hi
    simp only [Op.run, note_set_type] at hi ⊢
    rw [r3] at hi
    by_cases hij : i = j
    · subst hij
      by_cases hb : f &&& IRQ_TYPE_EDGE_BOTH = IRQ_TYPE_EDGE_BOTH
      · refine ⟨⟨f, by simp, (both_edges_iff f).mp hb⟩, ?_⟩
        have hne : f &&& IRQ_TYPE_EDGE_BOTH ≠ 0 := by
          rw [hb]
          decide
        rw [r5 _ (by decide), testBit_set_type_word _ _ _ (word_lt s _)]
        simp [hne, INTR_DECT_CTL_BIT, INTR_POL_CTL_BIT]
      · simp [hb, clear_bit] at hi
    · have hd : s.dual_edge_irqs i = true := by
        by_cases hb : f &&& IRQ_TYPE_EDGE_BOTH = IRQ_TYPE_EDGE_BOTH
        · simpa [hb, set_bit, Function.update_noteq hij] using hi
        · simpa [hb, clear_bit, Function.update_noteq hij] using hi
      obtain ⟨b1, b2⟩ := hinv i hd
      refine ⟨by rw [Function.update_noteq hij]; exact b1, ?_⟩
      have hne : GPIO_INTR_CFG P i ≠ GPIO_INTR_CFG P j := fun hc => hij (GPIO_INTR_CFG_inj P hc)
      exact detect_of_regs_eq s _ _ (r7 _ hne) b2
  · have hop : ∀ j f, op ≠ Op.set_type j f := fun j f hc => hst ⟨j, f, hc⟩
    have hnote : note_set_type h op = h := by
      cases op <;> first | rfl | exact absurd rfl (hop _ _)
    obtain ⟨k1, k2⟩ := op_keeps_detect P M op s hop
    intro i hi
    rw [k1] at hi
    obtain ⟨b1, b2⟩ := hinv i hi
    rw [hnote]
    exact ⟨b1, k2 i b2⟩

theorem run_ops_cons (P : Platform) (M : CfgMacros) (op : Op) (ops : List Op) (s : State) :
    run_ops P M (op :: ops) s = run_ops P M ops (op.run P M s) := rfl

theorem run_ops_append_one (P : Platform) (M : CfgMacros) (ops : List Op) (op : Op)
    (s : State) : run_ops P M (ops ++ [op]) s = op.run P M (run_ops P M ops s) := by
  simp [run_ops, List.foldl_append]

theorem dual_edge_inv_run (P : Platform) (M : CfgMacros) :
    ∀ (ops : List Op) (s : State) (h : Nat → Option Nat), dual_edge_inv P s h →
      dual_edge_inv P (run_ops P M ops s) (ops.foldl note_set_type h) := by
  intro ops
  induction ops with
  | nil =>
    intro s h hinv
    exact hinv
  | cons op ops ih =>
    intro s h hinv
    rw [run_ops_cons, List.foldl_cons]
    exact ih _ _ (dual_edge_inv_step P M op s h hinv)

/-- C15: start with `dual_edge_irqs` empty and make any sequence of driver
calls (mask, unmask, ack, set_type, set_wake, suspend, resume,
`msm_gpio_install_direct_irq`, and also the direction and configuration
calls); then a line `i` is in `dual_edge_irqs` only if the most recent
`set_type` on `i` asked for both edges, and then the edge-detect bit of its
interrupt-config register is set; one more `set_type` on `i` with a flow type
that does not ask for both edges takes `i` out. -/
theorem C15_dual_edge_invariant (P : Platform) (M : CfgMacros) (ops : List Op) (s0 : State)
    (h0 : ∀ i, s0.dual_edge_irqs i = false) (i : Nat) :
    ((run_ops P M ops s0).dual_edge_irqs i = true →
        (∃ f, last_set_type ops i = some f ∧ wants_both_edges f) ∧
        ((run_ops P M ops s0).word (GPIO_INTR_CFG P i)).testBit INTR_DECT_CTL_BIT = true) ∧
      (∀ f, ¬ wants_both_edges f →
        (run_ops P M (ops ++ [Op.set_type i f]) s0).dual_edge_irqs i = false) := by
  have hinit : dual_edge_inv P s0 (fun _ => none) := by
    intro j hj
    rw [h0 j] at hj
    exact absurd hj (by decide)
  refine ⟨fun hi => dual_edge_inv_run P M ops s0 _ hinit i hi, ?_⟩
  intro f hf
  rw [run_ops_append_one]
  obtain ⟨_, _, _, r3, _⟩ := set_type_result P (run_ops P M ops s0) i f
  have hb : ¬ (f &&& IRQ_TYPE_EDGE_BOTH = IRQ_TYPE_EDGE_BOTH) :=
    fun hb => hf ((both_edges_iff f).mp hb)
  simp only [Op.run]
  rw [r3]
  simp [hb, clear_bit]

set_option maxRecDepth 16000 in
/-- C15 on msm8x60: after line 5 is set to both edges, unmasked, acknowledged,
and the controller suspended and resumed, line 5 is in `dual_edge_irqs`, its
most recent `set_type` asked for both edges and its edge-detect bit is set. -/
theorem C15_dual_edge_invariant_witness :
    (run_ops msm8x60 packed_cfg dual_edge_scenario low_line_state).dual_edge_irqs 5 = true ∧
      (∃ f, last_set_type dual_edge_scenario 5 = some f ∧ wants_both_edges f) ∧
      ((run_ops msm8x60 packed_cfg dual_edge_scenario low_line_state).word
        (GPIO_INTR_CFG msm8x60 5)).testBit INTR_DECT_CTL_BIT = true :=
  ⟨by decide,
   (C15_dual_edge_invariant msm8x60 packed_cfg dual_edge_scenario low_line_state
      (fun _ => rfl) 5).1 (by decide)⟩

set_option maxRecDepth 16000 in
/-- C14 (code evaluated at the failing input): on msm8x60 after probe, unmask
line 5 (it is in `enabled_irqs` and its `INTR_ENABLE` bit is set), then call
`msm_gpio_install_direct_irq(5, 0, 1)`: the `INTR_ENABLE` bit of line 5 is
clear but line 5 is still in `enabled_irqs`; a suspend and resume after that
set the bit again. -/
theorem C14_direct_irq_leaves_line_enabled :
    ((run_ops msm8x60 packed_cfg [Op.unmask 5] low_line_state).enabled_irqs 5 = true ∧
        ((run_ops msm8x60 packed_cfg [Op.unmask 5] low_line_state).word
          (GPIO_INTR_CFG msm8x60 5)).testBit INTR_ENABLE_BIT = true) ∧
      ((run_ops msm8x60 packed_cfg direct_irq_scenario low_line_state).enabled_irqs 5 = true ∧
        ((run_ops msm8x60 packed_cfg direct_irq_scenario low_line_state).word
          (GPIO_INTR_CFG msm8x60 5)).testBit INTR_ENABLE_BIT = false) ∧
      ((run_ops msm8x60 packed_cfg (direct_irq_scenario ++ [Op.suspend, Op.resume])
          low_line_state).word (GPIO_INTR_CFG msm8x60 5)).testBit INTR_ENABLE_BIT = true := by
  decide

/-! ### The calls that keep `enabled_irqs` in step with the hardware -/

theorem gpio_tlmm_config_spec (P : Platform) (M : CfgMacros) (c d : Nat) (s : State) :
    (M.GPIO_PIN c > P.NR_MSM_GPIOS →
        (gpio_tlmm_config P M c d s).1 = -EINVAL ∧ (gpio_tlmm_config P M c d s).2 = s) ∧
      (M.GPIO_PIN c ≤ P.NR_MSM_GPIOS →
        (gpio_tlmm_config P M c d s).1 = 0 ∧
        events_since s (gpio_tlmm_config P M c d s).2 =
          [Event.writel (tlmm_flags M c % 4294967296) (GPIO_CONFIG P (M.GPIO_PIN c)),
           Event.dsb]) := by
  refine ⟨?_, ?_⟩
  · intro h
    simp [gpio_tlmm_config, h]
  · intro h
    have h' : ¬ (M.GPIO_PIN c > P.NR_MSM_GPIOS) := by omega
    simp [gpio_tlmm_config, h', events_since, writel, dsb, emit]

theorem enable_of_regs_eq (s t : State) (a : Nat) (h : t.regs a = s.regs a) :
    (t.word a).testBit INTR_ENABLE_BIT = (s.word a).testBit INTR_ENABLE_BIT := by
  rw [State.word, h]
  rfl

theorem other_enabled_of_plain (P : Platform) (M : CfgMacros) (op : Op) (s : State)
    (hop : ∀ j, op ≠ Op.mask j ∧ op ≠ Op.unmask j)
    (hplain : op.is_plain P = true) :
    (op.run P M s).enabled_irqs = s.enabled_irqs := by
  cases op with
  | mask j => exact absurd rfl (hop j).1
  | unmask j => exact absurd rfl (hop j).2
  | ack j => exact (msm_gpio_irq_ack_result P s j).1
  | set_type j f => exact (set_type_result P s j f).2.1
  | set_wake j on_ =>
    simp only [Op.run]
    rw [msm_gpio_irq_set_wake_eq]
  | direction_input j =>
    simp [Op.run, msm_gpio_direction_input, clr_gpio_bits, readl, is_live_GPIO_CONFIG, writel,
      dsb, spin_lock_irqsave, spin_unlock_irqrestore, emit]
  | direction_output j v =>
    simp [Op.run, msm_gpio_direction_output, msm_gpio_set, set_gpio_bits, readl,
      is_live_GPIO_CONFIG, writel, dsb, spin_lock_irqsave, spin_unlock_irqrestore, emit]
  | tlmm_config c d =>
    simp only [Op.run]
    by_cases h : M.GPIO_PIN c > P.NR_MSM_GPIOS
    · simp [gpio_tlmm_config, h]
    · simp [gpio_tlmm_config, h, writel, dsb, emit]
  | install_direct_irq g irq pol => simp [Op.is_plain] at hplain
  | suspend => simp [Op.is_plain] at hplain
  | resume => simp [Op.is_plain] at hplain

theorem other_enable_bit_of_plain (P : Platform) (M : CfgMacros) (op : Op) (s : State)
    (hop : ∀ j, op ≠ Op.mask j ∧ op ≠ Op.unmask j)
    (hplain : op.is_plain P = true) (i : Nat) :
    ((op.run P M s).word (GPIO_INTR_CFG P i)).testBit INTR_ENABLE_BIT =
      (s.word (GPIO_INTR_CFG P i)).testBit INTR_ENABLE_BIT := by
  cases op with
  | mask j => exact absurd rfl (hop j).1
  | unmask j => exact absurd rfl (hop j).2
  | ack j =>
    obtain ⟨_, _, a3, a4⟩ := msm_gpio_irq_ack_result P s j
    simp only [Op.run]
    by_cases h1 : GPIO_INTR_CFG P i = GPIO_INTR_CFG P j
    · rw [h1]
      exact a4 _ (by decide)
    · exact enable_of_regs_eq s _ _ (a3 _ (GPIO_INTR_STATUS_ne_GPIO_INTR_CFG P j i).symm h1)
  | set_type j f =>
    obtain ⟨_, _, _, _, _, r5, _, r7, _⟩ := set_type_result P s j f
    simp only [Op.run]
    by_cases h1 : GPIO_INTR_CFG P i = GPIO_INTR_CFG P j
    · rw [h1, r5 _ (by decide), testBit_set_type_word _ _ _ (word_lt s _)]
      simp [INTR_ENABLE_BIT, INTR_POL_CTL_BIT, INTR_DECT_CTL_BIT]
    · exact enable_of_regs_eq s _ _ (r7 _ h1)
  | set_wake j on_ =>
    simp only [Op.run]
    rw [msm_gpio_irq_set_wake_eq]
    rfl
  | direction_input j =>
    exact enable_of_regs_eq s _ _
      ((msm_gpio_direction_input_regs P j s).2 _ (GPIO_CONFIG_ne_GPIO_INTR_CFG P i j))
  | direction_output j v =>
    exact enable_of_regs_eq s _ _
      ((msm_gpio_direction_output_regs P j v s).2 _ (GPIO_CONFIG_ne_GPIO_INTR_CFG P i j)
        (GPIO_IN_OUT_ne_GPIO_INTR_CFG P i j))
  | tlmm_config c d =>
    exact enable_of_regs_eq s _ _
      ((gpio_tlmm_config_regs P M c d s).2 _ (GPIO_CONFIG_ne_GPIO_INTR_CFG P i _))
  | install_direct_irq g irq pol => simp [Op.is_plain] at hplain
  | suspend => simp [Op.is_plain] at hplain
  | resume => simp [Op.is_plain] at hplain

/-- Apart from `msm_gpio_install_direct_irq` (and a suspend in progress), every
call keeps `enabled_irqs` in step with the `INTR_ENABLE` bits, on a controller
of at most 768 lines. -/
theorem enabled_matches_hw_step (P : Platform) (M : CfgMacros) (op : Op) (s : State)
    (hN : P.NR_MSM_GPIOS ≤ 768) (hplain : op.is_plain P = true)
    (hinv : enabled_matches_hw P s) : enabled_matches_hw P (op.run P M s) := by
  by_cases hm : ∃ j, op = Op.mask j
  · obtain ⟨j, rfl⟩ := hm
    have hj : j < P.NR_MSM_GPIOS := by simpa [Op.is_plain] using hplain
    intro i hi
    simp only [Op.run]
    rw [msm_gpio_irq_mask_eq, msm_irq_to_gpio_to_irq]
    by_cases hij : i = j
    · subst hij
      have hw : ({ s with
          regs := Function.update
            (Function.update s.regs (GPIO_INTR_CFG_SU P i) TARGET_PROC_NONE)
            (GPIO_INTR_CFG P i)
            (s.word (GPIO_INTR_CFG P i) &&& not32 (INTR_RAW_STATUS_EN ||| INTR_ENABLE)) } :
            State).word (GPIO_INTR_CFG P i) =
          s.word (GPIO_INTR_CFG P i) &&& not32 (INTR_RAW_STATUS_EN ||| INTR_ENABLE) := by
        simp [State.word, and_mod_word]
      simp only [State.word] at hw ⊢
      rw [hw, testBit_clear_enable _ _ (Nat.mod_lt _ (by norm_num))]
      simp [clear_bit]
    · have h1 : GPIO_INTR_CFG P i ≠ GPIO_INTR_CFG P j := fun hc => hij (GPIO_INTR_CFG_inj P hc)
      have h2 : GPIO_INTR_CFG P i ≠ GPIO_INTR_CFG_SU P j := by
        simp only [GPIO_INTR_CFG, GPIO_INTR_CFG_SU]
        omega
      have hb := hinv i hi
      simp only [State.word] at hb ⊢
      rw [Function.update_noteq h1, Function.update_noteq h2]
      simpa [clear_bit, Function.update_noteq hij] using hb
  · by_cases hu : ∃ j, op = Op.unmask j
    · obtain ⟨j, rfl⟩ := hu
      have hj : j < P.NR_MSM_GPIOS := by simpa [Op.is_plain] using hplain
      intro i hi
      simp only [Op.run]
      rw [msm_gpio_irq_unmask_eq, msm_irq_to_gpio_to_irq]
      by_cases hij : i = j
      · subst hij
        have hne := GPIO_INTR_CFG_SU_ne_GPIO_INTR_CFG P i
        simp only [State.word]
        rw [Function.update_noteq hne.symm, Function.update_same,
          or_mod_word _ _ enable_bits_lt, testBit_set_enable]
        simp [set_bit]
      · have h1 : GPIO_INTR_CFG P i ≠ GPIO_INTR_CFG P j :=
          fun hc => hij (GPIO_INTR_CFG_inj P hc)
        have h2 : GPIO_INTR_CFG P i ≠ GPIO_INTR_CFG_SU P j := by
          simp only [GPIO_INTR_CFG, GPIO_INTR_CFG_SU]
          omega
        have hb := hinv i hi
        simp only [State.word] at hb ⊢
        rw [Function.update_noteq h2, Function.update_noteq h1]
        simpa [set_bit, Function.update_noteq hij] using hb
    · have hop : ∀ j, op ≠ Op.mask j ∧ op ≠ Op.unmask j :=
        fun j => ⟨fun hc => hm ⟨j, hc⟩, fun hc => hu ⟨j, hc⟩⟩
      intro i hi
      rw [other_enabled_of_plain P M op s hop hplain,
        other_enable_bit_of_plain P M op s hop hplain i]
      exact hinv i hi

/-- From a state in which `enabled_irqs` and the `INTR_ENABLE` bits agree, they
agree after every sequence of calls that contains no
`msm_gpio_install_direct_irq`, suspend or resume. -/
theorem enabled_matches_hw_run (P : Platform) (M : CfgMacros)
    (hN : P.NR_MSM_GPIOS ≤ 768) :
    ∀ (ops : List Op) (s : State), (∀ op ∈ ops, op.is_plain P = true) →
      enabled_matches_hw P s → enabled_matches_hw P (run_ops P M ops s) := by
  intro ops
  induction ops with
  | nil =>
    intro s _ hinv
    exact hinv
  | cons op ops ih =>
    intro s hall hinv
    rw [run_ops_cons]
    exact ih _ (fun o ho => hall o (List.mem_cons_of_mem _ ho))
      (enabled_matches_hw_step P M op s hN (hall op (List.mem_cons_self _ _)) hinv)

/-! ### C21 -/

theorem GPIO_CONFIG_ne_GPIO_IN_OUT (P : Platform) (i j : Nat) :
    GPIO_CONFIG P i ≠ GPIO_IN_OUT P j := by
  simp only [GPIO_CONFIG, GPIO_IN_OUT]
  omega

theorem oe_bit_lt : BIT GPIO_OE_BIT < 4294967296 := by decide

theorem out_value_lt (v : Nat) : (if v = 0 then 0 else BIT GPIO_OUT_BIT) < 4294967296 := by
  by_cases h : v = 0
  · simp [h]
  · simp only [h, if_false]
    decide

theorem msm_gpio_direction_input_eq (P : Platform) (i : Nat) (s : State) :
    msm_gpio_direction_input P i s =
      (0, { s with
        regs := Function.update s.regs (GPIO_CONFIG P i)
          (s.word (GPIO_CONFIG P i) &&& not32 (BIT GPIO_OE_BIT)),
        trace := s.trace ++
          [Event.spin_lock_irqsave,
           Event.readl (GPIO_CONFIG P i) (s.word (GPIO_CONFIG P i)),
           Event.writel (s.word (GPIO_CONFIG P i) &&& not32 (BIT GPIO_OE_BIT))
             (GPIO_CONFIG P i),
           Event.dsb, Event.spin_unlock_irqrestore] }) := by
  simp [msm_gpio_direction_input, clr_gpio_bits, readl, is_live_GPIO_CONFIG, writel, dsb,
    spin_lock_irqsave, spin_unlock_irqrestore, emit, State.word, and_mod_word]

theorem msm_gpio_direction_output_eq (P : Platform) (i v : Nat) (s : State) :
    msm_gpio_direction_output P i v s =
      (0, { s with
        regs := Function.update
          (Function.update s.regs (GPIO_IN_OUT P i) (if v ≠ 0 then BIT GPIO_OUT_BIT else 0))
          (GPIO_CONFIG P i) (s.word (GPIO_CONFIG P i) ||| BIT GPIO_OE_BIT),
        trace := s.trace ++
          [Event.spin_lock_irqsave,
           Event.writel (if v ≠ 0 then BIT GPIO_OUT_BIT else 0) (GPIO_IN_OUT P i),
           Event.dsb,
           Event.readl (GPIO_CONFIG P i) (s.word (GPIO_CONFIG P i)),
           Event.writel (s.word (GPIO_CONFIG P i) ||| BIT GPIO_OE_BIT) (GPIO_CONFIG P i),
           Event.dsb, Event.spin_unlock_irqrestore] }) := by
  have hne := GPIO_CONFIG_ne_GPIO_IN_OUT P i i
  have hv := out_value_lt v
  simp [msm_gpio_direction_output, msm_gpio_set, set_gpio_bits, readl, is_live_GPIO_CONFIG,
    writel, dsb, spin_lock_irqsave, spin_unlock_irqrestore, emit, State.word,
    Function.update_noteq hne, or_mod_word _ _ oe_bit_lt, Nat.mod_eq_of_lt hv]

theorem testBit_clear_oe (c : Nat) (hc : c < 4294967296) (j : Nat) :
    (c &&& not32 (BIT GPIO_OE_BIT)).testBit j = (decide (j ≠ GPIO_OE_BIT) && c.testBit j) := by
  rw [Nat.testBit_and, testBit_not32, Nat.mod_eq_of_lt oe_bit_lt, testBit_BIT]
  by_cases h32 : j < 32
  · by_cases h9 : GPIO_OE_BIT = j
    · subst h9
      simp
    · have h9b : j ≠ GPIO_OE_BIT := fun h => h9 h.symm
      simp [h32, h9, h9b]
  · have : c.testBit j = false := testBit_of_lt_word hc (by omega)
    simp [this]

theorem testBit_set_oe (c j : Nat) :
    (c ||| BIT GPIO_OE_BIT).testBit j = (decide (j = GPIO_OE_BIT) || c.testBit j) := by
  rw [Nat.testBit_or, testBit_BIT, Bool.or_comm]
  by_cases h9 : GPIO_OE_BIT = j
  · subst h9
    simp
  · have h9b : j ≠ GPIO_OE_BIT := fun h => h9 h.symm
    simp [h9, h9b]

/-- C21: for every line `i` and prior config word `c`,
`msm_gpio_direction_input(i)` returns 0 and leaves the config register equal to
`c` with bit 9 (output enable) cleared and every other bit as it was;
`msm_gpio_direction_output(i, v)` returns 0 and leaves it equal to `c` with
bit 9 set and every other bit as it was, after having stored the output value
(`BIT(GPIO_OUT_BIT)` for a non-zero `v`, else 0) to the in/out register: the
store to the in/out register comes before the read and the store of the config
register, all inside one lock acquisition.  Neither call changes a bitmap, and
the only registers stored to are the config register of `i` and, for output,
the in/out register of `i`. -/
theorem C21_direction_changes (P : Platform) (i v : Nat) (s : State) :
    ((msm_gpio_direction_input P i s).1 = 0 ∧
      (msm_gpio_direction_input P i s).2.word (GPIO_CONFIG P i) =
        s.word (GPIO_CONFIG P i) &&& not32 (BIT GPIO_OE_BIT) ∧
      (∀ j, ((msm_gpio_direction_input P i s).2.word (GPIO_CONFIG P i)).testBit j =
        (decide (j ≠ GPIO_OE_BIT) && (s.word (GPIO_CONFIG P i)).testBit j)) ∧
      events_since s (msm_gpio_direction_input P i s).2 =
        [Event.spin_lock_irqsave,
         Event.readl (GPIO_CONFIG P i) (s.word (GPIO_CONFIG P i)),
         Event.writel (s.word (GPIO_CONFIG P i) &&& not32 (BIT GPIO_OE_BIT)) (GPIO_CONFIG P i),
         Event.dsb, Event.spin_unlock_irqrestore] ∧
      (msm_gpio_direction_input P i s).2.enabled_irqs = s.enabled_irqs ∧
      (msm_gpio_direction_input P i s).2.wake_irqs = s.wake_irqs ∧
      (msm_gpio_direction_input P i s).2.dual_edge_irqs = s.dual_edge_irqs ∧
      (∀ a, a ≠ GPIO_CONFIG P i → (msm_gpio_direction_input P i s).2.regs a = s.regs a)) ∧
    ((msm_gpio_direction_output P i v s).1 = 0 ∧
      (msm_gpio_direction_output P i v s).2.word (GPIO_CONFIG P i) =
        s.word (GPIO_CONFIG P i) ||| BIT GPIO_OE_BIT ∧
      (∀ j, ((msm_gpio_direction_output P i v s).2.word (GPIO_CONFIG P i)).testBit j =
        (decide (j = GPIO_OE_BIT) || (s.word (GPIO_CONFIG P i)).testBit j)) ∧
      (msm_gpio_direction_output P i v s).2.word (GPIO_IN_OUT P i) =
        (if v ≠ 0 then BIT GPIO_OUT_BIT else 0) ∧
      events_since s (msm_gpio_direction_output P i v s).2 =
        [Event.spin_lock_irqsave,
         Event.writel (if v ≠ 0 then BIT GPIO_OUT_BIT else 0) (GPIO_IN_OUT P i),
         Event.dsb,
         Event.readl (GPIO_CONFIG P i) (s.word (GPIO_CONFIG P i)),
         Event.writel (s.word (GPIO_CONFIG P i) ||| BIT GPIO_OE_BIT) (GPIO_CONFIG P i),
         Event.dsb, Event.spin_unlock_irqrestore] ∧
      (msm_gpio_direction_output P i v s).2.enabled_irqs = s.enabled_irqs ∧
      (msm_gpio_direction_output P i v s).2.wake_irqs = s.wake_irqs ∧
      (msm_gpio_direction_output P i v s).2.dual_edge_irqs = s.dual_edge_irqs ∧
      (∀ a, a ≠ GPIO_CONFIG P i → a ≠ GPIO_IN_OUT P i →
        (msm_gpio_direction_output P i v s).2.regs a = s.regs a)) := by
  have hne := GPIO_CONFIG_ne_GPIO_IN_OUT P i i
  have hwi : (msm_gpio_direction_input P i s).2.word (GPIO_CONFIG P i) =
      s.word (GPIO_CONFIG P i) &&& not32 (BIT GPIO_OE_BIT) := by
    rw [msm_gpio_direction_input_eq]
    simp [State.word, and_mod_word]
  have hwo : (msm_gpio_direction_output P i v s).2.word (GPIO_CONFIG P i) =
      s.word (GPIO_CONFIG P i) ||| BIT GPIO_OE_BIT := by
    rw [msm_gpio_direction_output_eq]
    simp [State.word, or_mod_word _ _ oe_bit_lt]
  refine ⟨⟨?_, hwi, ?_, ?_, ?_, ?_, ?_, ?_⟩, ⟨?_, hwo, ?_, ?_, ?_, ?_, ?_, ?_, ?_⟩⟩
  · rw [msm_gpio_direction_input_eq]
  · intro j
    rw [hwi, testBit_clear_oe _ (word_lt s _)]
  · rw [msm_gpio_direction_input_eq]
    simp [events_since]
  · rw [msm_gpio_direction_input_eq]
  · rw [msm_gpio_direction_input_eq]
  · rw [msm_gpio_direction_input_eq]
  · intro a ha
    rw [msm_gpio_direction_input_eq]
    simp [Function.update_noteq ha]
  · rw [msm_gpio_direction_output_eq]
  · intro j
    rw [hwo, testBit_set_oe]
  · rw [msm_gpio_direction_output_eq]
    have hv := out_value_lt v
    simp [State.word, Function.update_noteq hne.symm, Nat.mod_eq_of_lt hv]
  · rw [msm_gpio_direction_output_eq]
    simp [events_since]
  · rw [msm_gpio_direction_output_eq]
  · rw [msm_gpio_direction_output_eq]
  · rw [msm_gpio_direction_output_eq]
  · intro a ha hb
    rw [msm_gpio_direction_output_eq]
    simp [Function.update_noteq ha, Function.update_noteq hb]

/-! ### C22 -/

theorem field_mask_eq (width : Nat) (hw : width ≤ 32) :
    ((1 <<< width) - 1) % 4294967296 = 2 ^ width - 1 := by
  rw [Nat.one_shiftLeft]
  apply Nat.mod_eq_of_lt
  have h1 : 2 ^ width ≤ 2 ^ 32 := Nat.pow_le_pow_right (by norm_num) hw
  have h2 : 0 < 2 ^ width := Nat.two_pow_pos width
  have h3 : (2 : Nat) ^ 32 = 4294967296 := by norm_num
  omega

theorem testBit_field_write (r val off width j : Nat) (hr : r < 4294967296)
    (hw : off + width ≤ 32) :
    (((r &&& not32 ((((1 <<< width) - 1) % 4294967296) <<< off)) |||
        ((val &&& (((1 <<< width) - 1) % 4294967296)) <<< off) % 4294967296) %
          4294967296).testBit j =
      if off ≤ j ∧ j < off + width then (val % 2 ^ width).testBit (j - off)
      else r.testBit j := by
  rw [field_mask_eq width (by omega), testBit_mod_word, Nat.testBit_or, Nat.testBit_and,
    testBit_not32, testBit_mod_word, testBit_mod_word, Nat.testBit_shiftLeft,
    Nat.testBit_shiftLeft, Nat.testBit_and, Nat.testBit_two_pow_sub_one,
    Nat.testBit_mod_two_pow]
  by_cases h32 : j < 32
  · by_cases h1 : off ≤ j
    · by_cases h2 : j - off < width
      · have h3 : j < off + width := by omega
        simp [h32, h1, h2, h3]
      · have h3 : ¬ j < off + width := by omega
        simp [h32, h1, h2, h3]
    · have h3 : ¬ j ≥ off := h1
      simp [h32, h1, h3]
  · have hrj : r.testBit j = false := testBit_of_lt_word hr (by omega)
    have h3 : ¬ (off ≤ j ∧ j < off + width) := by omega
    simp [h32, hrj, h3]

/-- The word `msm_tlmm_set_field` stores when it has read `r`. -/
theorem msm_tlmm_set_field_eq (P : Platform) (configs : List tlmm_field_cfg)
    (id width val : Nat) (s : State) (cfg : tlmm_field_cfg)
    (h : configs.get? id = some cfg) :
    msm_tlmm_set_field P configs id width val s =
      some { s with
        regs := Function.update s.regs (P.MSM_TLMM_BASE + cfg.reg)
          ((((readl P (P.MSM_TLMM_BASE + cfg.reg) s).1 &&&
              not32 ((((1 <<< width) - 1) % 4294967296) <<< cfg.off)) |||
            ((val &&& (((1 <<< width) - 1) % 4294967296)) <<< cfg.off) % 4294967296) %
              4294967296),
        tick := (readl P (P.MSM_TLMM_BASE + cfg.reg) s).2.tick,
        trace := s.trace ++
          [Event.spin_lock_irqsave,
           Event.readl (P.MSM_TLMM_BASE + cfg.reg) (readl P (P.MSM_TLMM_BASE + cfg.reg) s).1,
           Event.writel
             ((((readl P (P.MSM_TLMM_BASE + cfg.reg) s).1 &&&
                 not32 ((((1 <<< width) - 1) % 4294967296) <<< cfg.off)) |||
               ((val &&& (((1 <<< width) - 1) % 4294967296)) <<< cfg.off) % 4294967296) %
                 4294967296)
             (P.MSM_TLMM_BASE + cfg.reg),
           Event.dsb, Event.spin_unlock_irqrestore] } := by
  simp only [msm_tlmm_set_field, h]
  by_cases hl : is_live P (P.MSM_TLMM_BASE + cfg.reg) = true
  · simp [readl, hl, writel, dsb, spin_lock_irqsave, spin_unlock_irqrestore, emit]
  · simp [readl, hl, writel, dsb, spin_lock_irqsave, spin_unlock_irqrestore, emit,
      State.word]

theorem readl_fst_of_not_live (P : Platform) (a : Nat) (s : State)
    (hl : is_live P a = false) : (readl P a s).1 = s.word a := by
  simp [readl, hl]

theorem msm_tlmm_set_field_spec (P : Platform) (configs : List tlmm_field_cfg)
    (id width val : Nat) (s : State) (cfg : tlmm_field_cfg)
    (h : configs.get? id = some cfg) (hw : cfg.off + width ≤ 32)
    (hl : is_live P (P.MSM_TLMM_BASE + cfg.reg) = false) :
    ∃ t, msm_tlmm_set_field P configs id width val s = some t ∧
      field_written (P.MSM_TLMM_BASE + cfg.reg) cfg.off width val s t := by
  have hr := readl_fst_of_not_live P (P.MSM_TLMM_BASE + cfg.reg) s hl
  have heq := msm_tlmm_set_field_eq P configs id width val s cfg h
  rw [hr] at heq
  refine ⟨_, heq, ?_, ?_, ?_, ?_, ?_, ?_⟩
  · intro j
    simp only [State.word, Function.update_same, Nat.mod_mod]
    exact testBit_field_write _ val cfg.off width j (Nat.mod_lt _ (by norm_num)) hw
  · intro b hb
    simp [Function.update_noteq hb]
  · rfl
  · rfl
  · rfl
  · simp [events_since, State.word]

theorem is_live_SDC4 (P : Platform) : is_live P (P.MSM_TLMM_BASE + SDC4_HDRV_PULL_CTL) = false := by
  have h : (P.MSM_TLMM_BASE + SDC4_HDRV_PULL_CTL - (P.MSM_TLMM_BASE + 0x1000)) % 0x10 = 0 := by
    simp only [SDC4_HDRV_PULL_CTL]
    omega
  simp [is_live, h]

theorem is_live_SDC3 (P : Platform) (hP : sdc_regs_past_lines P) :
    is_live P (P.MSM_TLMM_BASE + SDC3_HDRV_PULL_CTL) = false := by
  have h : ¬ (P.MSM_TLMM_BASE + SDC3_HDRV_PULL_CTL <
      P.MSM_TLMM_BASE + 0x1000 + 0x10 * P.NR_MSM_GPIOS) := by
    simp only [sdc_regs_past_lines, SDC4_HDRV_PULL_CTL] at hP
    simp only [SDC3_HDRV_PULL_CTL]
    omega
  simp [is_live, h]

theorem hdrv_cfg_facts (P : Platform) (hP : sdc_regs_past_lines P) (tgt : Nat)
    (cfg : tlmm_field_cfg) (h : tlmm_hdrv_cfgs.get? tgt = some cfg) :
    cfg.off + 3 ≤ 32 ∧ is_live P (P.MSM_TLMM_BASE + cfg.reg) = false := by
  have hm : cfg ∈ tlmm_hdrv_cfgs := List.get?_mem h
  have h4 := is_live_SDC4 P
  have h3 := is_live_SDC3 P hP
  simp only [tlmm_hdrv_cfgs, List.mem_cons, List.mem_singleton, List.not_mem_nil, or_false] at hm
  rcases hm with rfl | rfl | rfl | rfl | rfl | rfl
  · exact ⟨by decide, h4⟩
  · exact ⟨by decide, h4⟩
  · exact ⟨by decide, h4⟩
  · exact ⟨by decide, h3⟩
  · exact ⟨by decide, h3⟩
  · exact ⟨by decide, h3⟩

theorem pull_cfg_facts (P : Platform) (hP : sdc_regs_past_lines P) (tgt : Nat)
    (cfg : tlmm_field_cfg) (h : tlmm_pull_cfgs.get? tgt = some cfg) :
    cfg.off + 2 ≤ 32 ∧ is_live P (P.MSM_TLMM_BASE + cfg.reg) = false := by
  have hm : cfg ∈ tlmm_pull_cfgs := List.get?_mem h
  have h4 := is_live_SDC4 P
  have h3 := is_live_SDC3 P hP
  simp only [tlmm_pull_cfgs, List.mem_cons, List.mem_singleton, List.not_mem_nil, or_false] at hm
  rcases hm with rfl | rfl | rfl | rfl
  · exact ⟨by decide, h4⟩
  · exact ⟨by decide, h4⟩
  · exact ⟨by decide, h3⟩
  · exact ⟨by decide, h3⟩

/-- C22: on a platform whose SDC drive/pull registers lie past the per-line
windows, the drive-strength table has six targets and the pull table four, and
for every target of the drive-strength table (field width 3) resp. of the pull
table (width 2), every state and every value `v`, `msm_tlmm_set_hdrive` resp.
`msm_tlmm_set_pull` returns, and afterwards the register the table entry names
holds its prior word `r` with the bits `[off, off + width)` replaced by
`v mod 2^width` and every bit outside that range unchanged; no other register
and no bitmap is written, and the call is one read (which returns `r`) and one
store of that register inside the lock. -/
theorem C22_tlmm_field_write (P : Platform) (v : Nat) (s : State)
    (hP : sdc_regs_past_lines P) :
    tlmm_hdrv_cfgs.length = 6 ∧ tlmm_pull_cfgs.length = 4 ∧
    (∀ tgt cfg, tlmm_hdrv_cfgs.get? tgt = some cfg →
      ∃ t, msm_tlmm_set_hdrive P tgt v s = some t ∧
        field_written (P.MSM_TLMM_BASE + cfg.reg) cfg.off 3 v s t) ∧
    (∀ tgt cfg, tlmm_pull_cfgs.get? tgt = some cfg →
      ∃ t, msm_tlmm_set_pull P tgt v s = some t ∧
        field_written (P.MSM_TLMM_BASE + cfg.reg) cfg.off 2 v s t) := by
  refine ⟨rfl, rfl, ?_, ?_⟩
  · intro tgt cfg h
    obtain ⟨hw, hl⟩ := hdrv_cfg_facts P hP tgt cfg h
    exact msm_tlmm_set_field_spec P tlmm_hdrv_cfgs tgt 3 v s cfg h hw hl
  · intro tgt cfg h
    obtain ⟨hw, hl⟩ := pull_cfg_facts P hP tgt cfg h
    exact msm_tlmm_set_field_spec P tlmm_pull_cfgs tgt 2 v s cfg h hw hl

/-- C22 at the SDC3 command pull (target 2, offset 11) of the msm8x60 with
the SDC3 register at `0x1C0`: writing 3 leaves `0x19C0`, the pull field set
and the drive-strength bits 6..8 kept. -/
theorem C22_tlmm_field_write_witness :
    sdc_regs_past_lines msm8x60 ∧
    tlmm_pull_cfgs.get? 2 = some { reg := SDC3_HDRV_PULL_CTL, off := 11 } ∧
    sdc3_scenario.word (msm8x60.MSM_TLMM_BASE + SDC3_HDRV_PULL_CTL) = 0x1C0 ∧
    (∃ t, msm_tlmm_set_pull msm8x60 2 3 sdc3_scenario = some t ∧
      field_written (msm8x60.MSM_TLMM_BASE + SDC3_HDRV_PULL_CTL) 11 2 3 sdc3_scenario t) ∧
    (msm_tlmm_set_pull msm8x60 2 3 sdc3_scenario).map
        (fun t => t.word (msm8x60.MSM_TLMM_BASE + SDC3_HDRV_PULL_CTL)) = some 0x19C0 :=
  ⟨by decide, rfl, by decide,
   (C22_tlmm_field_write msm8x60 3 sdc3_scenario (by decide)).2.2.2 2 _ rfl, by decide⟩

/-! ### C23 -/

theorem BETWEEN_iff (c st sz : Nat) : BETWEEN c st sz = true ↔ in_window c st sz := by
  simp [BETWEEN, in_window]

theorem XLATE_eq (c pst vst sz : Nat) (h : in_window c vst sz) (hp : pst + sz ≤ 4294967296) :
    XLATE c pst vst = pst + (c - vst) := by
  obtain ⟨h1, h2⟩ := h
  unfold XLATE
  omega

theorem secure_writel_event_eq (P : Platform) (v c : Nat) (hfit : windows_fit P) :
    secure_writel_event P v c =
      match secure_phys P c with
      | some phys => Event.smc_io_write (v % 4294967296) phys
      | none => Event.writel (v % 4294967296) c := by
  obtain ⟨_, hm, _, ht, _, hl⟩ := hfit
  unfold secure_writel_event secure_phys
  by_cases h1 : in_window c P.MSM_MMSS_CLK_CTL_BASE P.MSM_MMSS_CLK_CTL_SIZE
  · rw [if_pos ((BETWEEN_iff _ _ _).2 h1), if_pos h1, XLATE_eq _ _ _ _ h1 hm]
  · rw [if_neg (fun h => h1 ((BETWEEN_iff _ _ _).1 h)), if_neg h1]
    by_cases h2 : in_window c P.MSM_TCSR_BASE P.MSM_TCSR_SIZE
    · rw [if_pos ((BETWEEN_iff _ _ _).2 h2), if_pos h2, XLATE_eq _ _ _ _ h2 ht]
    · rw [if_neg (fun h => h2 ((BETWEEN_iff _ _ _).1 h)), if_neg h2]
      by_cases h3 : in_window c P.MSM_TLMM_BASE P.MSM_TLMM_SIZE
      · rw [if_pos ((BETWEEN_iff _ _ _).2 h3), if_pos h3, XLATE_eq _ _ _ _ h3 hl]
      · rw [if_neg (fun h => h3 ((BETWEEN_iff _ _ _).1 h)), if_neg h3]

theorem secure_readl_smc_events (P : Platform) (addr c : Nat) (s : State) :
    events_since s (secure_readl_smc P addr c s).2 =
        [Event.smc_io_read addr (secure_readl_smc P addr c s).1] ∧
      (secure_readl_smc P addr c s).1 = (readl P c s).1 ∧
      (secure_readl_smc P addr c s).2.regs = s.regs := by
  unfold secure_readl_smc readl
  by_cases h : is_live P c = true
  · simp [h, events_since]
  · simp [h, events_since]

theorem readl_events (P : Platform) (c : Nat) (s : State) :
    events_since s (readl P c s).2 = [Event.readl c (readl P c s).1] ∧
      (readl P c s).2.regs = s.regs := by
  unfold readl
  by_cases h : is_live P c = true
  · simp [h, events_since]
  · simp [h, events_since]

theorem secure_readl_events (P : Platform) (c : Nat) (s : State) (hfit : windows_fit P) :
    events_since s (secure_readl P c s).2 =
        [match secure_phys P c with
         | some phys => Event.smc_io_read phys (secure_readl P c s).1
         | none => Event.readl c (secure_readl P c s).1] ∧
      (secure_readl P c s).1 = (readl P c s).1 ∧
      (secure_readl P c s).2.regs = s.regs := by
  obtain ⟨_, hm, _, ht, _, hl⟩ := hfit
  unfold secure_readl secure_phys
  by_cases h1 : in_window c P.MSM_MMSS_CLK_CTL_BASE P.MSM_MMSS_CLK_CTL_SIZE
  · rw [if_pos ((BETWEEN_iff _ _ _).2 h1), if_pos h1, XLATE_eq _ _ _ _ h1 hm]
    exact secure_readl_smc_events P _ c s
  · rw [if_neg (fun h => h1 ((BETWEEN_iff _ _ _).1 h)), if_neg h1]
    by_cases h2 : in_window c P.MSM_TCSR_BASE P.MSM_TCSR_SIZE
    · rw [if_pos ((BETWEEN_iff _ _ _).2 h2), if_pos h2, XLATE_eq _ _ _ _ h2 ht]
      exact secure_readl_smc_events P _ c s
    · rw [if_neg (fun h => h2 ((BETWEEN_iff _ _ _).1 h)), if_neg h2]
      by_cases h3 : in_window c P.MSM_TLMM_BASE P.MSM_TLMM_SIZE
      · rw [if_pos ((BETWEEN_iff _ _ _).2 h3), if_pos h3, XLATE_eq _ _ _ _ h3 hl]
        exact secure_readl_smc_events P _ c s
      · rw [if_neg (fun h => h3 ((BETWEEN_iff _ _ _).1 h)), if_neg h3]
        exact ⟨(readl_events P c s).1, rfl, (readl_events P c s).2⟩

/-- C23: on a platform whose three protected windows and their physical
images lie inside the 32-bit address space, for every address `c` and value
`v`, `secure_writel(v, c)` makes exactly one store: a secure-monitor store of
`v` to `phys_start + (c - virt_start)` when `c` lies in the MMSS clock-control,
TCSR or TLMM window (the first of these, in that order, that contains `c`),
and a plain `writel` of `v` to `c` otherwise; the register at `c` then holds
`v` and no other register has changed.  `secure_readl(c)` makes exactly one
read, through the secure monitor at that same physical address for exactly
those addresses and a plain `readl` of `c` otherwise, and stores nothing. -/
theorem C23_secure_io_routing (P : Platform) (v c : Nat) (s : State) (hfit : windows_fit P) :
    events_since s (secure_writel P v c s) =
        [match secure_phys P c with
         | some phys => Event.smc_io_write (v % 4294967296) phys
         | none => Event.writel (v % 4294967296) c] ∧
      (secure_writel P v c s).word c = v % 4294967296 ∧
      (∀ a, a ≠ c → (secure_writel P v c s).regs a = s.regs a) ∧
      events_since s (secure_readl P c s).2 =
        [match secure_phys P c with
         | some phys => Event.smc_io_read phys (secure_readl P c s).1
         | none => Event.readl c (secure_readl P c s).1] ∧
      (secure_readl P c s).1 = (readl P c s).1 ∧
      (secure_readl P c s).2.regs = s.regs := by
  refine ⟨?_, ?_, ?_, secure_readl_events P c s hfit⟩
  · rw [secure_writel_eq, ← secure_writel_event_eq P v c hfit]
    simp [events_since]
  · rw [secure_writel_eq]
    simp [State.word]
  · intro a ha
    rw [secure_writel_eq]
    simp [Function.update_noteq ha]

/-- C23 on the msm8x60 at the interrupt-owner register of line 5, which lies
in the TLMM window and in neither of the two windows tested before it. -/
theorem C23_secure_io_routing_witness :
    windows_fit msm8x60 ∧
    secure_phys msm8x60 (GPIO_INTR_CFG_SU msm8x60 5) = some 0x00800414 ∧
    events_since (probed (fun _ _ => 0))
        (secure_writel msm8x60 4 (GPIO_INTR_CFG_SU msm8x60 5) (probed (fun _ _ => 0))) =
      [Event.smc_io_write 4 0x00800414] ∧
    events_since (probed (fun _ _ => 0))
        (secure_writel msm8x60 4 (GPIO_INTR_CFG_SU msm8x60 5) (probed (fun _ _ => 0))) =
      [match secure_phys msm8x60 (GPIO_INTR_CFG_SU msm8x60 5) with
       | some phys => Event.smc_io_write (4 % 4294967296) phys
       | none => Event.writel (4 % 4294967296) (GPIO_INTR_CFG_SU msm8x60 5)] :=
  ⟨by decide, by decide, by decide,
   (C23_secure_io_routing msm8x60 4 (GPIO_INTR_CFG_SU msm8x60 5) (probed (fun _ _ => 0))
     (by decide)).1⟩

/-! ### C24 -/

theorem pass_succeeds_after_pass (P : Platform) (g : Nat) (s : State) (k : Nat) :
    pass_succeeds P g (dual_edge_body P g s).st k ↔ pass_succeeds P g s (k + 1) := by
  unfold pass_succeeds
  rw [in_bit_after_pass, in_bit_after_pass, status_bit_after_pass]
  have e1 : 3 * k + 3 = 3 * (k + 1) := by ring
  have e2 : 3 * k + 1 + 3 = 3 * (k + 1) + 1 := by ring
  have e3 : 3 * k + 2 + 3 = 3 * (k + 1) + 2 := by ring
  rw [e1, e2, e3]

theorem pass_events_length (P : Platform) (g : Nat) (s : State) :
    (pass_events P g s).length = 5 := rfl

theorem dual_edge_loop_first_success (P : Platform) (g : Nat) :
    ∀ (k n : Nat) (s : State), k ≤ n → pass_succeeds P g s k →
      (∀ j, j < k → ¬ pass_succeeds P g s j) →
      ∃ evs, (dual_edge_loop P g n s).trace =
          s.trace ++ (evs ++ [Event.msm_mpm_set_irq_type (msm_gpio_to_irq P g)
            (if in_bit P g s (3 * k) ≠ 0 then IRQF_TRIGGER_FALLING
             else IRQF_TRIGGER_RISING)]) ∧
        (∀ e ∈ evs, is_mmio e = true) ∧
        (polarity_writes P g evs).length = k + 1 ∧
        evs.length = 5 * (k + 1) := by
  intro k
  induction k with
  | zero =>
    intro n s _ hs _
    have h : status_bit P g s 2 ≠ 0 ∨ in_bit P g s 0 = in_bit P g s 1 := by
      simpa [pass_succeeds] using hs
    refine ⟨pass_events P g s, ?_, is_mmio_pass_events P g s, ?_, ?_⟩
    · rw [dual_edge_loop_done P g n s h, dual_edge_body_eq]
      by_cases hv : in_bit P g s 0 = 0 <;> simp [dual_edge_out, emit, hv]
    · exact polarity_writes_pass P g s
    · rfl
  | succ k ih =>
    intro n s hn hs hf
    obtain ⟨m, rfl⟩ : ∃ m, n = m + 1 := ⟨n - 1, by omega⟩
    have h0 : ¬ (status_bit P g s 2 ≠ 0 ∨ in_bit P g s 0 = in_bit P g s 1) := by
      have := hf 0 (Nat.succ_pos k)
      simpa [pass_succeeds] using this
    have hs' : pass_succeeds P g (dual_edge_body P g s).st k :=
      (pass_succeeds_after_pass P g s k).2 hs
    have hf' : ∀ j, j < k → ¬ pass_succeeds P g (dual_edge_body P g s).st j := by
      intro j hj hc
      exact hf (j + 1) (by omega) ((pass_succeeds_after_pass P g s j).1 hc)
    obtain ⟨evs, ht, hm, hp, hl⟩ := ih m (dual_edge_body P g s).st (by omega) hs' hf'
    refine ⟨pass_events P g s ++ evs, ?_, ?_, ?_, ?_⟩
    · rw [dual_edge_loop_retry P g m s h0, ht, trace_after_pass, in_bit_after_pass]
      have e1 : 3 * k + 3 = 3 * (k + 1) := by ring
      rw [e1]
      simp only [List.append_assoc]
    · intro e he
      rcases List.mem_append.mp he with h1 | h1
      · exact is_mmio_pass_events P g s e h1
      · exact hm e h1
    · have := polarity_writes_pass P g s
      simp only [polarity_writes, List.filter_append, List.length_append] at this hp ⊢
      omega
    · rw [List.length_append, pass_events_length, hl]
      ring

theorem unstable_of_no_success (P : Platform) (g : Nat) (s : State) (n : Nat)
    (h : ∀ j, j ≤ n → ¬ pass_succeeds P g s j) : unstable P g s n := by
  intro k hk
  have := h k hk
  unfold pass_succeeds at this
  constructor
  · intro hc
    exact this (Or.inr hc)
  · by_contra hc
    exact this (Or.inl hc)

theorem mpm_calls_of_mmio (evs : List Event) (h : ∀ e ∈ evs, is_mmio e = true) :
    mpm_calls evs = [] := by
  induction evs with
  | nil => rfl
  | cons e es ih =>
    have he := h e (List.mem_cons_self _ _)
    have hes := ih (fun x hx => h x (List.mem_cons_of_mem _ hx))
    rw [mpm_calls_cons, hes]
    cases e <;> simp [is_mmio] at he <;> simp [is_mpm_call]

/-- C24: `msm_gpio_update_dual_edge_pos` returns for every behaviour of the
pin environment (the model is a total function).  If pass `k` (counted from 0,
with `k ≤ 100`, so among the passes the loop bound allows) is the first whose
status read shows the raw-status bit set or whose two input reads agree, the
call makes exactly `k + 1` passes (five register accesses each, one polarity
store each), then exactly one call to the MPM coordinator, which is its last
event, and returns: it has made another pass only after passes in which the
status bit read clear and the two reads differed.  If no pass among the first
101 succeeds, it makes 101 passes and no coordinator call. -/
theorem C24_rearm_stops_at_first_success (P : Platform) (g : Nat) (s : State) :
    (∀ k, k ≤ 100 → pass_succeeds P g s k → (∀ j, j < k → ¬ pass_succeeds P g s j) →
      ∃ evs, events_since s (msm_gpio_update_dual_edge_pos P g s) =
          evs ++ [Event.msm_mpm_set_irq_type (msm_gpio_to_irq P g)
            (if in_bit P g s (3 * k) ≠ 0 then IRQF_TRIGGER_FALLING
             else IRQF_TRIGGER_RISING)] ∧
        (∀ e ∈ evs, is_mmio e = true) ∧
        (polarity_writes P g evs).length = k + 1 ∧
        evs.length = 5 * (k + 1) ∧
        mpm_calls (events_since s (msm_gpio_update_dual_edge_pos P g s)) =
          [Event.msm_mpm_set_irq_type (msm_gpio_to_irq P g)
            (if in_bit P g s (3 * k) ≠ 0 then IRQF_TRIGGER_FALLING
             else IRQF_TRIGGER_RISING)]) ∧
    ((∀ j, j ≤ 100 → ¬ pass_succeeds P g s j) →
      (polarity_writes P g (events_since s (msm_gpio_update_dual_edge_pos P g s))).length =
          101 ∧
        mpm_calls (events_since s (msm_gpio_update_dual_edge_pos P g s)) = []) := by
  refine ⟨?_, ?_⟩
  · intro k hk hs hf
    obtain ⟨evs, ht, hm, hp, hl⟩ := dual_edge_loop_first_success P g k 100 s hk hs hf
    have hev := events_since_append s (msm_gpio_update_dual_edge_pos P g s) _ ht
    refine ⟨evs, hev, hm, hp, hl, ?_⟩
    rw [hev]
    have h0 := mpm_calls_of_mmio evs hm
    simp only [mpm_calls, List.filter_append] at h0 ⊢
    rw [h0]
    simp [is_mpm_call]
  · intro h
    obtain ⟨evs, ht, hp, hm, _⟩ :=
      dual_edge_loop_unstable P g 100 s (unstable_of_no_success P g s 100 h)
    have hev := events_since_append s (msm_gpio_update_dual_edge_pos P g s) _ ht
    rw [hev]
    exact ⟨hp, hm⟩


/-- C24 on msm8x60 line 5 with an input that falls during the first pass
and then stays low: pass 0 fails, pass 1 is the first to succeed, so the call
makes two passes and then tells the MPM the rising edge. -/
theorem C24_rearm_stops_at_first_success_witness :
    ¬ pass_succeeds msm8x60 5 (probed settling_line) 0 ∧
    pass_succeeds msm8x60 5 (probed settling_line) 1 ∧
    in_bit msm8x60 5 (probed settling_line) (3 * 1) = 0 ∧
    ∃ evs, events_since (probed settling_line)
          (msm_gpio_update_dual_edge_pos msm8x60 5 (probed settling_line)) =
          evs ++ [Event.msm_mpm_set_irq_type (msm_gpio_to_irq msm8x60 5)
            (if in_bit msm8x60 5 (probed settling_line) (3 * 1) ≠ 0 then IRQF_TRIGGER_FALLING
             else IRQF_TRIGGER_RISING)] ∧
        (∀ e ∈ evs, is_mmio e = true) ∧
        (polarity_writes msm8x60 5 evs).length = 1 + 1 ∧
        evs.length = 5 * (1 + 1) ∧
        mpm_calls (events_since (probed settling_line)
            (msm_gpio_update_dual_edge_pos msm8x60 5 (probed settling_line))) =
          [Event.msm_mpm_set_irq_type (msm_gpio_to_irq msm8x60 5)
            (if in_bit msm8x60 5 (probed settling_line) (3 * 1) ≠ 0 then IRQF_TRIGGER_FALLING
             else IRQF_TRIGGER_RISING)] :=
  ⟨by decide, by decide, by decide,
   (C24_rearm_stops_at_first_success msm8x60 5 (probed settling_line)).1 1 (by decide)
     (by decide) (by decide)⟩

/-! ### C25 -/

set_option maxRecDepth 8000 in
/-- C25 (where the code departs from it): on the msm8x60, with line 5
configured for both edges and its input high, `msm_gpio_irq_ack` stores to the
interrupt-status register of line 5 and then runs the dual-edge re-arm, which
reads the in/out register, reads and rewrites the interrupt-config register
and reads the in/out and interrupt-status registers, without `tlmm_lock` ever
being acquired: the trace of the call has eight events, six of them register
accesses, and no acquire or release among them.  `msm_gpio_get` likewise reads
the in/out register with no lock taken. -/
theorem C25_ack_rearm_outside_lock :
    rearm_scenario.dual_edge_irqs 5 = true ∧
    events_since rearm_scenario
        (msm_gpio_irq_ack msm8x60 (msm_gpio_to_irq msm8x60 5) rearm_scenario) =
      [Event.writel 1 (GPIO_INTR_STATUS msm8x60 5),
       Event.readl (GPIO_IN_OUT msm8x60 5) 1,
       Event.readl (GPIO_INTR_CFG msm8x60 5) 4,
       Event.writel 4 (GPIO_INTR_CFG msm8x60 5),
       Event.readl (GPIO_IN_OUT msm8x60 5) 1,
       Event.readl (GPIO_INTR_STATUS msm8x60 5) 0,
       Event.msm_mpm_set_irq_type (msm_gpio_to_irq msm8x60 5) IRQF_TRIGGER_FALLING,
       Event.dsb] ∧
    accesses_locked false (events_since rearm_scenario
        (msm_gpio_irq_ack msm8x60 (msm_gpio_to_irq msm8x60 5) rearm_scenario)) = false ∧
    events_since rearm_scenario (msm_gpio_get msm8x60 5 rearm_scenario).2 =
      [Event.readl (GPIO_IN_OUT msm8x60 5) 1, Event.dsb] ∧
    accesses_locked false
      (events_since rearm_scenario (msm_gpio_get msm8x60 5 rearm_scenario).2) = false := by
  decide

/-! ### C26 -/

theorem direct_irq_bits_eq (g p : Nat) (hg : g < 256) :
    direct_irq_bits g p = 4 + 8 * g + (if p ≠ 0 then 2048 else 0) := by
  have h1 : TARGET_PROC_SCORPION ||| (g <<< 3) = 4 + 8 * g := by
    have h := Nat.mul_add_lt_is_or (i := 3) (b := 4) (by norm_num) g
    simp only [TARGET_PROC_SCORPION]
    rw [Nat.shiftLeft_eq, Nat.or_comm, Nat.mul_comm g, ← h]
    omega
  have h2 : (4 + 8 * g) ||| DC_POLARITY_HI = 4 + 8 * g + 2048 := by
    have h := Nat.mul_add_lt_is_or (i := 11) (b := 4 + 8 * g) (by norm_num; omega) 1
    rw [Nat.mul_one] at h
    have hd : DC_POLARITY_HI = 2 ^ 11 := by decide
    rw [hd, Nat.or_comm, ← h]
    omega
  unfold direct_irq_bits
  by_cases hp : p = 0
  · simp [hp, h1]
  · simp only [ne_eq, hp, not_false_eq_true, if_true, h1, h2]

theorem direct_irq_bits_word (P : Platform) (g irq p : Nat) (s : State)
    (hN : P.NR_MSM_GPIOS ≤ 256) (hg : g < P.NR_MSM_GPIOS)
    (hirq : irq < P.NR_TLMM_SCSS_DIR_CONN_IRQ) :
    (msm_gpio_install_direct_irq P g irq p s).2.word (DIR_CONN_INTR_CFG_SU P irq) =
      direct_irq_bits g p := by
  have h : ¬ (g ≥ P.NR_MSM_GPIOS ∨ irq ≥ P.NR_TLMM_SCSS_DIR_CONN_IRQ) := by omega
  have hb := direct_irq_bits_eq g p (by omega)
  have hlt : direct_irq_bits g p < 4294967296 := by
    rw [hb]
    split <;> omega
  rw [msm_gpio_install_direct_irq_eq P g irq p s h]
  simp [State.word, Nat.mod_eq_of_lt hlt]

/-- C26: for every gpio below `NR_MSM_GPIOS` on a controller of at most 256
lines, every irq below `NR_TLMM_SCSS_DIR_CONN_IRQ` and every polarity argument
`p`, `msm_gpio_install_direct_irq` returns 0 and hands the word
`direct_irq_bits gpio p` to `secure_writel` for the direct-connect register of
`irq`, which then holds it.  The word decodes uniquely: its low three bits are
`TARGET_PROC_SCORPION` (4), bits 3..10 are `gpio`, bit 11 (`DC_POLARITY_HI`) is
set iff `p` is non-zero, and no higher bit is set; the shifted gpio never
reaches the polarity bit; and two calls store the same word only if they name
the same gpio and agree on whether the polarity is non-zero. -/
theorem C26_direct_irq_route_encoding (P : Platform) (g irq p : Nat) (s : State)
    (hN : P.NR_MSM_GPIOS ≤ 256) (hg : g < P.NR_MSM_GPIOS)
    (hirq : irq < P.NR_TLMM_SCSS_DIR_CONN_IRQ) :
    (msm_gpio_install_direct_irq P g irq p s).1 = 0 ∧
    (msm_gpio_install_direct_irq P g irq p s).2.word (DIR_CONN_INTR_CFG_SU P irq) =
      direct_irq_bits g p ∧
    secure_writel_event P (direct_irq_bits g p) (DIR_CONN_INTR_CFG_SU P irq) ∈
      events_since s (msm_gpio_install_direct_irq P g irq p s).2 ∧
    direct_irq_bits g p % 8 = TARGET_PROC_SCORPION ∧
    (direct_irq_bits g p >>> 3) % 256 = g ∧
    ((direct_irq_bits g p).testBit 11 = true ↔ p ≠ 0) ∧
    direct_irq_bits g p < 4096 ∧
    (g <<< 3) &&& DC_POLARITY_HI = 0 ∧
    (∀ g' p', g' < P.NR_MSM_GPIOS → direct_irq_bits g' p' = direct_irq_bits g p →
      g' = g ∧ (p' ≠ 0 ↔ p ≠ 0)) := by
  have h : ¬ (g ≥ P.NR_MSM_GPIOS ∨ irq ≥ P.NR_TLMM_SCSS_DIR_CONN_IRQ) := by omega
  have hb := direct_irq_bits_eq g p (by omega)
  refine ⟨?_, direct_irq_bits_word P g irq p s hN hg hirq, ?_, ?_, ?_, ?_, ?_, ?_, ?_⟩
  · simp [msm_gpio_install_direct_irq, h]
  · rw [msm_gpio_install_direct_irq_eq P g irq p s h]
    simp [events_since]
  · rw [hb]
    simp only [TARGET_PROC_SCORPION]
    split <;> omega
  · rw [hb, Nat.shiftRight_eq_div_pow]
    split <;> omega
  · rw [hb, Nat.testBit_to_div_mod]
    by_cases hp : p = 0
    · simp only [hp, ne_eq, not_true_eq_false, if_false, decide_eq_true_eq, iff_false]
      omega
    · simp only [ne_eq, hp, not_false_eq_true, if_true, decide_eq_true_eq, iff_true]
      omega
  · rw [hb]
    split <;> omega
  · have hd : DC_POLARITY_HI = 2 ^ 11 := by decide
    have ht : (g <<< 3).testBit 11 = false := by
      apply Nat.testBit_lt_two_pow
      rw [Nat.shiftLeft_eq]
      omega
    rw [hd, Nat.and_two_pow, ht]
    rfl
  · intro g' p' hg' he
    rw [hb, direct_irq_bits_eq g' p' (by omega)] at he
    split_ifs at he with h1 h2 h2
    all_goals first
      | (exfalso; omega)
      | exact ⟨by omega, by tauto⟩

/-- C26 on the msm8x60: routing line 5 to direct-connect irq 0 with a high
polarity stores `0x82c`, i.e. 4 in bits 0..2, 5 in bits 3..10 and bit 11. -/
theorem C26_direct_irq_route_encoding_witness :
    msm8x60.NR_MSM_GPIOS ≤ 256 ∧ 5 < msm8x60.NR_MSM_GPIOS ∧
    0 < msm8x60.NR_TLMM_SCSS_DIR_CONN_IRQ ∧
    direct_irq_bits 5 1 = 0x82c ∧
    (msm_gpio_install_direct_irq msm8x60 5 0 1 high_line_state).2.word
        (DIR_CONN_INTR_CFG_SU msm8x60 0) = direct_irq_bits 5 1 ∧
    (direct_irq_bits 5 1 >>> 3) % 256 = 5 :=
  ⟨by decide, by decide, by decide, by decide,
   (C26_direct_irq_route_encoding msm8x60 5 0 1 high_line_state (by decide) (by decide)
     (by decide)).2.1,
   (C26_direct_irq_route_encoding msm8x60 5 0 1 high_line_state (by decide) (by decide)
     (by decide)).2.2.2.2.1⟩

/-! ### C27, C28 -/

theorem gpio_debug_direction_set_eq (P : Platform) (id v : Nat) (s : State) :
    gpio_debug_direction_set P id v s =
      (0, { s with
        regs := Function.update s.regs (GPIO_CONFIG P id)
          (if v ≠ 0 then s.word (GPIO_CONFIG P id) &&& not32 (BIT GPIO_OE_BIT)
           else s.word (GPIO_CONFIG P id) ||| BIT GPIO_OE_BIT),
        trace := s.trace ++
          [Event.spin_lock_irqsave,
           Event.readl (GPIO_CONFIG P id) (s.word (GPIO_CONFIG P id)),
           Event.writel
             (if v ≠ 0 then s.word (GPIO_CONFIG P id) &&& not32 (BIT GPIO_OE_BIT)
              else s.word (GPIO_CONFIG P id) ||| BIT GPIO_OE_BIT)
             (GPIO_CONFIG P id),
           Event.spin_unlock_irqrestore] }) := by
  by_cases h : v = 0
  · simp [gpio_debug_direction_set, h, set_gpio_bits, readl, is_live_GPIO_CONFIG, writel,
      spin_lock_irqsave, spin_unlock_irqrestore, emit, State.word, or_mod_word _ _ oe_bit_lt]
  · simp [gpio_debug_direction_set, h, clr_gpio_bits, readl, is_live_GPIO_CONFIG, writel,
      spin_lock_irqsave, spin_unlock_irqrestore, emit, State.word, and_mod_word]

theorem oe_field (w : Nat) : (w &&& BIT GPIO_OE_BIT) >>> GPIO_OE_BIT = (w.testBit 9).toNat := by
  have hb : BIT GPIO_OE_BIT = 2 ^ 9 := by decide
  rw [hb, Nat.and_two_pow, Nat.shiftRight_eq_div_pow]
  simp [GPIO_OE_BIT]

theorem gpio_debug_direction_set_word (P : Platform) (id v : Nat) (s : State) :
    (gpio_debug_direction_set P id v s).2.word (GPIO_CONFIG P id) =
      (if v ≠ 0 then s.word (GPIO_CONFIG P id) &&& not32 (BIT GPIO_OE_BIT)
       else s.word (GPIO_CONFIG P id) ||| BIT GPIO_OE_BIT) := by
  rw [gpio_debug_direction_set_eq]
  by_cases h : v = 0
  · simp [State.word, h, or_mod_word _ _ oe_bit_lt]
  · simp [State.word, h, and_mod_word]

theorem gpio_debug_direction_get_val (P : Platform) (id : Nat) (s : State) :
    (gpio_debug_direction_get P id s).2.1 = ((s.word (GPIO_CONFIG P id)).testBit 9).toNat := by
  simp only [gpio_debug_direction_get, readl, is_live_GPIO_CONFIG, Bool.false_eq_true,
    if_false]
  exact oe_field _

/-- What the direction attribute does for every line, state and value: the
setter leaves every config bit other than output-enable as it was, and the
getter then returns 0 after a non-zero value was written and 1 after 0. -/
theorem gpio_debug_direction_inverts (P : Platform) (id v : Nat) (s : State) :
    (gpio_debug_direction_get P id (gpio_debug_direction_set P id v s).2).2.1 =
        (if v ≠ 0 then 0 else 1) ∧
      (∀ j, j ≠ GPIO_OE_BIT →
        ((gpio_debug_direction_set P id v s).2.word (GPIO_CONFIG P id)).testBit j =
          (s.word (GPIO_CONFIG P id)).testBit j) := by
  rw [gpio_debug_direction_get_val, gpio_debug_direction_set_word]
  by_cases h : v = 0
  · have hv : ¬ (v ≠ 0) := fun hc => hc h
    rw [if_neg hv, if_neg hv, testBit_set_oe]
    refine ⟨by simp [GPIO_OE_BIT], ?_⟩
    intro j hj
    rw [testBit_set_oe]
    simp [hj]
  · have hv : v ≠ 0 := h
    rw [if_pos hv, if_pos hv, testBit_clear_oe _ (word_lt s _)]
    refine ⟨by simp [GPIO_OE_BIT], ?_⟩
    intro j hj
    rw [testBit_clear_oe _ (word_lt s _)]
    simp [hj]

/-- C27 (code evaluated at the failing inputs): on msm8x60 line 5, right
after probe, writing 1 through `gpio_debug_direction_set` and reading through
`gpio_debug_direction_get` returns 0, and writing 0 returns 1: the setter
clears output-enable for a non-zero value and sets it for zero, while the
getter returns the output-enable bit. -/
theorem C27_direction_round_trip_inverts :
    (gpio_debug_direction_get msm8x60 5
        (gpio_debug_direction_set msm8x60 5 1 (probed (fun _ _ => 0))).2).2.1 = 0 ∧
    (gpio_debug_direction_get msm8x60 5
        (gpio_debug_direction_set msm8x60 5 0 (probed (fun _ _ => 0))).2).2.1 = 1 ∧
    (gpio_debug_direction_set msm8x60 5 1 (probed (fun _ _ => 0))).2.word
        (GPIO_CONFIG msm8x60 5) = 0 ∧
    (gpio_debug_direction_set msm8x60 5 0 (probed (fun _ _ => 0))).2.word
        (GPIO_CONFIG msm8x60 5) = 0x200 := by
  decide


theorem field_or (c v b w : Nat) (hv : v < 2 ^ w) :
    ((c ||| (v <<< b)) >>> b) &&& (2 ^ w - 1) = ((c >>> b) &&& (2 ^ w - 1)) ||| v := by
  apply Nat.eq_of_testBit_eq
  intro j
  rw [Nat.testBit_and, Nat.testBit_shiftRight, Nat.testBit_or, Nat.testBit_shiftLeft,
    Nat.testBit_or, Nat.testBit_and, Nat.testBit_shiftRight, Nat.testBit_two_pow_sub_one]
  have e : b + j - b = j := by omega
  rw [e]
  by_cases hj : j < w
  · simp [hj]
  · have hvj : v.testBit j = false := by
      apply Nat.testBit_lt_two_pow
      exact lt_of_lt_of_le hv (Nat.pow_le_pow_right (by norm_num) (by omega))
    simp [hj, hvj]

theorem testBit_or_shift_outside (c v b w j : Nat) (hv : v < 2 ^ w)
    (hj : ¬ (b ≤ j ∧ j < b + w)) : (c ||| (v <<< b)).testBit j = c.testBit j := by
  rw [Nat.testBit_or, Nat.testBit_shiftLeft]
  by_cases h1 : j ≥ b
  · have hvj : v.testBit (j - b) = false := by
      apply Nat.testBit_lt_two_pow
      exact lt_of_lt_of_le hv (Nat.pow_le_pow_right (by norm_num) (by omega))
    simp [hvj]
  · simp [h1]

theorem debug_set_bits_word (P : Platform) (id n : Nat) (s : State) (hn : n < 4294967296) :
    (spin_unlock_irqrestore
        (set_gpio_bits P (n % 4294967296) (GPIO_CONFIG P id) (spin_lock_irqsave s))).word
        (GPIO_CONFIG P id) = s.word (GPIO_CONFIG P id) ||| n := by
  simp [set_gpio_bits, readl, is_live_GPIO_CONFIG, writel, spin_lock_irqsave,
    spin_unlock_irqrestore, emit, State.word, Nat.mod_eq_of_lt hn, or_mod_word _ _ hn]

theorem shifted_field_lt (v b w : Nat) (hv : v < 2 ^ w) (hb : b + w ≤ 32) :
    v <<< b < 4294967296 := by
  rw [Nat.shiftLeft_eq]
  have h1 : v * 2 ^ b < 2 ^ w * 2 ^ b := Nat.mul_lt_mul_of_pos_right hv (Nat.two_pow_pos b)
  have h2 : 2 ^ w * 2 ^ b = 2 ^ (w + b) := (pow_add 2 w b).symm
  have h3 : 2 ^ (w + b) ≤ 2 ^ 32 := Nat.pow_le_pow_right (by norm_num) (by omega)
  have h4 : (2 : Nat) ^ 32 = 4294967296 := by norm_num
  omega

/-- What the three field attributes do for every line, state and in-range
value: each setter only ORs the value into the field, so the getter then
returns the bitwise OR of the field's prior content and the value written; the
config bits outside the field keep their values. -/
theorem gpio_debug_fields_or (P : Platform) (id v : Nat) (s : State) :
    (v < 8 →
      (gpio_debug_drv_get P id (gpio_debug_drv_set P id v s).2).2.1 =
          (gpio_debug_drv_get P id s).2.1 ||| v ∧
        ∀ j, ¬ (6 ≤ j ∧ j < 9) →
          ((gpio_debug_drv_set P id v s).2.word (GPIO_CONFIG P id)).testBit j =
            (s.word (GPIO_CONFIG P id)).testBit j) ∧
    (v < 8 →
      (gpio_debug_func_sel_get P id (gpio_debug_func_sel_set P id v s).2).2.1 =
          (gpio_debug_func_sel_get P id s).2.1 ||| v ∧
        ∀ j, ¬ (2 ≤ j ∧ j < 5) →
          ((gpio_debug_func_sel_set P id v s).2.word (GPIO_CONFIG P id)).testBit j =
            (s.word (GPIO_CONFIG P id)).testBit j) ∧
    (v < 4 →
      (gpio_debug_pull_get P id (gpio_debug_pull_set P id v s).2).2.1 =
          (gpio_debug_pull_get P id s).2.1 ||| v ∧
        ∀ j, ¬ (0 ≤ j ∧ j < 2) →
          ((gpio_debug_pull_set P id v s).2.word (GPIO_CONFIG P id)).testBit j =
            (s.word (GPIO_CONFIG P id)).testBit j) := by
  refine ⟨?_, ?_, ?_⟩
  · intro hv
    have hv' : v < 2 ^ 3 := by omega
    have hlt := shifted_field_lt v 6 3 hv' (by norm_num)
    have hw : (gpio_debug_drv_set P id v s).2.word (GPIO_CONFIG P id) =
        s.word (GPIO_CONFIG P id) ||| (v <<< 6) := by
      have := debug_set_bits_word P id (v <<< 6) s hlt
      rw [Nat.mod_eq_of_lt hlt] at this
      simpa [gpio_debug_drv_set, GPIO_DRV_BIT, Nat.mod_eq_of_lt hlt] using this
    refine ⟨?_, ?_⟩
    · have hg : ∀ t : State, (gpio_debug_drv_get P id t).2.1 =
          (t.word (GPIO_CONFIG P id) >>> 6) &&& (2 ^ 3 - 1) := by
        intro t
        simp [gpio_debug_drv_get, readl, is_live_GPIO_CONFIG, GPIO_DRV_BIT]
      rw [hg, hg, hw]
      exact field_or _ v 6 3 hv'
    · intro j hj
      rw [hw]
      exact testBit_or_shift_outside _ v 6 3 j hv' (by omega)
  · intro hv
    have hv' : v < 2 ^ 3 := by omega
    have hlt := shifted_field_lt v 2 3 hv' (by norm_num)
    have hw : (gpio_debug_func_sel_set P id v s).2.word (GPIO_CONFIG P id) =
        s.word (GPIO_CONFIG P id) ||| (v <<< 2) := by
      have := debug_set_bits_word P id (v <<< 2) s hlt
      rw [Nat.mod_eq_of_lt hlt] at this
      simpa [gpio_debug_func_sel_set, GPIO_FUNC_SEL_BIT, Nat.mod_eq_of_lt hlt] using this
    refine ⟨?_, ?_⟩
    · have hg : ∀ t : State, (gpio_debug_func_sel_get P id t).2.1 =
          (t.word (GPIO_CONFIG P id) >>> 2) &&& (2 ^ 3 - 1) := by
        intro t
        simp [gpio_debug_func_sel_get, readl, is_live_GPIO_CONFIG, GPIO_FUNC_SEL_BIT]
      rw [hg, hg, hw]
      exact field_or _ v 2 3 hv'
    · intro j hj
      rw [hw]
      exact testBit_or_shift_outside _ v 2 3 j hv' (by omega)
  · intro hv
    have hv' : v < 2 ^ 2 := by omega
    have hlt : v < 4294967296 := by omega
    have hw : (gpio_debug_pull_set P id v s).2.word (GPIO_CONFIG P id) =
        s.word (GPIO_CONFIG P id) ||| (v <<< 0) := by
      have := debug_set_bits_word P id v s hlt
      rw [Nat.mod_eq_of_lt hlt] at this
      simpa [gpio_debug_pull_set, Nat.mod_eq_of_lt hlt] using this
    refine ⟨?_, ?_⟩
    · have hg : ∀ t : State, (gpio_debug_pull_get P id t).2.1 =
          (t.word (GPIO_CONFIG P id) >>> 0) &&& (2 ^ 2 - 1) := by
        intro t
        simp [gpio_debug_pull_get, readl, is_live_GPIO_CONFIG]
      rw [hg, hg, hw]
      exact field_or _ v 0 2 hv'
    · intro j hj
      rw [hw]
      exact testBit_or_shift_outside _ v 0 2 j hv' (by omega)

/-- C28 (code evaluated at the failing inputs): on msm8x60 line 5 with the
config register at `0x45` (drive strength 1, function 1, pull 1), writing 2
through `gpio_debug_drv_set`, `gpio_debug_func_sel_set` resp.
`gpio_debug_pull_set` and reading through the matching getter returns 3 each
time, not 2: the setters OR the value into the register and never clear the
field.  The getters return 1 before the write. -/
theorem C28_field_round_trip_keeps_old_bits :
    (gpio_debug_drv_get msm8x60 5 config_scenario).2.1 = 1 ∧
    (gpio_debug_drv_get msm8x60 5 (gpio_debug_drv_set msm8x60 5 2 config_scenario).2).2.1 = 3 ∧
    (gpio_debug_func_sel_get msm8x60 5 config_scenario).2.1 = 1 ∧
    (gpio_debug_func_sel_get msm8x60 5
        (gpio_debug_func_sel_set msm8x60 5 2 config_scenario).2).2.1 = 3 ∧
    (gpio_debug_pull_get msm8x60 5 config_scenario).2.1 = 1 ∧
    (gpio_debug_pull_get msm8x60 5 (gpio_debug_pull_set msm8x60 5 2 config_scenario).2).2.1 = 3 := by
  decide

/-! ### Which entry points hold the lock around their register accesses -/

theorem accesses_locked_cons (held : Bool) (e : Event) (es : List Event)
    (h : is_lock_event e = false) :
    accesses_locked held (e :: es) = ((!is_reg_access e || held) && accesses_locked held es) := by
  cases e <;> first | rfl | simp [is_lock_event] at h

theorem accesses_locked_held_append (evs rest : List Event) (h : takes_no_lock evs) :
    accesses_locked true (evs ++ rest) = accesses_locked true rest := by
  induction evs with
  | nil => rfl
  | cons e es ih =>
    have he := h e (List.mem_cons_self _ _)
    have hes : takes_no_lock es := fun x hx => h x (List.mem_cons_of_mem _ hx)
    rw [List.cons_append, accesses_locked_cons true e _ he, ih hes]
    simp

theorem accesses_locked_no_access (evs : List Event)
    (h : ∀ e ∈ evs, is_lock_event e = false ∧ is_reg_access e = false) :
    accesses_locked false evs = true := by
  induction evs with
  | nil => rfl
  | cons e es ih =>
    have he := h e (List.mem_cons_self _ _)
    rw [accesses_locked_cons false e _ he.1, ih (fun x hx => h x (List.mem_cons_of_mem _ hx))]
    simp [he.2]

/-- A run that acquires the lock, makes its register accesses, releases the
lock and then only makes calls that touch no register keeps the discipline. -/
theorem accesses_locked_bracket (body rest : List Event) (hb : takes_no_lock body)
    (hr : ∀ e ∈ rest, is_lock_event e = false ∧ is_reg_access e = false) :
    accesses_locked false
      (Event.spin_lock_irqsave :: (body ++ Event.spin_unlock_irqrestore :: rest)) = true := by
  show accesses_locked true (body ++ Event.spin_unlock_irqrestore :: rest) = true
  rw [accesses_locked_held_append body _ hb]
  show accesses_locked false rest = true
  exact accesses_locked_no_access rest hr

theorem is_lock_event_secure_writel_event (P : Platform) (v c : Nat) :
    is_lock_event (secure_writel_event P v c) = false := by
  unfold secure_writel_event
  split
  · rfl
  · split
    · rfl
    · split <;> rfl

theorem is_lock_event_of_rearm (P : Platform) (g : Nat) (e : Event)
    (h : is_rearm_event P g e = true) : is_lock_event e = false := by
  cases e <;> first | rfl | simp [is_rearm_event] at h

theorem is_lock_event_of_mmio (e : Event) (h : is_mmio e = true) : is_lock_event e = false := by
  cases e <;> first | rfl | simp [is_mmio] at h

theorem is_lock_event_of_scan (e : Event) (h : is_scan_event e = true) :
    is_lock_event e = false := by
  cases e <;> first | rfl | simp [is_scan_event] at h

theorem suspend_fold_events (P : Platform) :
    ∀ (l : List Nat) (s : State), ∃ evs,
      (l.foldl (fun t i => suspend_body P i t) s).trace = s.trace ++ evs ∧
        ∀ e ∈ evs, is_mmio e = true := by
  intro l
  induction l with
  | nil =>
    intro s
    exact ⟨[], by simp, by simp⟩
  | cons i l ih =>
    intro s
    obtain ⟨evs, ht, hm⟩ := ih (suspend_body P i s)
    rw [List.foldl_cons, ht, suspend_body_eq]
    by_cases hw : s.wake_irqs i = true
    · rw [if_pos hw]
      exact ⟨evs, rfl, hm⟩
    · rw [if_neg hw, clr_gpio_bits_cfg_eq]
      refine ⟨Event.readl (GPIO_INTR_CFG P i) (s.word (GPIO_INTR_CFG P i)) ::
        Event.writel (s.word (GPIO_INTR_CFG P i) &&& not32 (INTR_RAW_STATUS_EN ||| INTR_ENABLE))
          (GPIO_INTR_CFG P i) :: evs, by simp, ?_⟩
      intro e he
      simp only [List.mem_cons] at he
      rcases he with rfl | rfl | he
      · rfl
      · rfl
      · exact hm e he

theorem resume_fold_events (P : Platform) :
    ∀ (l : List Nat) (s : State), ∃ evs,
      (l.foldl (fun t i => resume_body P i t) s).trace = s.trace ++ evs ∧
        ∀ e ∈ evs, is_mmio e = true := by
  intro l
  induction l with
  | nil =>
    intro s
    exact ⟨[], by simp, by simp⟩
  | cons i l ih =>
    intro s
    obtain ⟨evs, ht, hm⟩ := ih (resume_body P i s)
    rw [List.foldl_cons, ht]
    unfold resume_body
    rw [set_gpio_bits_cfg_eq P _ i enable_bits_lt]
    refine ⟨Event.readl (GPIO_INTR_CFG P i) (s.word (GPIO_INTR_CFG P i)) ::
      Event.writel (s.word (GPIO_INTR_CFG P i) ||| (INTR_RAW_STATUS_EN ||| INTR_ENABLE))
        (GPIO_INTR_CFG P i) :: evs, by simp, ?_⟩
    intro e he
    simp only [List.mem_cons] at he
    rcases he with rfl | rfl | he
    · rfl
    · rfl
    · exact hm e he


theorem direction_holds_lock (P : Platform) (i v : Nat) (s : State) :
    accesses_locked false (events_since s (msm_gpio_direction_input P i s).2) = true ∧
      accesses_locked false (events_since s (msm_gpio_direction_output P i v s).2) = true := by
  rw [msm_gpio_direction_input_eq, msm_gpio_direction_output_eq]
  simp [events_since, accesses_locked, is_reg_access]

theorem mask_unmask_hold_lock (P : Platform) (irq : Nat) (s : State) :
    accesses_locked false (events_since s (msm_gpio_irq_mask P irq s)) = true ∧
      accesses_locked false (events_since s (msm_gpio_irq_unmask P irq s)) = true := by
  have hsw := is_lock_event_secure_writel_event P
  refine ⟨?_, ?_⟩
  · have h := accesses_locked_bracket
      [secure_writel_event P TARGET_PROC_NONE (GPIO_INTR_CFG_SU P (msm_irq_to_gpio P irq)),
       Event.readl (GPIO_INTR_CFG P (msm_irq_to_gpio P irq))
         (s.word (GPIO_INTR_CFG P (msm_irq_to_gpio P irq))),
       Event.writel
         (s.word (GPIO_INTR_CFG P (msm_irq_to_gpio P irq)) &&&
           not32 (INTR_RAW_STATUS_EN ||| INTR_ENABLE))
         (GPIO_INTR_CFG P (msm_irq_to_gpio P irq)),
       Event.dsb]
      [Event.msm_mpm_enable_irq irq 0]
      (by
        intro e he
        simp only [List.mem_cons, List.mem_singleton, List.not_mem_nil, or_false] at he
        rcases he with rfl | rfl | rfl | rfl
        · exact hsw _ _
        · rfl
        · rfl
        · rfl)
      (by
        intro e he
        simp only [List.mem_singleton] at he
        subst he
        exact ⟨rfl, rfl⟩)
    rw [msm_gpio_irq_mask_eq]
    simpa [events_since] using h
  · have h := accesses_locked_bracket
      [Event.readl (GPIO_INTR_CFG P (msm_irq_to_gpio P irq))
         (s.word (GPIO_INTR_CFG P (msm_irq_to_gpio P irq))),
       Event.writel
         (s.word (GPIO_INTR_CFG P (msm_irq_to_gpio P irq)) |||
           (INTR_RAW_STATUS_EN ||| INTR_ENABLE))
         (GPIO_INTR_CFG P (msm_irq_to_gpio P irq)),
       secure_writel_event P TARGET_PROC_SCORPION
         (GPIO_INTR_CFG_SU P (msm_irq_to_gpio P irq)),
       Event.dsb]
      [Event.msm_mpm_enable_irq irq 1]
      (by
        intro e he
        simp only [List.mem_cons, List.mem_singleton, List.not_mem_nil, or_false] at he
        rcases he with rfl | rfl | rfl | rfl
        · rfl
        · rfl
        · exact hsw _ _
        · rfl)
      (by
        intro e he
        simp only [List.mem_singleton] at he
        subst he
        exact ⟨rfl, rfl⟩)
    rw [msm_gpio_irq_unmask_eq]
    simpa [events_since] using h

theorem install_direct_irq_holds_lock (P : Platform) (g irq pol : Nat) (s : State) :
    accesses_locked false
      (events_since s (msm_gpio_install_direct_irq P g irq pol s).2) = true := by
  have hsw := is_lock_event_secure_writel_event P
  by_cases h : g ≥ P.NR_MSM_GPIOS ∨ irq ≥ P.NR_TLMM_SCSS_DIR_CONN_IRQ
  · simp [msm_gpio_install_direct_irq, h, events_since, accesses_locked]
  · have hb := accesses_locked_bracket
      [Event.readl (GPIO_CONFIG P g) (s.word (GPIO_CONFIG P g)),
       Event.writel (s.word (GPIO_CONFIG P g) ||| BIT GPIO_OE_BIT) (GPIO_CONFIG P g),
       Event.readl (GPIO_INTR_CFG P g) (s.word (GPIO_INTR_CFG P g)),
       Event.writel
         (s.word (GPIO_INTR_CFG P g) &&& not32 (INTR_RAW_STATUS_EN ||| INTR_ENABLE))
         (GPIO_INTR_CFG P g),
       secure_writel_event P (DC_IRQ_ENABLE ||| TARGET_PROC_NONE) (GPIO_INTR_CFG_SU P g),
       secure_writel_event P (direct_irq_bits g pol) (DIR_CONN_INTR_CFG_SU P irq),
       Event.dsb]
      []
      (by
        intro e he
        simp only [List.mem_cons, List.mem_singleton, List.not_mem_nil, or_false] at he
        rcases he with rfl | rfl | rfl | rfl | rfl | rfl | rfl
        · rfl
        · rfl
        · rfl
        · rfl
        · exact hsw _ _
        · exact hsw _ _
        · rfl)
      (by simp)
    rw [msm_gpio_install_direct_irq_eq P g irq pol s h]
    simpa [events_since] using hb

theorem set_type_holds_lock (P : Platform) (irq f : Nat) (s : State) :
    accesses_locked false (events_since s (msm_gpio_irq_set_type P irq f s).2) = true := by
  have hprog : (set_type_programmed P irq f s).trace =
      s.trace ++
        [Event.spin_lock_irqsave,
         Event.readl (GPIO_INTR_CFG P (msm_irq_to_gpio P irq))
           (s.word (GPIO_INTR_CFG P (msm_irq_to_gpio P irq))),
         Event.writel
           (set_type_word f (s.word (GPIO_INTR_CFG P (msm_irq_to_gpio P irq))) % 4294967296)
           (GPIO_INTR_CFG P (msm_irq_to_gpio P irq))] := rfl
  have hX : ∃ evs, takes_no_lock evs ∧
      (if f &&& IRQ_TYPE_EDGE_BOTH = IRQ_TYPE_EDGE_BOTH then
          msm_gpio_update_dual_edge_pos P (msm_irq_to_gpio P irq)
            (set_type_programmed P irq f s)
        else set_type_programmed P irq f s).trace =
        (set_type_programmed P irq f s).trace ++ evs := by
    by_cases hb : f &&& IRQ_TYPE_EDGE_BOTH = IRQ_TYPE_EDGE_BOTH
    · rw [if_pos hb]
      obtain ⟨evs, ht, he, _⟩ :=
        dual_edge_loop_events P (msm_irq_to_gpio P irq) 100 (set_type_programmed P irq f s)
      exact ⟨evs, fun e h => is_lock_event_of_rearm P _ e (he e h), ht⟩
    · rw [if_neg hb]
      exact ⟨[], by simp [takes_no_lock], by simp⟩
  obtain ⟨evs, hno, ht⟩ := hX
  have hb := accesses_locked_bracket
    (Event.readl (GPIO_INTR_CFG P (msm_irq_to_gpio P irq))
        (s.word (GPIO_INTR_CFG P (msm_irq_to_gpio P irq))) ::
      Event.writel
        (set_type_word f (s.word (GPIO_INTR_CFG P (msm_irq_to_gpio P irq))) % 4294967296)
        (GPIO_INTR_CFG P (msm_irq_to_gpio P irq)) :: (evs ++ [Event.dsb]))
    [Event.msm_mpm_set_irq_type irq f]
    (by
      intro e he
      simp only [List.mem_cons, List.mem_append, List.mem_singleton, List.not_mem_nil,
        or_false] at he
      rcases he with rfl | rfl | he | rfl
      · rfl
      · rfl
      · exact hno e he
      · rfl)
    (by
      intro e he
      simp only [List.mem_singleton] at he
      subst he
      exact ⟨rfl, rfl⟩)
  rw [msm_gpio_irq_set_type_eq]
  have htr : (emit (Event.msm_mpm_set_irq_type irq f)
      (spin_unlock_irqrestore (dsb
        (if f &&& IRQ_TYPE_EDGE_BOTH = IRQ_TYPE_EDGE_BOTH then
            msm_gpio_update_dual_edge_pos P (msm_irq_to_gpio P irq)
              (set_type_programmed P irq f s)
          else set_type_programmed P irq f s)))).trace =
      s.trace ++ (Event.spin_lock_irqsave ::
        ((Event.readl (GPIO_INTR_CFG P (msm_irq_to_gpio P irq))
            (s.word (GPIO_INTR_CFG P (msm_irq_to_gpio P irq))) ::
          Event.writel
            (set_type_word f (s.word (GPIO_INTR_CFG P (msm_irq_to_gpio P irq))) % 4294967296)
            (GPIO_INTR_CFG P (msm_irq_to_gpio P irq)) :: (evs ++ [Event.dsb])) ++
          Event.spin_unlock_irqrestore :: [Event.msm_mpm_set_irq_type irq f])) := by
    simp only [emit, spin_unlock_irqrestore, dsb]
    rw [ht, hprog]
    simp
  rw [events_since_append s _ _ htr]
  exact hb

theorem suspend_resume_hold_lock (P : Platform) (s : State) :
    accesses_locked false (events_since s (msm_gpio_suspend_noirq P s).2) = true ∧
      accesses_locked false (events_since s (msm_gpio_resume_noirq P s).2) = true := by
  refine ⟨?_, ?_⟩
  · obtain ⟨evs, ht, hm⟩ := suspend_fold_events P
      ((List.range P.NR_MSM_GPIOS).filter (spin_lock_irqsave s).enabled_irqs)
      (spin_lock_irqsave s)
    have hb := accesses_locked_bracket (evs ++ [Event.dsb]) []
      (by
        intro e he
        simp only [List.mem_append, List.mem_singleton] at he
        rcases he with he | rfl
        · exact is_lock_event_of_mmio e (hm e he)
        · rfl)
      (by simp)
    have htr : (msm_gpio_suspend_noirq P s).2.trace =
        s.trace ++ (Event.spin_lock_irqsave ::
          ((evs ++ [Event.dsb]) ++ Event.spin_unlock_irqrestore :: [])) := by
      simp only [msm_gpio_suspend_noirq]
      rw [for_each_set_bit_eq (fun t => t.enabled_irqs) P.NR_MSM_GPIOS (suspend_body P)
        (suspend_body_enabled P)]
      simp only [spin_unlock_irqrestore, dsb, emit]
      rw [ht]
      simp [spin_lock_irqsave, emit]
    rw [events_since_append s _ _ htr]
    exact hb
  · obtain ⟨evs, ht, hm⟩ := resume_fold_events P
      ((List.range P.NR_MSM_GPIOS).filter (spin_lock_irqsave s).enabled_irqs)
      (spin_lock_irqsave s)
    have hb := accesses_locked_bracket (evs ++ [Event.dsb]) []
      (by
        intro e he
        simp only [List.mem_append, List.mem_singleton] at he
        rcases he with he | rfl
        · exact is_lock_event_of_mmio e (hm e he)
        · rfl)
      (by simp)
    have htr : (msm_gpio_resume_noirq P s).2.trace =
        s.trace ++ (Event.spin_lock_irqsave ::
          ((evs ++ [Event.dsb]) ++ Event.spin_unlock_irqrestore :: [])) := by
      simp only [msm_gpio_resume_noirq]
      rw [for_each_set_bit_eq (fun t => t.enabled_irqs) P.NR_MSM_GPIOS (resume_body P)
        (resume_body_enabled P)]
      simp only [spin_unlock_irqrestore, dsb, emit]
      rw [ht]
      simp [spin_lock_irqsave, emit]
    rw [events_since_append s _ _ htr]
    exact hb


theorem tlmm_set_field_holds_lock (P : Platform) (configs : List tlmm_field_cfg)
    (id width val : Nat) (s t : State)
    (h : msm_tlmm_set_field P configs id width val s = some t) :
    accesses_locked false (events_since s t) = true := by
  cases hc : configs.get? id with
  | none =>
    simp only [msm_tlmm_set_field, hc] at h
    cases h
  | some cfg =>
    rw [msm_tlmm_set_field_eq P configs id width val s cfg hc] at h
    injection h with h
    subst h
    simp [events_since, accesses_locked, is_reg_access]

theorem summary_loop_events (P : Platform) :
    ∀ (fuel i : Nat) (s : State), ∃ evs,
      (summary_loop P fuel i s).trace = s.trace ++ evs ∧
        ∀ e ∈ evs, is_scan_event e = true := by
  intro fuel
  induction fuel with
  | zero =>
    intro i s
    exact ⟨[], by simp [summary_loop], by simp⟩
  | succ n ih =>
    intro i s
    by_cases hi : i < P.NR_MSM_GPIOS
    · obtain ⟨evs, ht, hm⟩ :=
        ih (find_next_bit (summary_body P i s).enabled_irqs P.NR_MSM_GPIOS (i + 1))
          (summary_body P i s)
      refine ⟨scan_events P i (s.live s.tick (GPIO_INTR_STATUS P i)) ++ evs, ?_, ?_⟩
      · simp only [summary_loop, hi, if_true]
        rw [ht, summary_body_eq P i s hi]
        simp
      · intro e he
        rcases List.mem_append.mp he with h1 | h1
        · exact is_scan_event_scan_events P i _ e h1
        · exact hm e h1
    · exact ⟨[], by simp [summary_loop, hi], by simp⟩

/-- The entry points that never acquire `tlmm_lock`: get, set, ack (with its
re-arm of a dual-edge line), set_wake, the summary handler and
`gpio_tlmm_config`. -/
theorem entry_points_without_lock (P : Platform) (M : CfgMacros) (i v irq on_ cfg d : Nat)
    (s : State) :
    takes_no_lock (events_since s (msm_gpio_get P i s).2) ∧
    takes_no_lock (events_since s (msm_gpio_set P i v s)) ∧
    takes_no_lock (events_since s (msm_gpio_irq_ack P irq s)) ∧
    takes_no_lock (events_since s (msm_gpio_irq_set_wake P irq on_ s).2) ∧
    takes_no_lock (events_since s (msm_summary_irq_handler P irq s)) ∧
    takes_no_lock (events_since s (gpio_tlmm_config P M cfg d s).2) := by
  refine ⟨?_, ?_, ?_, ?_, ?_, ?_⟩
  · intro e he
    by_cases hl : is_live P (GPIO_IN_OUT P i) = true
    · simp [msm_gpio_get, readl, hl, dsb, emit, events_since] at he
      rcases he with rfl | rfl <;> rfl
    · simp [msm_gpio_get, readl, hl, dsb, emit, events_since] at he
      rcases he with rfl | rfl <;> rfl
  · intro e he
    simp [msm_gpio_set, writel, dsb, emit, events_since] at he
    rcases he with rfl | rfl <;> rfl
  · intro e he
    have hw : (writel (BIT INTR_STATUS_BIT) (GPIO_INTR_STATUS P (msm_irq_to_gpio P irq)) s).trace =
        s.trace ++ [Event.writel (BIT INTR_STATUS_BIT % 4294967296)
          (GPIO_INTR_STATUS P (msm_irq_to_gpio P irq))] := rfl
    by_cases hd : test_bit (msm_irq_to_gpio P irq)
        (writel (BIT INTR_STATUS_BIT) (GPIO_INTR_STATUS P (msm_irq_to_gpio P irq)) s).dual_edge_irqs
        = true
    · obtain ⟨evs, ht, hr, _⟩ := dual_edge_loop_events P (msm_irq_to_gpio P irq) 100
        (writel (BIT INTR_STATUS_BIT) (GPIO_INTR_STATUS P (msm_irq_to_gpio P irq)) s)
      have htr : (msm_gpio_irq_ack P irq s).trace =
          s.trace ++ (Event.writel (BIT INTR_STATUS_BIT % 4294967296)
            (GPIO_INTR_STATUS P (msm_irq_to_gpio P irq)) :: (evs ++ [Event.dsb])) := by
        simp only [msm_gpio_irq_ack, hd, if_true, dsb, emit, msm_gpio_update_dual_edge_pos]
        rw [ht, hw]
        simp
      rw [events_since_append s _ _ htr] at he
      simp only [List.mem_cons, List.mem_append, List.mem_singleton, List.not_mem_nil,
        or_false] at he
      rcases he with rfl | he | rfl
      · rfl
      · exact is_lock_event_of_rearm P _ e (hr e he)
      · rfl
    · have htr : (msm_gpio_irq_ack P irq s).trace =
          s.trace ++ [Event.writel (BIT INTR_STATUS_BIT % 4294967296)
            (GPIO_INTR_STATUS P (msm_irq_to_gpio P irq)), Event.dsb] := by
        simp only [msm_gpio_irq_ack, hd, dsb, emit, Bool.false_eq_true, if_false]
        rw [hw]
        simp
      rw [events_since_append s _ _ htr] at he
      simp only [List.mem_cons, List.mem_singleton, List.not_mem_nil, or_false] at he
      rcases he with rfl | rfl <;> rfl
  · intro e he
    rw [msm_gpio_irq_set_wake_eq] at he
    simp only [events_since, List.drop_left', List.mem_append, List.mem_singleton] at he
    rcases he with he | rfl
    · unfold summary_wake_calls at he
      split at he
      · split at he
        · simp only [List.mem_singleton] at he
          subst he
          rfl
        · simp at he
      · split at he
        · simp only [List.mem_singleton] at he
          subst he
          rfl
        · simp at he
    · rfl
  · intro e he
    obtain ⟨evs, ht, hm⟩ := summary_loop_events P P.NR_MSM_GPIOS
      (find_first_bit s.enabled_irqs P.NR_MSM_GPIOS) s
    have htr : (msm_summary_irq_handler P irq s).trace =
        s.trace ++ (evs ++ [Event.chip_ack irq]) := by
      simp only [msm_summary_irq_handler, emit]
      rw [ht]
      simp
    rw [events_since_append s _ _ htr] at he
    simp only [List.mem_append, List.mem_singleton] at he
    rcases he with he | rfl
    · exact is_lock_event_of_scan e (hm e he)
    · rfl
  · intro e he
    by_cases h : M.GPIO_PIN cfg > P.NR_MSM_GPIOS
    · simp [gpio_tlmm_config, h, events_since] at he
    · simp [gpio_tlmm_config, h, writel, dsb, emit, events_since] at he
      rcases he with rfl | rfl <;> rfl

end GpioV2

/-! # PM8901 interrupt controller -/

namespace Pmic8901

/-! ### C30 -/

theorem isr_spurious_config_eq (k : Nat) :
    isr_spurious_config k = if k < 4 then 0x8F else 0x8E := by
  unfold isr_spurious_config
  by_cases h : k < 4
  · have h' : k < PM8901_IRQF_BITS_SHIFT := h
    rw [if_pos h', if_pos h]
    decide
  · have h' : ¬ k < PM8901_IRQF_BITS_SHIFT := h
    rw [if_neg h', if_neg h]
    decide

/-- For every bit `k`, the byte the thread writes for a spurious interrupt
has the write, clear and both edge-mask flags set and a bit-select field of
0; the level-select flag is set for `k < 4`. -/
theorem isr_spurious_config_field (k : Nat) :
    isr_spurious_config k &&& PM8901_IRQF_W_C_M = PM8901_IRQF_W_C_M ∧
      (isr_spurious_config k &&& PM8901_IRQF_BITS_MASK) >>> PM8901_IRQF_BITS_SHIFT = 0 ∧
      (isr_spurious_config k &&& PM8901_IRQF_LVL_SEL ≠ 0 ↔ k < 4) := by
  rw [isr_spurious_config_eq]
  by_cases h : k < 4
  · rw [if_pos h]
    refine ⟨by decide, by decide, ?_⟩
    simp [h]
    decide
  · rw [if_neg h]
    refine ⟨by decide, by decide, ?_⟩
    simp [h]
    decide

set_option maxRecDepth 8000 in
/-- C30 (code evaluated at the failing input): interrupt 5 of block 0 has a
type but was never unmasked, and the bus reports master 0, block 0 and status
bit 5 pending.  `pm8901_isr_thread` selects block 0 and writes the config byte
`0x8E`: write, clear and both edge masks, with bit-select field 0 instead of
5, so the interrupt it clears and masks is interrupt 0 of the block; nothing
is dispatched. -/
theorem C30_spurious_clear_selects_bit_0 :
    spurious_scenario.irqs_allowed 0 = 0 ∧
    events_since spurious_scenario (pm8901_isr_thread spurious_scenario) =
      [Event.spin_lock_irqsave,
       Event.ssbi_read SSBI_REG_ADDR_IRQ_ROOT 0x02,
       Event.ssbi_read SSBI_REG_ADDR_IRQ_M_STATUS1 0x01,
       Event.ssbi_write SSBI_REG_ADDR_IRQ_BLK_SEL 0,
       Event.ssbi_read SSBI_REG_ADDR_IRQ_IT_STATUS 0x20,
       Event.ssbi_write SSBI_REG_ADDR_IRQ_BLK_SEL 0,
       Event.ssbi_write SSBI_REG_ADDR_IRQ_CONFIG 0x8E,
       Event.spin_unlock_irqrestore] ∧
    isr_spurious_config 5 = 0x8E ∧
    (0x8E &&& PM8901_IRQF_BITS_MASK) >>> PM8901_IRQF_BITS_SHIFT = 0 ∧
    PM8901_IRQF_W_C_M ||| (5 <<< PM8901_IRQF_BITS_SHIFT) = 0xDE := by
  decide

/-! ### C29 -/

theorem u8_clear_bit_lt (x n : Nat) : u8_clear_bit x n < 256 :=
  Nat.mod_lt _ (by norm_num)

theorem u8_set_bit_lt (x n : Nat) : u8_set_bit x n < 256 :=
  Nat.mod_lt _ (by norm_num)

theorem testBit_byte (x j : Nat) (hx : x < 256) (hj : 8 ≤ j) : x.testBit j = false := by
  apply Nat.testBit_lt_two_pow
  exact lt_of_lt_of_le hx (by
    have : (2 : Nat) ^ 8 ≤ 2 ^ j := Nat.pow_le_pow_right (by norm_num) hj
    simpa using this)

theorem testBit_u8_clear_bit (x n j : Nat) (hx : x < 256) :
    (u8_clear_bit x n).testBit j = (x.testBit j && decide (j ≠ n)) := by
  have hlt : x &&& GpioV2.not32 (1 <<< n) < 256 := lt_of_le_of_lt Nat.and_le_left hx
  unfold u8_clear_bit
  rw [Nat.mod_eq_of_lt hlt, Nat.testBit_and, GpioV2.testBit_not32, GpioV2.testBit_mod_word,
    Nat.one_shiftLeft, Nat.testBit_two_pow]
  by_cases h32 : j < 32
  · by_cases hn : n = j
    · subst hn
      simp
    · have hn' : j ≠ n := fun h => hn h.symm
      simp [h32, hn, hn']
  · have : x.testBit j = false := testBit_byte x j hx (by omega)
    simp [this]

theorem testBit_u8_set_bit (x n j : Nat) (hx : x < 256) (hn : n < 8) :
    (u8_set_bit x n).testBit j = (x.testBit j || decide (j = n)) := by
  have h1 : (1 : Nat) <<< n < 2 ^ 8 := by
    rw [Nat.one_shiftLeft]
    exact Nat.pow_lt_pow_right (by norm_num) hn
  have hlt : x ||| (1 <<< n) < 256 := by
    have := Nat.or_lt_two_pow (n := 8) (by simpa using hx) h1
    simpa using this
  unfold u8_set_bit
  rw [Nat.mod_eq_of_lt hlt, Nat.testBit_or, Nat.one_shiftLeft, Nat.testBit_two_pow]
  by_cases hj : n = j
  · subst hj
    simp
  · have hj' : j ≠ n := fun h => hj h.symm
    simp [hj, hj']

theorem ne_zero_of_testBit (x j : Nat) (h : x.testBit j = true) : x ≠ 0 := by
  rintro rfl
  simp at h

theorem u8_set_bit_ne_zero (x n : Nat) (hx : x < 256) (hn : n < 8) : u8_set_bit x n ≠ 0 :=
  ne_zero_of_testBit _ n (by rw [testBit_u8_set_bit x n n hx hn]; simp)

theorem u8_clear_bit_zero (n : Nat) : u8_clear_bit 0 n = 0 := by
  simp [u8_clear_bit]

theorem pm8901_config_irq_frame (bp cp : Nat) (c : Chip) :
    (pm8901_config_irq bp cp c).2 =
      { c with transfers := (pm8901_config_irq bp cp c).2.transfers,
               trace := (pm8901_config_irq bp cp c).2.trace } := by
  unfold pm8901_config_irq
  by_cases h : (ssbi_write SSBI_REG_ADDR_IRQ_BLK_SEL bp c).1 ≠ 0
  · rw [if_pos h]
    rfl
  · rw [if_neg h]
    rfl


theorem pm8901_irq_mask_fields (irq : Nat) (c : Chip) (hr : irq - c.irq_base < 72) :
    (pm8901_irq_mask irq c).irq_base = c.irq_base ∧
    (pm8901_irq_mask irq c).irqs_allowed =
      Function.update c.irqs_allowed ((irq - c.irq_base) / 8)
        (u8_clear_bit (c.irqs_allowed ((irq - c.irq_base) / 8)) ((irq - c.irq_base) % 8)) ∧
    (pm8901_irq_mask irq c).blocks_allowed =
      (if u8_clear_bit (c.irqs_allowed ((irq - c.irq_base) / 8)) ((irq - c.irq_base) % 8) = 0
       then Function.update c.blocks_allowed ((irq - c.irq_base) / 8 / 8)
         (u8_clear_bit (c.blocks_allowed ((irq - c.irq_base) / 8 / 8))
           ((irq - c.irq_base) / 8 % 8))
       else c.blocks_allowed) ∧
    (pm8901_irq_mask irq c).masters_allowed =
      (if u8_clear_bit (c.irqs_allowed ((irq - c.irq_base) / 8)) ((irq - c.irq_base) % 8) = 0 ∧
          u8_clear_bit (c.blocks_allowed ((irq - c.irq_base) / 8 / 8))
            ((irq - c.irq_base) / 8 % 8) = 0
       then u8_clear_bit c.masters_allowed ((irq - c.irq_base) / 8 / 8)
       else c.masters_allowed) := by
  have hB : (irq - c.irq_base) / 8 % 256 = (irq - c.irq_base) / 8 := by omega
  simp only [pm8901_irq_mask, hB]
  rw [pm8901_config_irq_frame]
  by_cases h1 :
      u8_clear_bit (c.irqs_allowed ((irq - c.irq_base) / 8)) ((irq - c.irq_base) % 8) = 0
  · by_cases h2 : u8_clear_bit (c.blocks_allowed ((irq - c.irq_base) / 8 / 8))
        ((irq - c.irq_base) / 8 % 8) = 0
    · simp [h1, h2]
    · simp [h1, h2]
  · simp [h1]

theorem pm8901_irq_unmask_fields (irq : Nat) (c : Chip) (hr : irq - c.irq_base < 72) :
    (pm8901_irq_unmask irq c).irq_base = c.irq_base ∧
    (pm8901_irq_unmask irq c).irqs_allowed =
      Function.update c.irqs_allowed ((irq - c.irq_base) / 8)
        (u8_set_bit (c.irqs_allowed ((irq - c.irq_base) / 8)) ((irq - c.irq_base) % 8)) ∧
    (pm8901_irq_unmask irq c).blocks_allowed =
      (if c.irqs_allowed ((irq - c.irq_base) / 8) = 0
       then Function.update c.blocks_allowed ((irq - c.irq_base) / 8 / 8)
         (u8_set_bit (c.blocks_allowed ((irq - c.irq_base) / 8 / 8))
           ((irq - c.irq_base) / 8 % 8))
       else c.blocks_allowed) ∧
    (pm8901_irq_unmask irq c).masters_allowed =
      (if c.irqs_allowed ((irq - c.irq_base) / 8) = 0 ∧
          c.blocks_allowed ((irq - c.irq_base) / 8 / 8) = 0
       then u8_set_bit c.masters_allowed ((irq - c.irq_base) / 8 / 8)
       else c.masters_allowed) := by
  have hB : (irq - c.irq_base) / 8 % 256 = (irq - c.irq_base) / 8 := by omega
  simp only [pm8901_irq_unmask, hB]
  rw [pm8901_config_irq_frame]
  by_cases h1 : c.irqs_allowed ((irq - c.irq_base) / 8) = 0
  · by_cases h2 : c.blocks_allowed ((irq - c.irq_base) / 8 / 8) = 0
    · simp [h1, h2]
    · simp [h1, h2]
  · simp [h1]


theorem block_index_ne (b B : Nat) (h : b ≠ B) (h8 : b / 8 = B / 8) : b % 8 ≠ B % 8 := by
  omega

theorem consistent_after_mask (c d : Chip) (B k : Nat) (hinv : allowed_consistent c)
    (hi : d.irqs_allowed =
      Function.update c.irqs_allowed B (u8_clear_bit (c.irqs_allowed B) k))
    (hb : d.blocks_allowed =
      (if u8_clear_bit (c.irqs_allowed B) k = 0
       then Function.update c.blocks_allowed (B / 8)
         (u8_clear_bit (c.blocks_allowed (B / 8)) (B % 8))
       else c.blocks_allowed))
    (hm : d.masters_allowed =
      (if u8_clear_bit (c.irqs_allowed B) k = 0 ∧
          u8_clear_bit (c.blocks_allowed (B / 8)) (B % 8) = 0
       then u8_clear_bit c.masters_allowed (B / 8)
       else c.masters_allowed)) :
    allowed_consistent d := by
  obtain ⟨h1, h2, h3, h4, h5⟩ := hinv
  have hxi : u8_clear_bit (c.irqs_allowed B) k ≠ 0 → c.irqs_allowed B ≠ 0 := by
    intro h hc
    rw [hc, u8_clear_bit_zero] at h
    exact h rfl
  have hxb : u8_clear_bit (c.blocks_allowed (B / 8)) (B % 8) ≠ 0 →
      c.blocks_allowed (B / 8) ≠ 0 := by
    intro h hc
    rw [hc, u8_clear_bit_zero] at h
    exact h rfl
  refine ⟨?_, ?_, ?_, ?_, ?_⟩
  · intro b
    rw [hi]
    by_cases hbB : b = B
    · subst hbB
      rw [Function.update_same]
      exact u8_clear_bit_lt _ _
    · rw [Function.update_noteq hbB]
      exact h1 b
  · intro m
    rw [hb]
    split
    · by_cases hmM : m = B / 8
      · subst hmM
        rw [Function.update_same]
        exact u8_clear_bit_lt _ _
      · rw [Function.update_noteq hmM]
        exact h2 m
    · exact h2 m
  · rw [hm]
    split
    · exact u8_clear_bit_lt _ _
    · exact h3
  · intro b
    rw [hi, hb]
    by_cases hz : u8_clear_bit (c.irqs_allowed B) k = 0
    · rw [if_pos hz]
      by_cases hbB : b = B
      · subst hbB
        rw [Function.update_same, Function.update_same,
          testBit_u8_clear_bit _ _ _ (h2 _)]
        simp [hz]
      · rw [Function.update_noteq hbB]
        by_cases h8 : b / 8 = B / 8
        · rw [h8, Function.update_same, testBit_u8_clear_bit _ _ _ (h2 _)]
          have hne := block_index_ne b B hbB h8
          have := h4 b
          rw [h8] at this
          simpa [hne] using this
        · rw [Function.update_noteq h8]
          exact h4 b
    · rw [if_neg hz]
      by_cases hbB : b = B
      · subst hbB
        rw [Function.update_same]
        constructor
        · intro _
          exact hz
        · intro _
          exact (h4 b).2 (hxi hz)
      · rw [Function.update_noteq hbB]
        exact h4 b
  · intro m
    rw [hb, hm]
    by_cases hz : u8_clear_bit (c.irqs_allowed B) k = 0
    · by_cases hy : u8_clear_bit (c.blocks_allowed (B / 8)) (B % 8) = 0
      · rw [if_pos hz, if_pos ⟨hz, hy⟩]
        by_cases hmM : m = B / 8
        · subst hmM
          rw [Function.update_same, testBit_u8_clear_bit _ _ _ h3]
          simp [hy]
        · rw [Function.update_noteq hmM, testBit_u8_clear_bit _ _ _ h3]
          have := h5 m
          simpa [hmM] using this
      · rw [if_pos hz, if_neg (fun h => hy h.2)]
        by_cases hmM : m = B / 8
        · subst hmM
          rw [Function.update_same]
          constructor
          · intro _
            exact hy
          · intro _
            exact (h5 _).2 (hxb hy)
        · rw [Function.update_noteq hmM]
          exact h5 m
    · rw [if_neg hz, if_neg (fun h => hz h.1)]
      exact h5 m

theorem consistent_after_unmask (c d : Chip) (B k : Nat) (hk : k < 8) (hM : B / 8 < 8)
    (hinv : allowed_consistent c)
    (hi : d.irqs_allowed =
      Function.update c.irqs_allowed B (u8_set_bit (c.irqs_allowed B) k))
    (hb : d.blocks_allowed =
      (if c.irqs_allowed B = 0
       then Function.update c.blocks_allowed (B / 8)
         (u8_set_bit (c.blocks_allowed (B / 8)) (B % 8))
       else c.blocks_allowed))
    (hm : d.masters_allowed =
      (if c.irqs_allowed B = 0 ∧ c.blocks_allowed (B / 8) = 0
       then u8_set_bit c.masters_allowed (B / 8)
       else c.masters_allowed)) :
    allowed_consistent d := by
  obtain ⟨h1, h2, h3, h4, h5⟩ := hinv
  have hB8 : B % 8 < 8 := Nat.mod_lt _ (by norm_num)
  have hxi := u8_set_bit_ne_zero (c.irqs_allowed B) k (h1 B) hk
  have hxb := u8_set_bit_ne_zero (c.blocks_allowed (B / 8)) (B % 8) (h2 _) hB8
  refine ⟨?_, ?_, ?_, ?_, ?_⟩
  · intro b
    rw [hi]
    by_cases hbB : b = B
    · subst hbB
      rw [Function.update_same]
      exact u8_set_bit_lt _ _
    · rw [Function.update_noteq hbB]
      exact h1 b
  · intro m
    rw [hb]
    split
    · by_cases hmM : m = B / 8
      · subst hmM
        rw [Function.update_same]
        exact u8_set_bit_lt _ _
      · rw [Function.update_noteq hmM]
        exact h2 m
    · exact h2 m
  · rw [hm]
    split
    · exact u8_set_bit_lt _ _
    · exact h3
  · intro b
    rw [hi, hb]
    by_cases hz : c.irqs_allowed B = 0
    · rw [if_pos hz]
      by_cases hbB : b = B
      · subst hbB
        rw [Function.update_same, Function.update_same,
          testBit_u8_set_bit _ _ _ (h2 _) hB8]
        simp [hxi]
      · rw [Function.update_noteq hbB]
        by_cases h8 : b / 8 = B / 8
        · rw [h8, Function.update_same, testBit_u8_set_bit _ _ _ (h2 _) hB8]
          have hne := block_index_ne b B hbB h8
          have := h4 b
          rw [h8] at this
          simpa [hne] using this
        · rw [Function.update_noteq h8]
          exact h4 b
    · rw [if_neg hz]
      by_cases hbB : b = B
      · subst hbB
        rw [Function.update_same]
        constructor
        · intro _
          exact hxi
        · intro _
          exact (h4 b).2 hz
      · rw [Function.update_noteq hbB]
        exact h4 b
  · intro m
    rw [hb, hm]
    by_cases hz : c.irqs_allowed B = 0
    · by_cases hy : c.blocks_allowed (B / 8) = 0
      · rw [if_pos hz, if_pos ⟨hz, hy⟩]
        by_cases hmM : m = B / 8
        · subst hmM
          rw [Function.update_same, testBit_u8_set_bit _ _ _ h3 hM]
          simp [hxb]
        · rw [Function.update_noteq hmM, testBit_u8_set_bit _ _ _ h3 hM]
          have := h5 m
          simpa [hmM] using this
      · rw [if_pos hz, if_neg (fun h => hy h.2)]
        by_cases hmM : m = B / 8
        · subst hmM
          rw [Function.update_same]
          constructor
          · intro _
            exact hxb
          · intro _
            exact (h5 _).2 hy
        · rw [Function.update_noteq hmM]
          exact h5 m
    · rw [if_neg hz, if_neg (fun h => hz h.1)]
      exact h5 m


theorem tracks_after_mask (c d : Chip) (r0 : Nat) (h : Nat → Bool)
    (hbase : d.irq_base = c.irq_base) (hlt : ∀ b, c.irqs_allowed b < 256)
    (ht : allowed_tracks c h)
    (hi : d.irqs_allowed =
      Function.update c.irqs_allowed (r0 / 8) (u8_clear_bit (c.irqs_allowed (r0 / 8)) (r0 % 8))) :
    allowed_tracks d (Function.update h (c.irq_base + r0) false) := by
  intro r
  rw [hi, hbase]
  by_cases hr : r = r0
  · subst hr
    rw [Function.update_same, Function.update_same, testBit_u8_clear_bit _ _ _ (hlt _)]
    simp
  · have hne : c.irq_base + r ≠ c.irq_base + r0 := by omega
    rw [Function.update_noteq hne, ← ht r]
    by_cases h8 : r / 8 = r0 / 8
    · rw [h8, Function.update_same, testBit_u8_clear_bit _ _ _ (hlt _)]
      have := block_index_ne r r0 hr h8
      simp [this]
    · rw [Function.update_noteq h8]

theorem tracks_after_unmask (c d : Chip) (r0 : Nat) (h : Nat → Bool)
    (hbase : d.irq_base = c.irq_base) (hlt : ∀ b, c.irqs_allowed b < 256)
    (ht : allowed_tracks c h)
    (hi : d.irqs_allowed =
      Function.update c.irqs_allowed (r0 / 8) (u8_set_bit (c.irqs_allowed (r0 / 8)) (r0 % 8))) :
    allowed_tracks d (Function.update h (c.irq_base + r0) true) := by
  have hk : r0 % 8 < 8 := Nat.mod_lt _ (by norm_num)
  intro r
  rw [hi, hbase]
  by_cases hr : r = r0
  · subst hr
    rw [Function.update_same, Function.update_same, testBit_u8_set_bit _ _ _ (hlt _) hk]
    simp
  · have hne : c.irq_base + r ≠ c.irq_base + r0 := by omega
    rw [Function.update_noteq hne, ← ht r]
    by_cases h8 : r / 8 = r0 / 8
    · rw [h8, Function.update_same, testBit_u8_set_bit _ _ _ (hlt _) hk]
      have := block_index_ne r r0 hr h8
      simp [this]
    · rw [Function.update_noteq h8]

theorem run_mask_ops_inv (base : Nat) :
    ∀ (ops : List MaskOp) (c : Chip) (h : Nat → Bool), c.irq_base = base →
      allowed_consistent c → allowed_tracks c h →
      (∀ op ∈ ops, base ≤ op.irq ∧ op.irq < base + MAX_PM_IRQ) →
      (run_mask_ops ops c).irq_base = base ∧ allowed_consistent (run_mask_ops ops c) ∧
        allowed_tracks (run_mask_ops ops c) (fun irq => last_is_unmask_from irq (h irq) ops) := by
  intro ops
  induction ops with
  | nil =>
    intro c h hb hc ht _
    exact ⟨hb, hc, ht⟩
  | cons op ops ih =>
    intro c h hb hc ht hops
    have hop := hops op (List.mem_cons_self _ _)
    have hrest : ∀ o ∈ ops, base ≤ o.irq ∧ o.irq < base + MAX_PM_IRQ :=
      fun o ho => hops o (List.mem_cons_of_mem _ ho)
    cases op with
    | mask irq =>
      have hr : irq - c.irq_base < 72 := by
        have := hop.2
        simp only [MaskOp.irq, MAX_PM_IRQ] at this
        omega
      have hirq : c.irq_base + (irq - c.irq_base) = irq := by
        have := hop.1
        simp only [MaskOp.irq] at this
        omega
      obtain ⟨f1, f2, f3, f4⟩ := pm8901_irq_mask_fields irq c hr
      have hc' := consistent_after_mask c (pm8901_irq_mask irq c) _ _ hc f2 f3 f4
      have ht' := tracks_after_mask c (pm8901_irq_mask irq c) _ h f1 hc.1 ht f2
      rw [hirq] at ht'
      obtain ⟨r1, r2, r3⟩ := ih (pm8901_irq_mask irq c) _ (f1.trans hb) hc' ht' hrest
      refine ⟨r1, r2, ?_⟩
      have e : (fun i => last_is_unmask_from i (Function.update h irq false i) ops) =
          (fun i => last_is_unmask_from i (h i) (MaskOp.mask irq :: ops)) := by
        funext i
        by_cases hi : i = irq
        · subst hi
          simp [last_is_unmask_from]
        · have hi' : irq ≠ i := fun hc => hi hc.symm
          simp [last_is_unmask_from, Function.update_noteq hi, hi']
      rw [← e]
      exact r3
    | unmask irq =>
      have hr : irq - c.irq_base < 72 := by
        have := hop.2
        simp only [MaskOp.irq, MAX_PM_IRQ] at this
        omega
      have hirq : c.irq_base + (irq - c.irq_base) = irq := by
        have := hop.1
        simp only [MaskOp.irq] at this
        omega
      obtain ⟨f1, f2, f3, f4⟩ := pm8901_irq_unmask_fields irq c hr
      have hc' := consistent_after_unmask c (pm8901_irq_unmask irq c) _ _
        (Nat.mod_lt _ (by norm_num)) (by omega) hc f2 f3 f4
      have ht' := tracks_after_unmask c (pm8901_irq_unmask irq c) _ h f1 hc.1 ht f2
      rw [hirq] at ht'
      obtain ⟨r1, r2, r3⟩ := ih (pm8901_irq_unmask irq c) _ (f1.trans hb) hc' ht' hrest
      refine ⟨r1, r2, ?_⟩
      have e : (fun i => last_is_unmask_from i (Function.update h irq true i) ops) =
          (fun i => last_is_unmask_from i (h i) (MaskOp.unmask irq :: ops)) := by
        funext i
        by_cases hi : i = irq
        · subst hi
          simp [last_is_unmask_from]
        · have hi' : irq ≠ i := fun hc => hi hc.symm
          simp [last_is_unmask_from, Function.update_noteq hi, hi']
      rw [← e]
      exact r3

theorem zero_chip_consistent (irq_base : Nat) (bus_rc : Nat → Int) (bus_data : Nat → Nat) :
    allowed_consistent (zero_chip irq_base bus_rc bus_data) ∧
      allowed_tracks (zero_chip irq_base bus_rc bus_data) (fun _ => false) := by
  refine ⟨⟨?_, ?_, ?_, ?_, ?_⟩, ?_⟩ <;> simp [zero_chip, allowed_tracks]

/-- C29: start from the zero-initialised chip and make any sequence of
`pm8901_irq_mask` and `pm8901_irq_unmask` calls on interrupts in
`[irq_base, irq_base + 72)`, on any bus.  Then for every block `b` bit
`b mod 8` of `blocks_allowed[b / 8]` is set iff `irqs_allowed[b]` is non-zero;
for every master `m` bit `m` of `masters_allowed` is set iff
`blocks_allowed[m]` is non-zero; and for every interrupt of the chip, its bit
in `irqs_allowed` is set iff the last of the calls made for it was an
unmask. -/
theorem C29_allowed_mask_hierarchy (irq_base : Nat) (bus_rc : Nat → Int)
    (bus_data : Nat → Nat) (ops : List MaskOp)
    (hops : ∀ op ∈ ops, irq_base ≤ op.irq ∧ op.irq < irq_base + MAX_PM_IRQ) :
    (∀ b, b < MAX_PM_BLOCKS →
      (((run_mask_ops ops (zero_chip irq_base bus_rc bus_data)).blocks_allowed (b / 8)).testBit
          (b % 8) = true ↔
        (run_mask_ops ops (zero_chip irq_base bus_rc bus_data)).irqs_allowed b ≠ 0)) ∧
    (∀ m, m < MAX_PM_MASTERS →
      ((run_mask_ops ops (zero_chip irq_base bus_rc bus_data)).masters_allowed.testBit m = true ↔
        (run_mask_ops ops (zero_chip irq_base bus_rc bus_data)).blocks_allowed m ≠ 0)) ∧
    (∀ irq, irq_base ≤ irq → irq < irq_base + MAX_PM_IRQ →
      (((run_mask_ops ops (zero_chip irq_base bus_rc bus_data)).irqs_allowed
            ((irq - irq_base) / 8)).testBit ((irq - irq_base) % 8) = true ↔
        last_is_unmask ops irq = true)) := by
  obtain ⟨hc, ht⟩ := zero_chip_consistent irq_base bus_rc bus_data
  obtain ⟨r1, r2, r3⟩ :=
    run_mask_ops_inv irq_base ops (zero_chip irq_base bus_rc bus_data) (fun _ => false) rfl hc ht
      hops
  refine ⟨fun b _ => r2.2.2.2.1 b, fun m _ => r2.2.2.2.2 m, ?_⟩
  intro irq h1 _
  have := r3 (irq - irq_base)
  rw [r1] at this
  have e : irq_base + (irq - irq_base) = irq := by omega
  rw [e] at this
  rw [this]
  rfl

set_option maxRecDepth 8000 in
/-- C29 on the chip with interrupt base 512 after unmask 3, unmask 12, mask
3: block 0 is empty again and block 1 holds interrupt 12, so `blocks_allowed[0]`
is `0x02` and `masters_allowed` is `0x01`. -/
theorem C29_allowed_mask_hierarchy_witness :
    (∀ op ∈ mask_scenario, 512 ≤ op.irq ∧ op.irq < 512 + MAX_PM_IRQ) ∧
    (run_mask_ops mask_scenario (zero_chip 512 (fun _ => 0) (fun _ => 0))).irqs_allowed 0 = 0 ∧
    (run_mask_ops mask_scenario (zero_chip 512 (fun _ => 0) (fun _ => 0))).irqs_allowed 1 =
      0x10 ∧
    (run_mask_ops mask_scenario (zero_chip 512 (fun _ => 0) (fun _ => 0))).blocks_allowed 0 =
      0x02 ∧
    (run_mask_ops mask_scenario (zero_chip 512 (fun _ => 0) (fun _ => 0))).masters_allowed =
      0x01 ∧
    last_is_unmask mask_scenario (512 + 3) = false ∧
    last_is_unmask mask_scenario (512 + 12) = true ∧
    ((((run_mask_ops mask_scenario (zero_chip 512 (fun _ => 0) (fun _ => 0))).irqs_allowed
          ((512 + 12 - 512) / 8)).testBit ((512 + 12 - 512) % 8) = true ↔
      last_is_unmask mask_scenario (512 + 12) = true)) :=
  ⟨by decide, by decide, by decide, by decide, by decide, by decide, by decide,
   (C29_allowed_mask_hierarchy 512 (fun _ => 0) (fun _ => 0) mask_scenario (by decide)).2.2
     (512 + 12) (by decide) (by decide)⟩

end Pmic8901
